import Mathlib

/-!
Verification of the hashmap.c specification (tidwall/hashmap.c).

The repository snapshot under verification contains only `hashmap.h` (the
public declarations) and the README; the implementation file `hashmap.c`
itself is absent.  Following the specification document, the table core,
the iteration functions and the bundled hash functions are therefore
modelled from the spec (each such definition carries a doc comment saying
so).  Machine integers are modelled as `Nat` with explicit reduction
`% 2 ^ 64` where 64-bit overflow matters; caller records are an opaque
type `α`; the caller's hash and equality callbacks are fields of the
table; fallible allocation is modelled by an explicit `allocOk : Bool`
argument on the operations that may allocate.
-/

set_option maxHeartbeats 1000000

/-- Forward distance from index `home` to index `i` on a circular array of
`n` buckets: `(i - home) mod n`, written with truncated `Nat` subtraction
avoided by first adding `n`. -/
def pdist (n home i : Nat) : Nat := (i + n - home) % n

/-- Modelled from the spec (§4.7, missing `hashmap.c`): the cached hash is
the caller's 64-bit hash-callback output with the highest bit (bit 63)
cleared.  The callback output is a `uint64_t`, modelled as an arbitrary
`Nat` reduced `% 2 ^ 64`; clearing bit 63 of a value below `2 ^ 64` is
reduction `% 2 ^ 63`. -/
def clipHash (h : Nat) : Nat := h % 2 ^ 64 % 2 ^ 63

/-- Modelled from the spec (§3, missing `hashmap.c`): one bucket of the
backing array, holding the probe-distance counter (`dib`, zero exactly
when the slot is empty), the cached hash and the record payload. -/
structure Bucket (α : Type) where
  dib : Nat
  hash : Nat
  item : α
deriving Repr, DecidableEq

/-- Modelled from the spec (§3, missing `hashmap.c`): the table state.
The bucket array is a function from indices to buckets; only indices
below `cap` are meaningful.  `mask` is not stored: since `cap` is kept a
power of two, `hash & mask` is `hash % cap` and wrapping is written
`% cap` throughout.  The allocator triple and the user-data pointer are
not modelled (allocation outcomes appear as explicit `allocOk`
arguments; `udata` is folded into the equality callback). -/
structure Hashmap (α : Type) where
  elHash : α → Nat → Nat → Nat
  elCompare : α → α → Int
  seed0 : Nat
  seed1 : Nat
  initialCap : Nat
  cap : Nat
  count : Nat
  growat : Nat
  shrinkat : Nat
  oom : Bool
  buckets : Nat → Bucket α

/-- The hash a table computes for a record: caller callback with both
seeds, then the high-bit clearing of §4.7. -/
def getHash (m : Hashmap α) (x : α) : Nat :=
  clipHash (m.elHash x m.seed0 m.seed1)

/-- A zeroed bucket (empty slot). -/
def emptyBucket [Inhabited α] : Bucket α := ⟨0, 0, default⟩

/-- Modelled from the spec (§4.1, missing `hashmap.c`): the capacity floor,
the smallest power of two that is at least `max 16 requested`. -/
def capLoop (n : Nat) : Nat → Nat → Nat
  | c, 0 => c
  | c, fuel + 1 => if n ≤ c then c else capLoop n (c * 2) fuel

/-- Modelled from the spec (§4.1, missing `hashmap.c`): the capacity
floor, starting from 16 and doubling until the requested capacity is
reached (fuelled by the request itself, which the lemmas below show is
sufficient). -/
def capFor (req : Nat) : Nat := capLoop (max 16 req) 16 req

/-- Modelled from the spec (§4.1, missing `hashmap.c`): the freshly
constructed table for a successful allocation: zero-initialized bucket
array at the floor capacity, `growat = cap * 3 / 4`,
`shrinkat = cap / 10`, callbacks and seeds stored. -/
def mkNew [Inhabited α] (elHash : α → Nat → Nat → Nat) (elCompare : α → α → Int)
    (seed0 seed1 reqCap : Nat) : Hashmap α :=
  { elHash := elHash
    elCompare := elCompare
    seed0 := seed0
    seed1 := seed1
    initialCap := capFor reqCap
    cap := capFor reqCap
    count := 0
    growat := capFor reqCap * 3 / 4
    shrinkat := capFor reqCap / 10
    oom := false
    buckets := fun _ => emptyBucket }

/-- Modelled from the spec (§4.1, missing `hashmap.c`): construction;
on allocation failure no table is produced. -/
def hashmap_new [Inhabited α] (elHash : α → Nat → Nat → Nat)
    (elCompare : α → α → Int) (seed0 seed1 reqCap : Nat) (allocOk : Bool) :
    Option (Hashmap α) :=
  if allocOk then some (mkNew elHash elCompare seed0 seed1 reqCap) else none

/-- Modelled from the spec (§4.3/§4.4, missing `hashmap.c`): the shared
probe loop locating the slot of a key.  Starting at the home index with
expected probe-distance 1, stop with `none` on an empty slot or on a slot
whose probe-distance is below the expected one; report the slot index on
a cached-hash match confirmed by the equality callback; otherwise advance
and increment the expected probe-distance.  The loop is written on
explicit fuel; the operations pass `cap + 1`, which the development
proves sufficient for well-formed tables. -/
def findLoop (m : Hashmap α) (q : α) (h : Nat) : Nat → Nat → Nat → Option Nat
  | _, _, 0 => none
  | i, d, fuel + 1 =>
    let b := m.buckets i
    if b.dib = 0 ∨ b.dib < d then none
    else if b.hash = h ∧ m.elCompare q b.item = 0 then some i
    else findLoop m q h ((i + 1) % m.cap) (d + 1) fuel

/-- Locate the bucket index holding the key of `q`, if any. -/
def hashmap_find (m : Hashmap α) (q : α) : Option Nat :=
  let h := getHash m q
  findLoop m q h (h % m.cap) 1 (m.cap + 1)

/-- Modelled from the spec (§4.3, missing `hashmap.c`): lookup returns the
stored record of the located slot, or nothing. -/
def hashmap_get (m : Hashmap α) (q : α) : Option α :=
  (hashmap_find m q).map fun i => (m.buckets i).item

/-- Modelled from the spec (§4.3, missing `hashmap.c`): the lookup loop
with the table state and the caller's query record threaded explicitly
through every step, exactly as the in-place algorithm holds them; used to
state that lookup writes neither. -/
def findLoopTr (q : α) (h : Nat) :
    Hashmap α → Nat → Nat → Nat → (Hashmap α × α) × Option Nat
  | m, _, _, 0 => ((m, q), none)
  | m, i, d, fuel + 1 =>
    let b := m.buckets i
    if b.dib = 0 ∨ b.dib < d then ((m, q), none)
    else if b.hash = h ∧ m.elCompare q b.item = 0 then ((m, q), some i)
    else findLoopTr q h m ((i + 1) % m.cap) (d + 1) fuel

/-- Lookup with explicit threading of the table and query: the result
carries the table state and query record as left by the operation. -/
def hashmap_get_tr (m : Hashmap α) (q : α) : (Hashmap α × α) × Option α :=
  let h := getHash m q
  let r := findLoopTr q h m (h % m.cap) 1 (m.cap + 1)
  (r.1, r.2.map fun i => (r.1.1.buckets i).item)

/-- The probing entry formed by `set` for a record: probe-distance 1,
cached hash, payload. -/
def bucketOf (m : Hashmap α) (x : α) : Bucket α :=
  ⟨1, getHash m x, x⟩

/-- Modelled from the spec (§4.2, missing `hashmap.c`): the Robin Hood
insertion walk.  At each slot: place the carried entry into an empty slot
and bump `count`; or, on a cached-hash plus equality-callback match,
overwrite the payload (keeping the slot's probe-distance and cached hash)
and return the previous payload; or, when the slot's probe-distance is
smaller than the carried entry's, swap and continue with the displaced
entry; otherwise advance with the probe-distance incremented.  Fuel-based;
the operations pass `cap`, proved sufficient for well-formed tables. -/
def setLoop (m : Hashmap α) (e : Bucket α) : Nat → Nat → Option (Hashmap α × Option α)
  | _, 0 => none
  | i, fuel + 1 =>
    let b := m.buckets i
    if b.dib = 0 then
      some ({ m with buckets := Function.update m.buckets i e, count := m.count + 1 }, none)
    else if e.hash = b.hash ∧ m.elCompare e.item b.item = 0 then
      some ({ m with buckets := Function.update m.buckets i ⟨b.dib, b.hash, e.item⟩ },
            some b.item)
    else if b.dib < e.dib then
      setLoop { m with buckets := Function.update m.buckets i e }
        ⟨b.dib + 1, b.hash, b.item⟩ ((i + 1) % m.cap) fuel
    else
      setLoop m ⟨e.dib + 1, e.hash, e.item⟩ ((i + 1) % m.cap) fuel

/-- Modelled from the spec (§4.6, missing `hashmap.c`): the reinsertion
walk used by resize.  Identical to the insertion walk except that no
equality check is made (all reinserted keys are distinct) and `count` is
not touched (resize keeps it). -/
def rhLoop (m : Hashmap α) (e : Bucket α) : Nat → Nat → Hashmap α
  | _, 0 => m
  | i, fuel + 1 =>
    let b := m.buckets i
    if b.dib = 0 then { m with buckets := Function.update m.buckets i e }
    else if b.dib < e.dib then
      rhLoop { m with buckets := Function.update m.buckets i e }
        ⟨b.dib + 1, b.hash, b.item⟩ ((i + 1) % m.cap) fuel
    else
      rhLoop m ⟨e.dib + 1, e.hash, e.item⟩ ((i + 1) % m.cap) fuel

/-- Reinsert one entry into a table, starting from the home position of
its cached hash (no new hash-callback invocation). -/
def reinsert (m : Hashmap α) (e : Bucket α) : Hashmap α :=
  rhLoop m e (e.hash % m.cap) m.cap

/-- Modelled from the spec (§4.6, missing `hashmap.c`): resize to
`newCap`: fresh zeroed bucket array, recomputed thresholds, then each
occupied slot of the old array reinserted in storage order with
probe-distance restarted at 1 and the cached hash reused. -/
def resize [Inhabited α] (m : Hashmap α) (newCap : Nat) : Hashmap α :=
  let base : Hashmap α :=
    { m with cap := newCap
             growat := newCap * 3 / 4
             shrinkat := newCap / 10
             buckets := fun _ => emptyBucket }
  (List.range m.cap).foldl
    (fun acc i =>
      let b := m.buckets i
      if b.dib ≠ 0 then reinsert acc ⟨1, b.hash, b.item⟩ else acc)
    base

/-- Modelled from the spec (§4.2 step 1, missing `hashmap.c`): growth
check before insertion.  When `count ≥ growat` the capacity is doubled;
`none` reports an allocation failure of that growth. -/
def growIfNeeded [Inhabited α] (m : Hashmap α) (allocOk : Bool) : Option (Hashmap α) :=
  if m.growat ≤ m.count then
    if allocOk then some (resize m (m.cap * 2)) else none
  else some m

/-- The insertion phase of `set`, after the growth check: clear the
out-of-memory flag and run the Robin Hood walk from the record's home
index.  The fuel-exhaustion fallback (unreachable for well-formed
tables) leaves the table unchanged. -/
def doInsert (m : Hashmap α) (x : α) : Hashmap α × Option α :=
  let m0 := { m with oom := false }
  match setLoop m0 (bucketOf m0 x) (getHash m0 x % m0.cap) m0.cap with
  | some r => r
  | none => (m0, none)

/-- Modelled from the spec (§4.2, missing `hashmap.c`): insert-or-replace.
If growth is required and its allocation fails, the table is left
unchanged apart from the out-of-memory flag being set, and nothing is
returned; otherwise the flag is cleared and the insertion walk runs.  The
previous record is returned when an equal key was present. -/
def hashmap_set [Inhabited α] (m : Hashmap α) (x : α) (allocOk : Bool) :
    Hashmap α × Option α :=
  match growIfNeeded m allocOk with
  | none => ({ m with oom := true }, none)
  | some m1 => doInsert m1 x

/-- Modelled from the spec (§4.4, missing `hashmap.c`): backward-shift
compaction after a deletion at the current slot.  Examine the next slot:
if it is empty or in its home position (probe-distance 1), mark the
current slot empty and stop; otherwise move it into the current slot with
its probe-distance decremented, and advance.  Fuel-based; the operations
pass `cap`, proved sufficient for well-formed tables (the fuel-exhaustion
fallback empties the current slot). -/
def shiftLoop (bs : Nat → Bucket α) (n : Nat) : Nat → Nat → (Nat → Bucket α)
  | i, 0 => Function.update bs i ⟨0, (bs i).hash, (bs i).item⟩
  | i, fuel + 1 =>
    let ni := (i + 1) % n
    let nb := bs ni
    if nb.dib ≤ 1 then Function.update bs i ⟨0, (bs i).hash, (bs i).item⟩
    else shiftLoop (Function.update bs i ⟨nb.dib - 1, nb.hash, nb.item⟩) n ni fuel

/-- Modelled from the spec (§4.4, missing `hashmap.c`): delete.  Locate
the slot as lookup does; if absent return nothing and change nothing.
Otherwise take the payload out, backward-shift-compact, decrement
`count`, and when `count ≤ shrinkat` and `cap > initial_cap` halve the
capacity — a shrink allocation failure is silently ignored.  The element
destructor is not invoked. -/
def hashmap_delete [Inhabited α] (m : Hashmap α) (q : α) (allocOk : Bool) :
    Hashmap α × Option α :=
  match hashmap_find m q with
  | none => (m, none)
  | some i =>
    let old := (m.buckets i).item
    let m1 := { m with buckets := shiftLoop m.buckets m.cap i m.cap
                       count := m.count - 1 }
    if m1.count ≤ m1.shrinkat ∧ m1.initialCap < m1.cap then
      if allocOk then (resize m1 (m1.cap / 2), some old) else (m1, some old)
    else (m1, some old)

/-- The occupied-slot pairs (cached hash, payload) read off a bucket
function along a given index list, in list order. -/
def pairsFun (bs : Nat → Bucket α) : List Nat → List (Nat × α)
  | [] => []
  | i :: l =>
    if (bs i).dib ≠ 0 then ((bs i).hash, (bs i).item) :: pairsFun bs l
    else pairsFun bs l

/-- The (cached hash, payload) pairs of the occupied slots of a table, in
bucket-storage order. -/
def pairsList (m : Hashmap α) : List (Nat × α) :=
  pairsFun m.buckets (List.range m.cap)

/-- The payloads of the occupied slots of a table, in bucket-storage
order. -/
def itemsList (m : Hashmap α) : List α :=
  (pairsList m).map Prod.snd

/-- The number of occupied slots of a table. -/
def occCount (m : Hashmap α) : Nat :=
  ((List.range m.cap).filter fun i => (m.buckets i).dib ≠ 0).length

/-- Modelled from the spec (§4.5, missing `hashmap.c`): clear.  The
records that the element destructor would be handed (each occupied
slot's payload, exactly once, in storage order) are returned alongside
the cleared table.  Every slot is reset to empty and `count` to zero;
when a capacity reset is requested and its allocation succeeds the
capacity returns to `initial_cap` (with thresholds recomputed), otherwise
the current capacity is kept and zeroed in place. -/
def hashmap_clear [Inhabited α] (m : Hashmap α) (updateCap allocOk : Bool) :
    Hashmap α × List α :=
  let freed := itemsList m
  let newCap := if updateCap && allocOk then m.initialCap else m.cap
  ({ m with cap := newCap
            count := 0
            growat := newCap * 3 / 4
            shrinkat := newCap / 10
            buckets := fun _ => emptyBucket }, freed)

/-- Modelled from the spec (§4.5, missing `hashmap.c`): free invokes the
destructor on every remaining record, exactly as clear does, then
releases storage; the model returns the records handed to the
destructor. -/
def hashmap_free (m : Hashmap α) : List α := itemsList m

/-- Modelled from the spec (§4.5, missing `hashmap.c`): the record count,
returned in constant time. -/
def hashmap_count (m : Hashmap α) : Nat := m.count

/-- Modelled from the spec (§4.5, missing `hashmap.c`): the out-of-memory
flag predicate. -/
def hashmap_oom (m : Hashmap α) : Bool := m.oom

/-- Modelled from the spec (§4.8, missing `hashmap.c`): the callback scan
over a list of bucket indices: skip empty slots, stop with `false` as
soon as the callback returns `false`, return `true` past the end. -/
def scanList (m : Hashmap α) (f : α → Bool) : List Nat → Bool
  | [] => true
  | i :: rest =>
    let b := m.buckets i
    if b.dib ≠ 0 then
      if f b.item then scanList m f rest else false
    else scanList m f rest

/-- Modelled from the spec (§4.8, missing `hashmap.c`): callback scan in
bucket-storage order. -/
def hashmap_scan (m : Hashmap α) (f : α → Bool) : Bool :=
  scanList m f (List.range m.cap)

/-- The scan together with the sequence of records on which the callback
is invoked, in invocation order (used to state how often and in which
order the callback runs). -/
def scanTrace (m : Hashmap α) (f : α → Bool) : List Nat → List α × Bool
  | [] => ([], true)
  | i :: rest =>
    let b := m.buckets i
    if b.dib ≠ 0 then
      if f b.item then
        let r := scanTrace m f rest
        (b.item :: r.1, r.2)
      else ([b.item], false)
    else scanTrace m f rest

/-- The records the scan callback is invoked on, in order, with the scan
result. -/
def hashmap_scanTr (m : Hashmap α) (f : α → Bool) : List α × Bool :=
  scanTrace m f (List.range m.cap)

/-- First occupied slot in a list of indices: yields the cursor bumped
past that slot together with its payload. -/
def iterFrom (m : Hashmap α) : List Nat → Option (Nat × α)
  | [] => none
  | i :: rest =>
    let b := m.buckets i
    if b.dib ≠ 0 then some (i + 1, b.item) else iterFrom m rest

/-- Modelled from the spec (§4.8, missing `hashmap.c`): cursor step.  The
next occupied index at or past the cursor yields its payload with the
cursor bumped past it; `none` models returning false with the out
parameter untouched. -/
def hashmap_iter (m : Hashmap α) (cursor : Nat) : Option (Nat × α) :=
  iterFrom m (List.range' cursor (m.cap - cursor))

/-- The sequence of records a cursor loop starting at the given cursor
yields (fuel-bounded; `cap + 1` is enough since the cursor strictly
grows). -/
def iterChain (m : Hashmap α) : Nat → Nat → List α
  | _, 0 => []
  | c, fuel + 1 =>
    match hashmap_iter m c with
    | none => []
    | some (c2, y) => y :: iterChain m c2 fuel

/-- Modelled from the spec (§4.8, missing `hashmap.c`): probe, a direct
indexed read of slot `position % cap`. -/
def hashmap_probe (m : Hashmap α) (position : Nat) : Option α :=
  let b := m.buckets (position % m.cap)
  if b.dib ≠ 0 then some b.item else none

/-! ## Bundled byte-string hash functions (§4.9) -/

/-- Truncation to a 64-bit word. -/
def w64 (x : Nat) : Nat := x % 2 ^ 64

/-- Left rotation of a 64-bit word (argument below `2 ^ 64`). -/
def rotl64 (x r : Nat) : Nat :=
  (x % 2 ^ (64 - r)) * 2 ^ r + x / 2 ^ (64 - r)

/-- Little-endian word value of a byte list (each byte reduced
`% 256`). -/
def leWord : List Nat → Nat
  | [] => 0
  | b :: bs => b % 256 + 256 * leWord bs

/-- One SipHash round on the four-word state. -/
def sipRound : Nat × Nat × Nat × Nat → Nat × Nat × Nat × Nat
  | (v0, v1, v2, v3) =>
    let v0 := w64 (v0 + v1)
    let v1 := rotl64 v1 13
    let v1 := v1 ^^^ v0
    let v0 := rotl64 v0 32
    let v2 := w64 (v2 + v3)
    let v3 := rotl64 v3 16
    let v3 := v3 ^^^ v2
    let v0 := w64 (v0 + v3)
    let v3 := rotl64 v3 21
    let v3 := v3 ^^^ v0
    let v2 := w64 (v2 + v1)
    let v1 := rotl64 v1 17
    let v1 := v1 ^^^ v2
    let v2 := rotl64 v2 32
    (v0, v1, v2, v3)

/-- SipHash-2-4 compression and finalization: two rounds per full 8-byte
little-endian block, the final block padded with the message length in
its top byte, then four finalization rounds. -/
def sipBlocks (len : Nat) : Nat × Nat × Nat × Nat → List Nat → Nat
  | (v0, v1, v2, v3), b0 :: b1 :: b2 :: b3 :: b4 :: b5 :: b6 :: b7 :: rest =>
    let mv := leWord [b0, b1, b2, b3, b4, b5, b6, b7]
    let s := sipRound (sipRound (v0, v1, v2, v3 ^^^ mv))
    sipBlocks len (s.1 ^^^ mv, s.2.1, s.2.2.1, s.2.2.2) rest
  | (v0, v1, v2, v3), tail =>
    let mv := leWord tail + len % 256 * 2 ^ 56
    let s := sipRound (sipRound (v0, v1, v2, v3 ^^^ mv))
    let f := sipRound (sipRound (sipRound (sipRound
      (s.1 ^^^ mv, s.2.1, s.2.2.1 ^^^ 0xff, s.2.2.2))))
    f.1 ^^^ f.2.1 ^^^ f.2.2.1 ^^^ f.2.2.2

/-- Modelled from the spec (§4.9, missing `hashmap.c`): SipHash-2-4 of a
byte string with `(seed0, seed1)` as the 128-bit key. -/
def hashmap_sip (data : List Nat) (seed0 seed1 : Nat) : Nat :=
  let k0 := seed0 % 2 ^ 64
  let k1 := seed1 % 2 ^ 64
  sipBlocks data.length
    (k0 ^^^ 0x736f6d6570736575, k1 ^^^ 0x646f72616e646f6d,
     k0 ^^^ 0x6c7967656e657261, k1 ^^^ 0x7465646279746573) data

/-- Truncation to a 32-bit word. -/
def w32 (x : Nat) : Nat := x % 2 ^ 32

/-- Left rotation of a 32-bit word (argument below `2 ^ 32`). -/
def rotl32 (x r : Nat) : Nat :=
  (x % 2 ^ (32 - r)) * 2 ^ r + x / 2 ^ (32 - r)

/-- The MurmurHash3 32-bit finalization mix. -/
def fmix32 (x : Nat) : Nat :=
  let h := x ^^^ (x / 2 ^ 16)
  let h := w32 (h * 0x85ebca6b)
  let h := h ^^^ (h / 2 ^ 13)
  let h := w32 (h * 0xc2b2ae35)
  h ^^^ (h / 2 ^ 16)

/-- The MurmurHash3-x86-128 lane mix: multiply, rotate, multiply. -/
def mmMix (c r cn k : Nat) : Nat := w32 (rotl32 (w32 (k * c)) r * cn)

/-- The MurmurHash3-x86-128 tail step: up to 15 trailing bytes are
folded into the four lanes exactly as the reference switch does. -/
def mmTail (t : List Nat) : Nat × Nat × Nat × Nat → Nat × Nat × Nat × Nat
  | (h1, h2, h3, h4) =>
    let k1 := leWord (t.take 4)
    let k2 := leWord ((t.drop 4).take 4)
    let k3 := leWord ((t.drop 8).take 4)
    let k4 := leWord (t.drop 12)
    let h4 := if 13 ≤ t.length then h4 ^^^ mmMix 0xa1e38b93 18 0x239b961b k4 else h4
    let h3 := if 9 ≤ t.length then h3 ^^^ mmMix 0x38b34ae5 17 0xa1e38b93 k3 else h3
    let h2 := if 5 ≤ t.length then h2 ^^^ mmMix 0xab0e9789 16 0x38b34ae5 k2 else h2
    let h1 := if 1 ≤ t.length then h1 ^^^ mmMix 0x239b961b 15 0xab0e9789 k1 else h1
    (h1, h2, h3, h4)

/-- The MurmurHash3-x86-128 body: full 16-byte blocks, then the tail and
the length/avalanche finalization. -/
def mmBody (len : Nat) : Nat × Nat × Nat × Nat → List Nat → Nat × Nat × Nat × Nat
  | (h1, h2, h3, h4), a0 :: a1 :: a2 :: a3 :: a4 :: a5 :: a6 :: a7 ::
      a8 :: a9 :: a10 :: a11 :: a12 :: a13 :: a14 :: a15 :: rest =>
    let h1 := h1 ^^^ mmMix 0x239b961b 15 0xab0e9789 (leWord [a0, a1, a2, a3])
    let h1 := w32 (w32 (rotl32 h1 19 + h2) * 5 + 0x561ccd1b)
    let h2 := h2 ^^^ mmMix 0xab0e9789 16 0x38b34ae5 (leWord [a4, a5, a6, a7])
    let h2 := w32 (w32 (rotl32 h2 17 + h3) * 5 + 0x0bcaa747)
    let h3 := h3 ^^^ mmMix 0x38b34ae5 17 0xa1e38b93 (leWord [a8, a9, a10, a11])
    let h3 := w32 (w32 (rotl32 h3 15 + h4) * 5 + 0x96cd1c35)
    let h4 := h4 ^^^ mmMix 0xa1e38b93 18 0x239b961b (leWord [a12, a13, a14, a15])
    let h4 := w32 (w32 (rotl32 h4 13 + h1) * 5 + 0x32ac3b17)
    mmBody len (h1, h2, h3, h4) rest
  | st, tail =>
    let s := mmTail tail st
    let h1 := s.1 ^^^ w32 len
    let h2 := s.2.1 ^^^ w32 len
    let h3 := s.2.2.1 ^^^ w32 len
    let h4 := s.2.2.2 ^^^ w32 len
    let h1 := w32 (w32 (w32 (h1 + h2) + h3) + h4)
    let h2 := w32 (h2 + h1)
    let h3 := w32 (h3 + h1)
    let h4 := w32 (h4 + h1)
    let h1 := fmix32 h1
    let h2 := fmix32 h2
    let h3 := fmix32 h3
    let h4 := fmix32 h4
    let h1 := w32 (w32 (w32 (h1 + h2) + h3) + h4)
    (h1, w32 (h2 + h1), w32 (h3 + h1), w32 (h4 + h1))

/-- The standard MurmurHash3-x86-128 digest of a byte string, as the
four 32-bit output words `(h1, h2, h3, h4)`. -/
def murmur3_x86_128 (data : List Nat) (seed : Nat) : Nat × Nat × Nat × Nat :=
  mmBody data.length (w32 seed, w32 seed, w32 seed, w32 seed) data

/-- Modelled from the spec (§4.9, missing `hashmap.c`): the bundled
MurmurHash3 helper: the low 64 bits of the MurmurHash3-x86-128 digest
(words `h1` and `h2`), seeded by the low 32 bits of `seed0`.  `seed1` is
accepted but unused. -/
def hashmap_murmur (data : List Nat) (seed0 seed1 : Nat) : Nat :=
  let r := murmur3_x86_128 data (seed0 % 2 ^ 32)
  r.1 + r.2.1 * 2 ^ 32

/-! ## Invariants -/

/-- Probe-distance correctness: every occupied bucket's probe-distance is
one more than the forward distance from its home index. -/
def Dinv (bs : Nat → Bucket α) (n : Nat) : Prop :=
  ∀ i < n, (bs i).dib ≠ 0 → (bs i).dib = 1 + pdist n ((bs i).hash % n) i

/-- The Robin Hood bound: a bucket with probe-distance at least 2 has a
predecessor whose probe-distance is at least one less (in particular the
predecessor is occupied). -/
def Rinv (bs : Nat → Bucket α) (n : Nat) : Prop :=
  ∀ i < n, 2 ≤ (bs i).dib → (bs i).dib ≤ (bs ((i + n - 1) % n)).dib + 1

/-- Cached-hash correctness: every occupied bucket caches the clipped
callback hash of its own payload. -/
def Hcinv (bs : Nat → Bucket α) (n : Nat) (hf : α → Nat) : Prop :=
  ∀ i < n, (bs i).dib ≠ 0 → (bs i).hash = hf (bs i).item

/-- Key uniqueness: among the stored (cached hash, payload) pairs, no two
distinct occurrences carry an equal key (equal cached hash and equality
callback answering 0, in either order). -/
def Uinv (m : Hashmap α) : Prop :=
  (pairsList m).Pairwise fun p q =>
    p.1 = q.1 → m.elCompare p.2 q.2 ≠ 0 ∧ m.elCompare q.2 p.2 ≠ 0

/-- Well-formedness of a table: the capacity discipline, the threshold
equations, the count, the probe-distance, Robin Hood and cached-hash
invariants. -/
structure WF (m : Hashmap α) : Prop where
  capPow : ∃ k, m.cap = 2 ^ k
  capGe : 16 ≤ m.cap
  icapPow : ∃ k, m.initialCap = 2 ^ k
  icapGe : 16 ≤ m.initialCap
  icapLe : m.initialCap ≤ m.cap
  growatEq : m.growat = m.cap * 3 / 4
  shrinkatEq : m.shrinkat = m.cap / 10
  countEq : m.count = occCount m
  countLe : m.count ≤ m.growat
  dinv : Dinv m.buckets m.cap
  rinv : Rinv m.buckets m.cap
  hcinv : Hcinv m.buckets m.cap (getHash m)

/-- The caller's callback contract (§6): equality-callback zero is
symmetric and transitive, and records it identifies are hashed
identically. -/
structure EqOk (m : Hashmap α) : Prop where
  symm : ∀ a b, m.elCompare a b = 0 → m.elCompare b a = 0
  trans : ∀ a b c, m.elCompare a b = 0 → m.elCompare b c = 0 → m.elCompare a c = 0
  hashCongr : ∀ a b, m.elCompare a b = 0 →
    m.elHash a m.seed0 m.seed1 = m.elHash b m.seed0 m.seed1

/-- Tables reachable by a sequence of construction and mutating calls
(lookups and iteration do not produce a new table state). -/
inductive Reachable : Hashmap α → Prop
  | new [Inhabited α] (elHash : α → Nat → Nat → Nat) (elCompare : α → α → Int)
      (seed0 seed1 reqCap : Nat) :
      Reachable (mkNew elHash elCompare seed0 seed1 reqCap)
  | set [Inhabited α] {m : Hashmap α} (x : α) (allocOk : Bool) :
      Reachable m → Reachable (hashmap_set m x allocOk).1
  | del [Inhabited α] {m : Hashmap α} (q : α) (allocOk : Bool) :
      Reachable m → Reachable (hashmap_delete m q allocOk).1
  | clr [Inhabited α] {m : Hashmap α} (updateCap allocOk : Bool) :
      Reachable m → Reachable (hashmap_clear m updateCap allocOk).1

/-- A slot matches a query record when it is occupied, its cached hash is
the query's table hash, and the equality callback answers 0. -/
def MatchAt (m : Hashmap α) (q : α) (i : Nat) : Prop :=
  (m.buckets i).dib ≠ 0 ∧ (m.buckets i).hash = getHash m q ∧
    m.elCompare q (m.buckets i).item = 0

instance (m : Hashmap α) (q : α) (i : Nat) : Decidable (MatchAt m q i) := by
  unfold MatchAt
  infer_instance

/-- The literal reading of the claimed Robin Hood clause: walking any
probe sequence, the probe-distances of the occupied buckets it meets
never decrease. -/
def ProbeSeqNonDecr (m : Hashmap α) : Prop :=
  ∀ h0 < m.cap, ∀ t1 < m.cap, ∀ t2 < m.cap, t1 ≤ t2 →
    (m.buckets ((h0 + t1) % m.cap)).dib ≠ 0 →
    (m.buckets ((h0 + t2) % m.cap)).dib ≠ 0 →
    (m.buckets ((h0 + t1) % m.cap)).dib ≤ (m.buckets ((h0 + t2) % m.cap)).dib

/-- The configuration fields every operation leaves untouched: callbacks,
seeds and the capacity floor. -/
def SameCfg (m m' : Hashmap α) : Prop :=
  m'.elHash = m.elHash ∧ m'.elCompare = m.elCompare ∧ m'.seed0 = m.seed0 ∧
    m'.seed1 = m.seed1 ∧ m'.initialCap = m.initialCap

/-- Mutation sequences that never address the key of `R`: insert-or-
replace and delete calls whose argument the table cannot identify with
`R` (different table hash, or equality callback nonzero).  These are the
"intervening inserts, deletes, and resizes involving other keys". -/
inductive OtherSteps [Inhabited α] (R : α) : Hashmap α → Hashmap α → Prop
  | refl (m : Hashmap α) : OtherSteps R m m
  | set {m0 m : Hashmap α} (x : α) (allocOk : Bool) :
      OtherSteps R m0 m →
      (getHash m x = getHash m R → m.elCompare x R ≠ 0) →
      OtherSteps R m0 (hashmap_set m x allocOk).1
  | del {m0 m : Hashmap α} (q : α) (allocOk : Bool) :
      OtherSteps R m0 m →
      (getHash m q = getHash m R → m.elCompare q R ≠ 0) →
      OtherSteps R m0 (hashmap_delete m q allocOk).1

/-- A concrete hash callback for witnesses: the record itself. -/
def natHash : Nat → Nat → Nat → Nat := fun x _ _ => x

/-- A concrete equality callback for witnesses: integer difference. -/
def natCmp : Nat → Nat → Int := fun a b => (a : Int) - (b : Int)

/-- A concrete freshly-created table over `Nat` records. -/
def mEx : Hashmap Nat := mkNew natHash natCmp 0 0 0

/-- A concrete table whose count has reached the growth threshold
(capacity 16, `growat` 12). -/
def mFull : Hashmap Nat :=
  { mEx with count := 12 }

/-- A concrete reachable table exhibiting a probe-distance drop along a
probe sequence: keys 0, 16, 32 share home slot 0 (probe-distances 1, 2,
3 in slots 0, 1, 2) and key 3 sits in its home slot 3 with
probe-distance 1. -/
def mBad : Hashmap Nat :=
  (hashmap_set (hashmap_set (hashmap_set (hashmap_set mEx 0 true).1
    16 true).1 32 true).1 3 true).1

/-! ## Arithmetic helper lemmas -/

theorem pred_succ_mod {n : Nat} (hn : 0 < n) (i : Nat) :
    ((i + 1) % n + n - 1) % n = i % n := by
  have h1 : (i + 1) % n + n - 1 = (i + 1) % n + (n - 1) := by omega
  rw [h1, Nat.mod_add_mod]
  have h2 : i + 1 + (n - 1) = i + n := by omega
  rw [h2, Nat.add_mod_right]

theorem pdist_self {n : Nat} (h : Nat) : pdist n h h = 0 := by
  unfold pdist
  rw [Nat.add_sub_cancel_left, Nat.mod_self]

theorem pdist_lt {n : Nat} (hn : 0 < n) (h i : Nat) : pdist n h i < n :=
  Nat.mod_lt _ hn

theorem pdist_succ {n h i : Nat} (hh : h < n) (hd : pdist n h i < n - 1) :
    pdist n h ((i + 1) % n) = pdist n h i + 1 := by
  unfold pdist at hd ⊢
  have h1 : (i + 1) % n + n - h = (i + 1) % n + (n - h) := by omega
  rw [h1, Nat.mod_add_mod]
  have h2 : i + 1 + (n - h) = i + n - h + 1 := by omega
  rw [h2]
  have h3 : (i + n - h) % n + 1 < n := by omega
  rw [← Nat.mod_add_mod, Nat.mod_eq_of_lt h3]

theorem add_pdist {n h j : Nat} (hh : h < n) (hj : j < n) :
    (h + pdist n h j) % n = j := by
  unfold pdist
  rw [Nat.add_mod_mod]
  have h2 : h + (j + n - h) = j + n := by omega
  rw [h2, Nat.add_mod_right, Nat.mod_eq_of_lt hj]

/-! ## Pairs-list helper lemmas -/

theorem pairsFun_cons (bs : Nat → Bucket α) (i : Nat) (l : List Nat) :
    pairsFun bs (i :: l) = pairsFun bs [i] ++ pairsFun bs l := by
  by_cases h : (bs i).dib = 0 <;> simp [pairsFun, h]

theorem pairsFun_append (bs : Nat → Bucket α) (l1 l2 : List Nat) :
    pairsFun bs (l1 ++ l2) = pairsFun bs l1 ++ pairsFun bs l2 := by
  induction l1 with
  | nil => rfl
  | cons i l ih =>
    by_cases h : (bs i).dib = 0 <;> simp [pairsFun, h, ih]

theorem pairsFun_congr {bs1 bs2 : Nat → Bucket α} {l : List Nat}
    (h : ∀ i ∈ l, bs1 i = bs2 i) : pairsFun bs1 l = pairsFun bs2 l := by
  induction l with
  | nil => rfl
  | cons i l ih =>
    have hi : bs1 i = bs2 i := h i (List.mem_cons_self i l)
    have ih2 := ih fun j hj => h j (List.mem_cons_of_mem i hj)
    by_cases hz : (bs2 i).dib = 0 <;> simp [pairsFun, hi, hz, ih2]

theorem pairsFun_update_not_mem {bs : Nat → Bucket α} {j : Nat} {l : List Nat}
    (h : j ∉ l) (b : Bucket α) :
    pairsFun (Function.update bs j b) l = pairsFun bs l := by
  refine pairsFun_congr fun i hi => ?_
  have hne : i ≠ j := by
    intro he
    subst he
    exact h hi
  exact Function.update_noteq hne b bs

theorem pairsFun_length (bs : Nat → Bucket α) (l : List Nat) :
    (pairsFun bs l).length = (l.filter fun i => (bs i).dib ≠ 0).length := by
  induction l with
  | nil => rfl
  | cons i l ih =>
    by_cases h : (bs i).dib = 0 <;> simp [pairsFun, h, List.filter_cons, ih]

theorem range_split {n j : Nat} (hj : j < n) :
    List.range n = List.range j ++ j :: List.range' (j + 1) (n - (j + 1)) := by
  rw [List.range_eq_range']
  have h1 : List.range' 0 n = List.range' 0 j ++ List.range' (0 + j) (n - j) := by
    rw [List.range'_append_1]
    congr 1
    omega
  rw [h1, ← List.range_eq_range']
  congr 1
  have h2 : n - j = (n - (j + 1)) + 1 := by omega
  rw [Nat.zero_add, h2, List.range'_succ]

theorem pairsFun_single (bs : Nat → Bucket α) (j : Nat) :
    pairsFun bs [j] =
      if (bs j).dib ≠ 0 then [((bs j).hash, (bs j).item)] else [] := by
  by_cases h : (bs j).dib = 0 <;> simp [pairsFun, h]

theorem pairs_update_split (bs : Nat → Bucket α) {n : Nat} (j : Nat) (hj : j < n)
    (b : Bucket α) :
    ∃ l1 l2,
      pairsFun bs (List.range n) = l1 ++ (pairsFun bs [j] ++ l2) ∧
      pairsFun (Function.update bs j b) (List.range n) =
        l1 ++ (pairsFun (Function.update bs j b) [j] ++ l2) := by
  refine ⟨pairsFun bs (List.range j),
          pairsFun bs (List.range' (j + 1) (n - (j + 1))), ?_, ?_⟩
  · rw [range_split hj, pairsFun_append, pairsFun_cons]
  · rw [range_split hj, pairsFun_append, pairsFun_cons]
    have hleft : j ∉ List.range j := by simp
    have hright : j ∉ List.range' (j + 1) (n - (j + 1)) := by
      intro hmem
      have := List.mem_range'_1.1 hmem
      omega
    rw [pairsFun_update_not_mem hleft, pairsFun_update_not_mem hright]

theorem pdist_add {n h0 g : Nat} (hh : h0 < n) (hg : g < n) :
    pdist n h0 ((h0 + g) % n) = g := by
  unfold pdist
  have h1 : (h0 + g) % n + n - h0 = (h0 + g) % n + (n - h0) := by omega
  rw [h1, Nat.mod_add_mod]
  have h2 : h0 + g + (n - h0) = g + n := by omega
  rw [h2, Nat.add_mod_right, Nat.mod_eq_of_lt hg]

/-! ## Probe-loop lemmas -/

theorem findLoop_sound {m : Hashmap α} {q : α} {h : Nat} :
    ∀ {fuel i d j : Nat}, i < m.cap → findLoop m q h i d fuel = some j →
      j < m.cap ∧ (m.buckets j).dib ≠ 0 ∧ (m.buckets j).hash = h ∧
        m.elCompare q (m.buckets j).item = 0 := by
  intro fuel
  induction fuel with
  | zero =>
    intro i d j hi he
    simp [findLoop] at he
  | succ fuel ih =>
    intro i d j hi he
    have hn : 0 < m.cap := Nat.lt_of_le_of_lt (Nat.zero_le _) hi
    by_cases h1 : (m.buckets i).dib = 0 ∨ (m.buckets i).dib < d
    · simp [findLoop, h1] at he
    · by_cases h2 : (m.buckets i).hash = h ∧ m.elCompare q (m.buckets i).item = 0
      · simp [findLoop, h1, h2] at he
        subst he
        push_neg at h1
        exact ⟨hi, h1.1, h2.1, h2.2⟩
      · simp [findLoop, h1, h2] at he
        exact ih (Nat.mod_lt _ hn) he

theorem dib_chain {m : Hashmap α} (hD : Dinv m.buckets m.cap)
    (hR : Rinv m.buckets m.cap) {j : Nat} (hj : j < m.cap)
    (hocc : (m.buckets j).dib ≠ 0) :
    ∀ t, t ≤ pdist m.cap ((m.buckets j).hash % m.cap) j →
      t + 1 ≤ (m.buckets (((m.buckets j).hash % m.cap + t) % m.cap)).dib := by
  have hn : 0 < m.cap := Nat.lt_of_le_of_lt (Nat.zero_le _) hj
  have hh : (m.buckets j).hash % m.cap < m.cap := Nat.mod_lt _ hn
  have key : ∀ k t, t + k = pdist m.cap ((m.buckets j).hash % m.cap) j →
      t + 1 ≤ (m.buckets (((m.buckets j).hash % m.cap + t) % m.cap)).dib := by
    intro k
    induction k with
    | zero =>
      intro t ht
      have heq : t = pdist m.cap ((m.buckets j).hash % m.cap) j := by omega
      subst heq
      rw [add_pdist hh hj]
      have := hD j hj hocc
      omega
    | succ k ih =>
      intro t ht
      have h1 := ih (t + 1) (by omega)
      simp only [← Nat.add_assoc] at h1
      have hlt : ((m.buckets j).hash % m.cap + t + 1) % m.cap < m.cap :=
        Nat.mod_lt _ hn
      have h2 := hR _ hlt (by omega)
      rw [pred_succ_mod hn] at h2
      omega
  intro t ht
  exact key (pdist m.cap ((m.buckets j).hash % m.cap) j - t) t (by omega)

theorem findLoop_reach {m : Hashmap α} {q : α} (hD : Dinv m.buckets m.cap)
    (hR : Rinv m.buckets m.cap) {jm : Nat} (hjm : jm < m.cap)
    (hmat : MatchAt m q jm)
    (hfirst : ∀ t < pdist m.cap (getHash m q % m.cap) jm,
      ¬ MatchAt m q ((getHash m q % m.cap + t) % m.cap)) :
    ∀ fuel t, t ≤ pdist m.cap (getHash m q % m.cap) jm →
      pdist m.cap (getHash m q % m.cap) jm - t < fuel →
      findLoop m q (getHash m q) ((getHash m q % m.cap + t) % m.cap) (t + 1) fuel =
        some jm := by
  have hn : 0 < m.cap := Nat.lt_of_le_of_lt (Nat.zero_le _) hjm
  have hh0 : getHash m q % m.cap < m.cap := Nat.mod_lt _ hn
  have hhash : (m.buckets jm).hash = getHash m q := hmat.2.1
  have hocc : (m.buckets jm).dib ≠ 0 := hmat.1
  have hchain := dib_chain hD hR hjm hocc
  rw [hhash] at hchain
  intro fuel
  induction fuel with
  | zero =>
    intro t ht hf
    omega
  | succ fuel ih =>
    intro t ht hf
    have hdib := hchain t ht
    have hguard : ¬ ((m.buckets ((getHash m q % m.cap + t) % m.cap)).dib = 0 ∨
        (m.buckets ((getHash m q % m.cap + t) % m.cap)).dib < t + 1) := by
      omega
    by_cases hend : t = pdist m.cap (getHash m q % m.cap) jm
    · subst hend
      rw [add_pdist hh0 hjm]
      have htest : (m.buckets jm).hash = getHash m q ∧
          m.elCompare q (m.buckets jm).item = 0 := ⟨hhash, hmat.2.2⟩
      rw [add_pdist hh0 hjm] at hguard
      simp [findLoop, hguard, htest]
    · have htlt : t < pdist m.cap (getHash m q % m.cap) jm := by omega
      have hnm := hfirst t htlt
      have htest : ¬ ((m.buckets ((getHash m q % m.cap + t) % m.cap)).hash = getHash m q ∧
          m.elCompare q (m.buckets ((getHash m q % m.cap + t) % m.cap)).item = 0) := by
        intro hc
        exact hnm ⟨by omega, hc.1, hc.2⟩
      have hstep : ((getHash m q % m.cap + t) % m.cap + 1) % m.cap =
          (getHash m q % m.cap + (t + 1)) % m.cap := by
        rw [Nat.mod_add_mod]
        rfl
      simp only [findLoop]
      rw [if_neg hguard, if_neg htest, hstep]
      exact ih (t + 1) (by omega) (by omega)

theorem findLoop_not_found {m : Hashmap α} {q : α}
    (habs : ∀ j < m.cap, ¬ MatchAt m q j) :
    ∀ fuel i d, i < m.cap → findLoop m q (getHash m q) i d fuel = none := by
  intro fuel
  induction fuel with
  | zero =>
    intro i d hi
    rfl
  | succ fuel ih =>
    intro i d hi
    have hn : 0 < m.cap := Nat.lt_of_le_of_lt (Nat.zero_le _) hi
    by_cases h1 : (m.buckets i).dib = 0 ∨ (m.buckets i).dib < d
    · simp [findLoop, h1]
    · have htest : ¬ ((m.buckets i).hash = getHash m q ∧
          m.elCompare q (m.buckets i).item = 0) := by
        intro hc
        push_neg at h1
        exact habs i hi ⟨h1.1, hc.1, hc.2⟩
      simp [findLoop, h1, htest]
      exact ih _ _ (Nat.mod_lt _ hn)

theorem exists_first_match {m : Hashmap α} {q : α} {j : Nat}
    (hj : j < m.cap) (hmat : MatchAt m q j) :
    ∃ jm < m.cap, MatchAt m q jm ∧
      ∀ t < pdist m.cap (getHash m q % m.cap) jm,
        ¬ MatchAt m q ((getHash m q % m.cap + t) % m.cap) := by
  have hn : 0 < m.cap := Nat.lt_of_le_of_lt (Nat.zero_le _) hj
  have hh0 : getHash m q % m.cap < m.cap := Nat.mod_lt _ hn
  have hP : ∃ t, MatchAt m q ((getHash m q % m.cap + t) % m.cap) := by
    refine ⟨pdist m.cap (getHash m q % m.cap) j, ?_⟩
    rw [add_pdist hh0 hj]
    exact hmat
  have hfb : Nat.find hP ≤ pdist m.cap (getHash m q % m.cap) j := by
    apply Nat.find_min'
    rw [add_pdist hh0 hj]
    exact hmat
  have hflt : Nat.find hP < m.cap :=
    Nat.lt_of_le_of_lt hfb (pdist_lt hn _ _)
  refine ⟨(getHash m q % m.cap + Nat.find hP) % m.cap, Nat.mod_lt _ hn,
    Nat.find_spec hP, ?_⟩
  intro t ht
  rw [pdist_add hh0 hflt] at ht
  exact Nat.find_min hP ht

theorem hashmap_find_of_match {m : Hashmap α} {q : α}
    (hD : Dinv m.buckets m.cap) (hR : Rinv m.buckets m.cap)
    {j : Nat} (hj : j < m.cap) (hmat : MatchAt m q j) :
    ∃ jm < m.cap, MatchAt m q jm ∧ hashmap_find m q = some jm := by
  have hn : 0 < m.cap := Nat.lt_of_le_of_lt (Nat.zero_le _) hj
  obtain ⟨jm, hjm, hm, hfirst⟩ := exists_first_match hj hmat
  refine ⟨jm, hjm, hm, ?_⟩
  have := findLoop_reach hD hR hjm hm hfirst (m.cap + 1) 0 (Nat.zero_le _)
    (by have := pdist_lt hn (getHash m q % m.cap) jm; omega)
  rw [Nat.add_zero, Nat.mod_mod] at this
  exact this

theorem hashmap_find_absent {m : Hashmap α} {q : α} (hn : 0 < m.cap)
    (habs : ∀ j < m.cap, ¬ MatchAt m q j) : hashmap_find m q = none :=
  findLoop_not_found habs (m.cap + 1) (getHash m q % m.cap) 1 (Nat.mod_lt _ hn)

theorem hashmap_get_absent {m : Hashmap α} {q : α} (hn : 0 < m.cap)
    (habs : ∀ j < m.cap, ¬ MatchAt m q j) : hashmap_get m q = none := by
  unfold hashmap_get
  rw [hashmap_find_absent hn habs]
  rfl

theorem hashmap_find_sound {m : Hashmap α} {q : α} {j : Nat}
    (hn : 0 < m.cap) (h : hashmap_find m q = some j) :
    j < m.cap ∧ MatchAt m q j := by
  have := findLoop_sound (Nat.mod_lt (getHash m q) hn) h
  exact ⟨this.1, this.2.1, this.2.2.1, this.2.2.2⟩

theorem findLoopTr_eq {q : α} {h : Nat} :
    ∀ (fuel : Nat) (m : Hashmap α) (i d : Nat),
      findLoopTr q h m i d fuel = ((m, q), findLoop m q h i d fuel) := by
  intro fuel
  induction fuel with
  | zero =>
    intro m i d
    rfl
  | succ fuel ih =>
    intro m i d
    simp only [findLoopTr, findLoop]
    by_cases h1 : (m.buckets i).dib = 0 ∨ (m.buckets i).dib < d
    · rw [if_pos h1, if_pos h1]
    · rw [if_neg h1, if_neg h1]
      by_cases h2 : (m.buckets i).hash = h ∧ m.elCompare q (m.buckets i).item = 0
      · rw [if_pos h2, if_pos h2]
      · rw [if_neg h2, if_neg h2, ih]

theorem hashmap_get_tr_eq (m : Hashmap α) (q : α) :
    hashmap_get_tr m q = ((m, q), hashmap_get m q) := by
  simp only [hashmap_get_tr, hashmap_get, hashmap_find, findLoopTr_eq]

/-! ## The master lemma for the Robin Hood insertion walk -/

theorem setLoop_masterA :
    ∀ (fuel : Nat) (m : Hashmap α) (e : Bucket α) (i g : Nat),
      i < m.cap →
      Dinv m.buckets m.cap → Rinv m.buckets m.cap →
      Hcinv m.buckets m.cap (getHash m) →
      e.dib = 1 + pdist m.cap (e.hash % m.cap) i →
      e.hash = getHash m e.item →
      (2 ≤ e.dib → e.dib ≤ (m.buckets ((i + m.cap - 1) % m.cap)).dib + 1) →
      (m.buckets ((i + g) % m.cap)).dib = 0 →
      (∀ t < g, (m.buckets ((i + t) % m.cap)).dib ≠ 0) →
      e.dib + g ≤ m.cap →
      g < fuel →
      ∃ m' res, setLoop m e i fuel = some (m', res) ∧
        SameCfg m m' ∧ m'.cap = m.cap ∧ m'.growat = m.growat ∧
        m'.shrinkat = m.shrinkat ∧ m'.oom = m.oom ∧
        Dinv m'.buckets m'.cap ∧ Rinv m'.buckets m'.cap ∧
        Hcinv m'.buckets m'.cap (getHash m') ∧
        ((res = none ∧ m'.count = m.count + 1 ∧
            (pairsList m').Perm ((e.hash, e.item) :: pairsList m)) ∨
         (∃ old hold, res = some old ∧ m'.count = m.count ∧
            ((hold, old) :: pairsList m').Perm ((e.hash, e.item) :: pairsList m))) := by
  intro fuel
  induction fuel with
  | zero =>
    intro m e i g hi hD hR hH hE hEh hLP hgap hocc hbound hfuel
    omega
  | succ fuel ih =>
    intro m e i g hi hD hR hH hE hEh hLP hgap hocc hbound hfuel
    have hn : 0 < m.cap := Nat.lt_of_le_of_lt (Nat.zero_le _) hi
    have hedib : 1 ≤ e.dib := by omega
    have hednz : e.dib ≠ 0 := by omega
    by_cases hbz : (m.buckets i).dib = 0
    · -- empty slot: place the entry here
      have hD1 : Dinv (Function.update m.buckets i e) m.cap := by
        intro j hj hjz
        by_cases hji : j = i
        · subst hji
          rw [Function.update_same] at hjz ⊢
          exact hE
        · rw [Function.update_noteq hji] at hjz ⊢
          exact hD j hj hjz
      have hR1 : Rinv (Function.update m.buckets i e) m.cap := by
        intro j hj hj2
        by_cases hji : j = i
        · subst hji
          rw [Function.update_same] at hj2 ⊢
          by_cases hpi : (j + m.cap - 1) % m.cap = j
          · rw [hpi, Function.update_same]
            omega
          · rw [Function.update_noteq hpi]
            exact hLP hj2
        · rw [Function.update_noteq hji] at hj2 ⊢
          by_cases hpi : (j + m.cap - 1) % m.cap = i
          · have := hR j hj hj2
            rw [hpi, hbz] at this
            omega
          · rw [Function.update_noteq hpi]
            exact hR j hj hj2
      have hH1 : Hcinv (Function.update m.buckets i e) m.cap (getHash m) := by
        intro j hj hjz
        by_cases hji : j = i
        · subst hji
          rw [Function.update_same] at hjz ⊢
          exact hEh
        · rw [Function.update_noteq hji] at hjz ⊢
          exact hH j hj hjz
      obtain ⟨l1, l2, holdE, hnewE⟩ := pairs_update_split m.buckets i hi e
      have h1 : pairsFun m.buckets [i] = [] := by
        rw [pairsFun_single, if_neg (fun hc => hc hbz)]
      have h2 : pairsFun (Function.update m.buckets i e) [i] = [(e.hash, e.item)] := by
        rw [pairsFun_single, Function.update_same, if_pos hednz]
      refine ⟨{ m with buckets := Function.update m.buckets i e,
                       count := m.count + 1 }, none, ?_, ?_⟩
      · simp only [setLoop]
        rw [if_pos hbz]
      refine ⟨⟨rfl, rfl, rfl, rfl, rfl⟩, rfl, rfl, rfl, rfl, hD1, hR1, hH1, ?_⟩
      left
      refine ⟨rfl, rfl, ?_⟩
      show (pairsFun (Function.update m.buckets i e) (List.range m.cap)).Perm
        ((e.hash, e.item) :: pairsFun m.buckets (List.range m.cap))
      rw [hnewE, h2, holdE, h1, List.nil_append, List.singleton_append]
      exact List.perm_middle
    · -- occupied slot
      have hg1 : 1 ≤ g := by
        rcases Nat.eq_zero_or_pos g with hg0 | hg0
        · subst hg0
          rw [Nat.add_zero, Nat.mod_eq_of_lt hi] at hgap
          exact absurd hgap hbz
        · exact hg0
      have hglt : g < m.cap := by omega
      have hinelt : (i + 1) % m.cap < m.cap := Nat.mod_lt _ hn
      have hignei : (i + g) % m.cap ≠ i := by
        intro hc
        have := pdist_add hi hglt
        rw [hc, pdist_self] at this
        omega
      by_cases hmt : e.hash = (m.buckets i).hash ∧
          m.elCompare e.item (m.buckets i).item = 0
      · -- replace
        have hdib_same : ∀ j, ((Function.update m.buckets i
            ⟨(m.buckets i).dib, (m.buckets i).hash, e.item⟩) j).dib =
            (m.buckets j).dib := by
          intro j
          by_cases hji : j = i
          · subst hji
            rw [Function.update_same]
          · rw [Function.update_noteq hji]
        have hD1 : Dinv (Function.update m.buckets i
            ⟨(m.buckets i).dib, (m.buckets i).hash, e.item⟩) m.cap := by
          intro j hj hjz
          rw [hdib_same] at hjz ⊢
          by_cases hji : j = i
          · subst hji
            rw [Function.update_same]
            exact hD j hj hjz
          · rw [Function.update_noteq hji]
            exact hD j hj hjz
        have hR1 : Rinv (Function.update m.buckets i
            ⟨(m.buckets i).dib, (m.buckets i).hash, e.item⟩) m.cap := by
          intro j hj hj2
          rw [hdib_same] at hj2 ⊢
          rw [hdib_same]
          exact hR j hj hj2
        have hH1 : Hcinv (Function.update m.buckets i
            ⟨(m.buckets i).dib, (m.buckets i).hash, e.item⟩) m.cap (getHash m) := by
          intro j hj hjz
          rw [hdib_same] at hjz
          by_cases hji : j = i
          · subst hji
            rw [Function.update_same]
            rw [← hmt.1, hEh]
          · rw [Function.update_noteq hji]
            exact hH j hj hjz
        obtain ⟨l1, l2, holdE, hnewE⟩ := pairs_update_split m.buckets i hi
          ⟨(m.buckets i).dib, (m.buckets i).hash, e.item⟩
        have h1 : pairsFun m.buckets [i] =
            [((m.buckets i).hash, (m.buckets i).item)] := by
          rw [pairsFun_single, if_pos hbz]
        have h2 : pairsFun (Function.update m.buckets i
            ⟨(m.buckets i).dib, (m.buckets i).hash, e.item⟩) [i] =
            [((m.buckets i).hash, e.item)] := by
          rw [pairsFun_single, Function.update_same]
          exact if_pos hbz
        refine ⟨{ m with buckets := Function.update m.buckets i ⟨(m.buckets i).dib, (m.buckets i).hash, e.item⟩ }, some (m.buckets i).item, ?_, ?_⟩
        · simp only [setLoop]
          rw [if_neg hbz, if_pos hmt]
        refine ⟨⟨rfl, rfl, rfl, rfl, rfl⟩, rfl, rfl, rfl, rfl, hD1, hR1, hH1, ?_⟩
        right
        refine ⟨(m.buckets i).item, (m.buckets i).hash, rfl, rfl, ?_⟩
        show (((m.buckets i).hash, (m.buckets i).item) ::
          pairsFun (Function.update m.buckets i
            ⟨(m.buckets i).dib, (m.buckets i).hash, e.item⟩) (List.range m.cap)).Perm
          ((e.hash, e.item) :: pairsFun m.buckets (List.range m.cap))
        rw [hnewE, h2, holdE, h1, List.singleton_append, List.singleton_append,
          hmt.1]
        exact (List.Perm.cons _ List.perm_middle).trans
          ((List.Perm.swap _ _ _).trans
            (List.Perm.cons _ List.perm_middle.symm))
      · -- no match here: move on
        have hbound2 : e.dib ≤ m.cap - 1 := by omega
        have hpd : pdist m.cap (e.hash % m.cap) i < m.cap - 1 := by omega
        have hEhlt : e.hash % m.cap < m.cap := Nat.mod_lt _ hn
        have hstep_pd : pdist m.cap (e.hash % m.cap) ((i + 1) % m.cap) =
            pdist m.cap (e.hash % m.cap) i + 1 := pdist_succ hEhlt hpd
        have hpred : ((i + 1) % m.cap + m.cap - 1) % m.cap = i := by
          rw [pred_succ_mod hn, Nat.mod_eq_of_lt hi]
        have hidx_shift : ((i + 1) % m.cap + (g - 1)) % m.cap = (i + g) % m.cap := by
          rw [Nat.mod_add_mod]
          congr 1
          omega
        have hocc_shift_idx : ∀ t, t < g - 1 →
            ((i + 1) % m.cap + t) % m.cap = (i + (t + 1)) % m.cap := by
          intro t ht
          rw [Nat.mod_add_mod]
          congr 1
          omega
        have hocc_ne : ∀ t, t < g - 1 → (i + (t + 1)) % m.cap ≠ i := by
          intro t ht hc
          have h1 : t + 1 < m.cap := by omega
          have := pdist_add hi h1
          rw [hc, pdist_self] at this
          omega
        by_cases hsw : (m.buckets i).dib < e.dib
        · -- Robin Hood swap
          have hD1 : Dinv (Function.update m.buckets i e) m.cap := by
            intro j hj hjz
            by_cases hji : j = i
            · subst hji
              rw [Function.update_same] at hjz ⊢
              exact hE
            · rw [Function.update_noteq hji] at hjz ⊢
              exact hD j hj hjz
          have hR1 : Rinv (Function.update m.buckets i e) m.cap := by
            intro j hj hj2
            by_cases hji : j = i
            · subst hji
              rw [Function.update_same] at hj2 ⊢
              by_cases hpi : (j + m.cap - 1) % m.cap = j
              · rw [hpi, Function.update_same]
                omega
              · rw [Function.update_noteq hpi]
                exact hLP hj2
            · rw [Function.update_noteq hji] at hj2 ⊢
              by_cases hpi : (j + m.cap - 1) % m.cap = i
              · rw [hpi, Function.update_same]
                have := hR j hj hj2
                rw [hpi] at this
                omega
              · rw [Function.update_noteq hpi]
                exact hR j hj hj2
          have hH1 : Hcinv (Function.update m.buckets i e) m.cap (getHash m) := by
            intro j hj hjz
            by_cases hji : j = i
            · subst hji
              rw [Function.update_same] at hjz ⊢
              exact hEh
            · rw [Function.update_noteq hji] at hjz ⊢
              exact hH j hj hjz
          have hbD := hD i hi hbz
          have hbpd : pdist m.cap ((m.buckets i).hash % m.cap) i < m.cap - 1 := by
            omega
          have hbhlt : (m.buckets i).hash % m.cap < m.cap := Nat.mod_lt _ hn
          have ihc := ih { m with buckets := Function.update m.buckets i e }
            ⟨(m.buckets i).dib + 1, (m.buckets i).hash, (m.buckets i).item⟩
            ((i + 1) % m.cap) (g - 1) hinelt hD1 hR1 hH1
            (by
              show (m.buckets i).dib + 1 = 1 + pdist m.cap ((m.buckets i).hash % m.cap)
                ((i + 1) % m.cap)
              rw [pdist_succ hbhlt hbpd]
              omega)
            (hH i hi hbz)
            (by
              intro _
              show (m.buckets i).dib + 1 ≤
                ((Function.update m.buckets i e) (((i + 1) % m.cap + m.cap - 1) % m.cap)).dib + 1
              rw [hpred, Function.update_same]
              omega)
            (by
              show ((Function.update m.buckets i e)
                (((i + 1) % m.cap + (g - 1)) % m.cap)).dib = 0
              rw [hidx_shift, Function.update_noteq hignei]
              exact hgap)
            (by
              intro t ht
              show ((Function.update m.buckets i e)
                (((i + 1) % m.cap + t) % m.cap)).dib ≠ 0
              rw [hocc_shift_idx t ht, Function.update_noteq (hocc_ne t ht)]
              exact hocc (t + 1) (by omega))
            (by
              show (m.buckets i).dib + 1 + (g - 1) ≤ m.cap
              omega)
            (by omega)
          obtain ⟨m', res, hrun, hcfg, hcap, hga, hsa, hoo, hD', hR', hH', hres⟩ := ihc
          refine ⟨m', res, ?_, hcfg, hcap, hga, hsa, hoo, hD', hR', hH', ?_⟩
          · simp only [setLoop]
            rw [if_neg hbz, if_neg hmt, if_pos hsw]
            exact hrun
          · -- rearrange contents
            obtain ⟨l1, l2, holdE, hnewE⟩ := pairs_update_split m.buckets i hi e
            have h1 : pairsFun m.buckets [i] =
                [((m.buckets i).hash, (m.buckets i).item)] := by
              rw [pairsFun_single, if_pos hbz]
            have h2 : pairsFun (Function.update m.buckets i e) [i] =
                [(e.hash, e.item)] := by
              rw [pairsFun_single, Function.update_same, if_pos hednz]
            have hkey : (((m.buckets i).hash, (m.buckets i).item) ::
                pairsFun (Function.update m.buckets i e) (List.range m.cap)).Perm
                ((e.hash, e.item) :: pairsFun m.buckets (List.range m.cap)) := by
              rw [hnewE, h2, holdE, h1, List.singleton_append, List.singleton_append]
              exact (List.Perm.cons _ List.perm_middle).trans
                ((List.Perm.swap _ _ _).trans
                  (List.Perm.cons _ List.perm_middle.symm))
            rcases hres with ⟨hres0, hcnt, hperm⟩ | ⟨old, hold, hres0, hcnt, hperm⟩
            · left
              exact ⟨hres0, hcnt, hperm.trans hkey⟩
            · right
              exact ⟨old, hold, hres0, hcnt, hperm.trans hkey⟩
        · -- advance
          have ihc := ih m ⟨e.dib + 1, e.hash, e.item⟩ ((i + 1) % m.cap) (g - 1)
            hinelt hD hR hH
            (by
              show e.dib + 1 = 1 + pdist m.cap (e.hash % m.cap) ((i + 1) % m.cap)
              rw [hstep_pd]
              omega)
            hEh
            (by
              intro _
              show e.dib + 1 ≤
                (m.buckets (((i + 1) % m.cap + m.cap - 1) % m.cap)).dib + 1
              rw [hpred]
              omega)
            (by
              show (m.buckets (((i + 1) % m.cap + (g - 1)) % m.cap)).dib = 0
              rw [hidx_shift]
              exact hgap)
            (by
              intro t ht
              show (m.buckets (((i + 1) % m.cap + t) % m.cap)).dib ≠ 0
              rw [hocc_shift_idx t ht]
              exact hocc (t + 1) (by omega))
            (by
              show e.dib + 1 + (g - 1) ≤ m.cap
              omega)
            (by omega)
          obtain ⟨m', res, hrun, hcfg, hcap, hga, hsa, hoo, hD', hR', hH', hres⟩ := ihc
          refine ⟨m', res, ?_, hcfg, hcap, hga, hsa, hoo, hD', hR', hH', hres⟩
          simp only [setLoop]
          rw [if_neg hbz, if_neg hmt, if_neg hsw]
          exact hrun

theorem mem_pairsFun {bs : Nat → Bucket α} {l : List Nat} {p : Nat × α} :
    p ∈ pairsFun bs l ↔ ∃ j ∈ l, (bs j).dib ≠ 0 ∧ (bs j).hash = p.1 ∧
      (bs j).item = p.2 := by
  induction l with
  | nil => simp [pairsFun]
  | cons i l ih =>
    constructor
    · intro hp
      by_cases h : (bs i).dib = 0
      · rw [pairsFun, if_neg (fun hc => hc h)] at hp
        obtain ⟨j, hj, hh⟩ := ih.1 hp
        exact ⟨j, List.mem_cons_of_mem i hj, hh⟩
      · rw [pairsFun, if_pos h] at hp
        rcases List.mem_cons.1 hp with hpe | hpl
        · exact ⟨i, List.mem_cons_self i l, h, by rw [hpe], by rw [hpe]⟩
        · obtain ⟨j, hj, hh⟩ := ih.1 hpl
          exact ⟨j, List.mem_cons_of_mem i hj, hh⟩
    · rintro ⟨j, hj, hz, hh, hit⟩
      have hpj : p = ((bs j).hash, (bs j).item) := by
        rw [hh, hit]
      rcases List.mem_cons.1 hj with hji | hji
      · subst hji
        rw [pairsFun, if_pos hz, hpj]
        exact List.mem_cons_self _ _
      · by_cases h : (bs i).dib = 0
        · rw [pairsFun, if_neg (fun hc => hc h)]
          exact ih.2 ⟨j, hji, hz, hh, hit⟩
        · rw [pairsFun, if_pos h]
          exact List.mem_cons_of_mem _ (ih.2 ⟨j, hji, hz, hh, hit⟩)

theorem pair_mem_pairsList {m : Hashmap α} {j : Nat} (hj : j < m.cap)
    (hz : (m.buckets j).dib ≠ 0) :
    ((m.buckets j).hash, (m.buckets j).item) ∈ pairsList m := by
  unfold pairsList
  rw [mem_pairsFun]
  exact ⟨j, List.mem_range.2 hj, hz, rfl, rfl⟩

theorem uinv_symm (m : Hashmap α) :
    Symmetric fun p q : Nat × α =>
      p.1 = q.1 → m.elCompare p.2 q.2 ≠ 0 ∧ m.elCompare q.2 p.2 ≠ 0 := by
  intro p q hpq hqp
  have := hpq hqp.symm
  exact ⟨this.2, this.1⟩

theorem uinv_pairwise_perm (m : Hashmap α) {l1 l2 : List (Nat × α)}
    (hp : l1.Perm l2) :
    (l1.Pairwise fun p q => p.1 = q.1 →
      m.elCompare p.2 q.2 ≠ 0 ∧ m.elCompare q.2 p.2 ≠ 0) ↔
    (l2.Pairwise fun p q => p.1 = q.1 →
      m.elCompare p.2 q.2 ≠ 0 ∧ m.elCompare q.2 p.2 ≠ 0) :=
  List.Perm.pairwise_iff (fun hxy => uinv_symm m hxy) hp

theorem setLoop_masterB :
    ∀ (fuel : Nat) (m : Hashmap α) (e : Bucket α) (i g : Nat),
      i < m.cap →
      Dinv m.buckets m.cap → Rinv m.buckets m.cap →
      Hcinv m.buckets m.cap (getHash m) →
      e.dib = 1 + pdist m.cap (e.hash % m.cap) i →
      e.hash = getHash m e.item →
      (2 ≤ e.dib → e.dib ≤ (m.buckets ((i + m.cap - 1) % m.cap)).dib + 1) →
      (m.buckets ((i + g) % m.cap)).dib = 0 →
      (∀ t < g, (m.buckets ((i + t) % m.cap)).dib ≠ 0) →
      e.dib + g ≤ m.cap →
      g < fuel →
      Uinv m →
      (∀ p ∈ pairsList m, p.1 = e.hash →
        m.elCompare e.item p.2 ≠ 0 ∧ m.elCompare p.2 e.item ≠ 0) →
      ∃ m', setLoop m e i fuel = some (m', none) ∧ Uinv m' := by
  intro fuel
  induction fuel with
  | zero =>
    intro m e i g hi hD hR hH hE hEh hLP hgap hocc hbound hfuel hU hNM
    omega
  | succ fuel ih =>
    intro m e i g hi hD hR hH hE hEh hLP hgap hocc hbound hfuel hU hNM
    have hn : 0 < m.cap := Nat.lt_of_le_of_lt (Nat.zero_le _) hi
    have hednz : e.dib ≠ 0 := by omega
    by_cases hbz : (m.buckets i).dib = 0
    · -- place here
      refine ⟨{ m with buckets := Function.update m.buckets i e,
                       count := m.count + 1 }, ?_, ?_⟩
      · simp only [setLoop]
        rw [if_pos hbz]
      · obtain ⟨l1, l2, holdE, hnewE⟩ := pairs_update_split m.buckets i hi e
        have h1 : pairsFun m.buckets [i] = [] := by
          rw [pairsFun_single, if_neg (fun hc => hc hbz)]
        have h2 : pairsFun (Function.update m.buckets i e) [i] = [(e.hash, e.item)] := by
          rw [pairsFun_single, Function.update_same, if_pos hednz]
        show List.Pairwise (fun p q : Nat × α => p.1 = q.1 →
            m.elCompare p.2 q.2 ≠ 0 ∧ m.elCompare q.2 p.2 ≠ 0)
          (pairsFun (Function.update m.buckets i e) (List.range m.cap))
        rw [hnewE, h2, List.singleton_append]
        have hperm : (l1 ++ (e.hash, e.item) :: l2).Perm
            ((e.hash, e.item) :: (l1 ++ l2)) := List.perm_middle
        rw [uinv_pairwise_perm m hperm]
        constructor
        · intro q hq hq1
          have hq' : q ∈ pairsList m := by
            unfold pairsList
            rw [holdE, h1, List.nil_append]
            exact hq
          have := hNM q hq' hq1.symm
          exact this
        · have hUm : List.Pairwise (fun p q : Nat × α => p.1 = q.1 →
              m.elCompare p.2 q.2 ≠ 0 ∧ m.elCompare q.2 p.2 ≠ 0) (l1 ++ l2) := by
            have hpm : pairsList m = l1 ++ l2 := by
              unfold pairsList
              rw [holdE, h1, List.nil_append]
            rw [← hpm]
            exact hU
          exact hUm
    · have hg1 : 1 ≤ g := by
        rcases Nat.eq_zero_or_pos g with hg0 | hg0
        · subst hg0
          rw [Nat.add_zero, Nat.mod_eq_of_lt hi] at hgap
          exact absurd hgap hbz
        · exact hg0
      have hglt : g < m.cap := by omega
      have hinelt : (i + 1) % m.cap < m.cap := Nat.mod_lt _ hn
      have hignei : (i + g) % m.cap ≠ i := by
        intro hc
        have := pdist_add hi hglt
        rw [hc, pdist_self] at this
        omega
      have hbmem : ((m.buckets i).hash, (m.buckets i).item) ∈ pairsList m :=
        pair_mem_pairsList hi hbz
      by_cases hmt : e.hash = (m.buckets i).hash ∧
          m.elCompare e.item (m.buckets i).item = 0
      · -- impossible: the carried entry never matches a stored key
        have := hNM _ hbmem hmt.1.symm
        exact absurd hmt.2 this.1
      · have hbound2 : e.dib ≤ m.cap - 1 := by omega
        have hpd : pdist m.cap (e.hash % m.cap) i < m.cap - 1 := by omega
        have hEhlt : e.hash % m.cap < m.cap := Nat.mod_lt _ hn
        have hstep_pd : pdist m.cap (e.hash % m.cap) ((i + 1) % m.cap) =
            pdist m.cap (e.hash % m.cap) i + 1 := pdist_succ hEhlt hpd
        have hpred : ((i + 1) % m.cap + m.cap - 1) % m.cap = i := by
          rw [pred_succ_mod hn, Nat.mod_eq_of_lt hi]
        have hidx_shift : ((i + 1) % m.cap + (g - 1)) % m.cap = (i + g) % m.cap := by
          rw [Nat.mod_add_mod]
          congr 1
          omega
        have hocc_shift_idx : ∀ t, t < g - 1 →
            ((i + 1) % m.cap + t) % m.cap = (i + (t + 1)) % m.cap := by
          intro t ht
          rw [Nat.mod_add_mod]
          congr 1
          omega
        have hocc_ne : ∀ t, t < g - 1 → (i + (t + 1)) % m.cap ≠ i := by
          intro t ht hc
          have h1 : t + 1 < m.cap := by omega
          have := pdist_add hi h1
          rw [hc, pdist_self] at this
          omega
        by_cases hsw : (m.buckets i).dib < e.dib
        · -- swap
          have hD1 : Dinv (Function.update m.buckets i e) m.cap := by
            intro j hj hjz
            by_cases hji : j = i
            · subst hji
              rw [Function.update_same] at hjz ⊢
              exact hE
            · rw [Function.update_noteq hji] at hjz ⊢
              exact hD j hj hjz
          have hR1 : Rinv (Function.update m.buckets i e) m.cap := by
            intro j hj hj2
            by_cases hji : j = i
            · subst hji
              rw [Function.update_same] at hj2 ⊢
              by_cases hpi : (j + m.cap - 1) % m.cap = j
              · rw [hpi, Function.update_same]
                omega
              · rw [Function.update_noteq hpi]
                exact hLP hj2
            · rw [Function.update_noteq hji] at hj2 ⊢
              by_cases hpi : (j + m.cap - 1) % m.cap = i
              · rw [hpi, Function.update_same]
                have := hR j hj hj2
                rw [hpi] at this
                omega
              · rw [Function.update_noteq hpi]
                exact hR j hj hj2
          have hH1 : Hcinv (Function.update m.buckets i e) m.cap (getHash m) := by
            intro j hj hjz
            by_cases hji : j = i
            · subst hji
              rw [Function.update_same] at hjz ⊢
              exact hEh
            · rw [Function.update_noteq hji] at hjz ⊢
              exact hH j hj hjz
          have hbD := hD i hi hbz
          have hbpd : pdist m.cap ((m.buckets i).hash % m.cap) i < m.cap - 1 := by
            omega
          have hbhlt : (m.buckets i).hash % m.cap < m.cap := Nat.mod_lt _ hn
          obtain ⟨l1, l2, holdE, hnewE⟩ := pairs_update_split m.buckets i hi e
          have h1 : pairsFun m.buckets [i] =
              [((m.buckets i).hash, (m.buckets i).item)] := by
            rw [pairsFun_single, if_pos hbz]
          have h2 : pairsFun (Function.update m.buckets i e) [i] =
              [(e.hash, e.item)] := by
            rw [pairsFun_single, Function.update_same, if_pos hednz]
          have hpairs_m : pairsList m =
              l1 ++ ((m.buckets i).hash, (m.buckets i).item) :: l2 := by
            unfold pairsList
            rw [holdE, h1, List.singleton_append]
          have hpairs_m1 : pairsFun (Function.update m.buckets i e) (List.range m.cap) =
              l1 ++ (e.hash, e.item) :: l2 := by
            rw [hnewE, h2, List.singleton_append]
          have hUparts := List.pairwise_append.1
            (show List.Pairwise (fun p q : Nat × α => p.1 = q.1 →
                m.elCompare p.2 q.2 ≠ 0 ∧ m.elCompare q.2 p.2 ≠ 0)
              (l1 ++ ((m.buckets i).hash, (m.buckets i).item) :: l2) by
              rw [← hpairs_m]
              exact hU)
          have hUl1 := hUparts.1
          have hUcons := List.pairwise_cons.1 hUparts.2.1
          have hUl2 := hUcons.2
          have hUacross := hUparts.2.2
          -- U for the updated table
          have hU1 : Uinv { m with buckets := Function.update m.buckets i e } := by
            show List.Pairwise (fun p q : Nat × α => p.1 = q.1 →
                m.elCompare p.2 q.2 ≠ 0 ∧ m.elCompare q.2 p.2 ≠ 0)
              (pairsFun (Function.update m.buckets i e) (List.range m.cap))
            rw [hpairs_m1]
            rw [uinv_pairwise_perm m List.perm_middle]
            constructor
            · intro q hq hq1
              have hq' : q ∈ pairsList m := by
                rw [hpairs_m]
                rcases List.mem_append.1 hq with hql | hql
                · exact List.mem_append.2 (Or.inl hql)
                · exact List.mem_append.2 (Or.inr (List.mem_cons_of_mem _ hql))
              have := hNM q hq' hq1.symm
              exact this
            · rw [List.pairwise_append]
              refine ⟨hUl1, hUl2, ?_⟩
              intro a ha b hb
              have := hUacross a ha b (List.mem_cons_of_mem _ hb)
              exact this
          -- no-match for the displaced entry
          have hNM1 : ∀ p ∈ pairsFun (Function.update m.buckets i e) (List.range m.cap),
              p.1 = (m.buckets i).hash →
              m.elCompare (m.buckets i).item p.2 ≠ 0 ∧
              m.elCompare p.2 (m.buckets i).item ≠ 0 := by
            intro p hp hp1
            rw [hpairs_m1] at hp
            rcases List.mem_append.1 hp with hpl | hpl
            · have h3 := hUacross p hpl ((m.buckets i).hash, (m.buckets i).item)
                (List.mem_cons_self _ _)
              have h4 := h3 hp1
              exact ⟨h4.2, h4.1⟩
            · rcases List.mem_cons.1 hpl with hpe | hpl2
              · subst hpe
                have := hNM ((m.buckets i).hash, (m.buckets i).item) hbmem
                have h5 := this hp1.symm
                exact ⟨h5.2, h5.1⟩
              · exact hUcons.1 p hpl2 hp1.symm
          have ihc := ih { m with buckets := Function.update m.buckets i e }
            ⟨(m.buckets i).dib + 1, (m.buckets i).hash, (m.buckets i).item⟩
            ((i + 1) % m.cap) (g - 1) hinelt hD1 hR1 hH1
            (by
              show (m.buckets i).dib + 1 = 1 + pdist m.cap ((m.buckets i).hash % m.cap)
                ((i + 1) % m.cap)
              rw [pdist_succ hbhlt hbpd]
              omega)
            (hH i hi hbz)
            (by
              intro _
              show (m.buckets i).dib + 1 ≤
                ((Function.update m.buckets i e) (((i + 1) % m.cap + m.cap - 1) % m.cap)).dib + 1
              rw [hpred, Function.update_same]
              omega)
            (by
              show ((Function.update m.buckets i e)
                (((i + 1) % m.cap + (g - 1)) % m.cap)).dib = 0
              rw [hidx_shift, Function.update_noteq hignei]
              exact hgap)
            (by
              intro t ht
              show ((Function.update m.buckets i e)
                (((i + 1) % m.cap + t) % m.cap)).dib ≠ 0
              rw [hocc_shift_idx t ht, Function.update_noteq (hocc_ne t ht)]
              exact hocc (t + 1) (by omega))
            (by
              show (m.buckets i).dib + 1 + (g - 1) ≤ m.cap
              omega)
            (by omega)
            hU1 hNM1
          obtain ⟨m', hrun, hU'⟩ := ihc
          refine ⟨m', ?_, hU'⟩
          simp only [setLoop]
          rw [if_neg hbz, if_neg hmt, if_pos hsw]
          exact hrun
        · -- advance
          have ihc := ih m ⟨e.dib + 1, e.hash, e.item⟩ ((i + 1) % m.cap) (g - 1)
            hinelt hD hR hH
            (by
              show e.dib + 1 = 1 + pdist m.cap (e.hash % m.cap) ((i + 1) % m.cap)
              rw [hstep_pd]
              omega)
            hEh
            (by
              intro _
              show e.dib + 1 ≤
                (m.buckets (((i + 1) % m.cap + m.cap - 1) % m.cap)).dib + 1
              rw [hpred]
              omega)
            (by
              show (m.buckets (((i + 1) % m.cap + (g - 1)) % m.cap)).dib = 0
              rw [hidx_shift]
              exact hgap)
            (by
              intro t ht
              show (m.buckets (((i + 1) % m.cap + t) % m.cap)).dib ≠ 0
              rw [hocc_shift_idx t ht]
              exact hocc (t + 1) (by omega))
            (by
              show e.dib + 1 + (g - 1) ≤ m.cap
              omega)
            (by omega)
            hU hNM
          obtain ⟨m', hrun, hU'⟩ := ihc
          refine ⟨m', ?_, hU'⟩
          simp only [setLoop]
          rw [if_neg hbz, if_neg hmt, if_neg hsw]
          exact hrun

theorem rhLoop_master :
    ∀ (fuel : Nat) (m : Hashmap α) (e : Bucket α) (i g : Nat),
      i < m.cap →
      Dinv m.buckets m.cap → Rinv m.buckets m.cap →
      Hcinv m.buckets m.cap (getHash m) →
      e.dib = 1 + pdist m.cap (e.hash % m.cap) i →
      e.hash = getHash m e.item →
      (2 ≤ e.dib → e.dib ≤ (m.buckets ((i + m.cap - 1) % m.cap)).dib + 1) →
      (m.buckets ((i + g) % m.cap)).dib = 0 →
      (∀ t < g, (m.buckets ((i + t) % m.cap)).dib ≠ 0) →
      e.dib + g ≤ m.cap →
      g < fuel →
      SameCfg m (rhLoop m e i fuel) ∧ (rhLoop m e i fuel).cap = m.cap ∧
      (rhLoop m e i fuel).growat = m.growat ∧
      (rhLoop m e i fuel).shrinkat = m.shrinkat ∧
      (rhLoop m e i fuel).oom = m.oom ∧ (rhLoop m e i fuel).count = m.count ∧
      Dinv (rhLoop m e i fuel).buckets (rhLoop m e i fuel).cap ∧
      Rinv (rhLoop m e i fuel).buckets (rhLoop m e i fuel).cap ∧
      Hcinv (rhLoop m e i fuel).buckets (rhLoop m e i fuel).cap
        (getHash (rhLoop m e i fuel)) ∧
      (pairsList (rhLoop m e i fuel)).Perm ((e.hash, e.item) :: pairsList m) := by
  intro fuel
  induction fuel with
  | zero =>
    intro m e i g hi hD hR hH hE hEh hLP hgap hocc hbound hfuel
    omega
  | succ fuel ih =>
    intro m e i g hi hD hR hH hE hEh hLP hgap hocc hbound hfuel
    have hn : 0 < m.cap := Nat.lt_of_le_of_lt (Nat.zero_le _) hi
    have hednz : e.dib ≠ 0 := by omega
    by_cases hbz : (m.buckets i).dib = 0
    · -- place here
      have hD1 : Dinv (Function.update m.buckets i e) m.cap := by
        intro j hj hjz
        by_cases hji : j = i
        · subst hji
          rw [Function.update_same] at hjz ⊢
          exact hE
        · rw [Function.update_noteq hji] at hjz ⊢
          exact hD j hj hjz
      have hR1 : Rinv (Function.update m.buckets i e) m.cap := by
        intro j hj hj2
        by_cases hji : j = i
        · subst hji
          rw [Function.update_same] at hj2 ⊢
          by_cases hpi : (j + m.cap - 1) % m.cap = j
          · rw [hpi, Function.update_same]
            omega
          · rw [Function.update_noteq hpi]
            exact hLP hj2
        · rw [Function.update_noteq hji] at hj2 ⊢
          by_cases hpi : (j + m.cap - 1) % m.cap = i
          · have := hR j hj hj2
            rw [hpi, hbz] at this
            omega
          · rw [Function.update_noteq hpi]
            exact hR j hj hj2
      have hH1 : Hcinv (Function.update m.buckets i e) m.cap (getHash m) := by
        intro j hj hjz
        by_cases hji : j = i
        · subst hji
          rw [Function.update_same] at hjz ⊢
          exact hEh
        · rw [Function.update_noteq hji] at hjz ⊢
          exact hH j hj hjz
      obtain ⟨l1, l2, holdE, hnewE⟩ := pairs_update_split m.buckets i hi e
      have h1 : pairsFun m.buckets [i] = [] := by
        rw [pairsFun_single, if_neg (fun hc => hc hbz)]
      have h2 : pairsFun (Function.update m.buckets i e) [i] = [(e.hash, e.item)] := by
        rw [pairsFun_single, Function.update_same, if_pos hednz]
      simp only [rhLoop]
      rw [if_pos hbz]
      refine ⟨⟨rfl, rfl, rfl, rfl, rfl⟩, rfl, rfl, rfl, rfl, rfl, hD1, hR1, hH1, ?_⟩
      show (pairsFun (Function.update m.buckets i e) (List.range m.cap)).Perm
        ((e.hash, e.item) :: pairsFun m.buckets (List.range m.cap))
      rw [hnewE, h2, holdE, h1, List.nil_append, List.singleton_append]
      exact List.perm_middle
    · -- occupied slot
      have hg1 : 1 ≤ g := by
        rcases Nat.eq_zero_or_pos g with hg0 | hg0
        · subst hg0
          rw [Nat.add_zero, Nat.mod_eq_of_lt hi] at hgap
          exact absurd hgap hbz
        · exact hg0
      have hglt : g < m.cap := by omega
      have hinelt : (i + 1) % m.cap < m.cap := Nat.mod_lt _ hn
      have hignei : (i + g) % m.cap ≠ i := by
        intro hc
        have := pdist_add hi hglt
        rw [hc, pdist_self] at this
        omega
      have hbound2 : e.dib ≤ m.cap - 1 := by omega
      have hpd : pdist m.cap (e.hash % m.cap) i < m.cap - 1 := by omega
      have hEhlt : e.hash % m.cap < m.cap := Nat.mod_lt _ hn
      have hstep_pd : pdist m.cap (e.hash % m.cap) ((i + 1) % m.cap) =
          pdist m.cap (e.hash % m.cap) i + 1 := pdist_succ hEhlt hpd
      have hpred : ((i + 1) % m.cap + m.cap - 1) % m.cap = i := by
        rw [pred_succ_mod hn, Nat.mod_eq_of_lt hi]
      have hidx_shift : ((i + 1) % m.cap + (g - 1)) % m.cap = (i + g) % m.cap := by
        rw [Nat.mod_add_mod]
        congr 1
        omega
      have hocc_shift_idx : ∀ t, t < g - 1 →
          ((i + 1) % m.cap + t) % m.cap = (i + (t + 1)) % m.cap := by
        intro t ht
        rw [Nat.mod_add_mod]
        congr 1
        omega
      have hocc_ne : ∀ t, t < g - 1 → (i + (t + 1)) % m.cap ≠ i := by
        intro t ht hc
        have h1 : t + 1 < m.cap := by omega
        have := pdist_add hi h1
        rw [hc, pdist_self] at this
        omega
      by_cases hsw : (m.buckets i).dib < e.dib
      · -- swap
        have hD1 : Dinv (Function.update m.buckets i e) m.cap := by
          intro j hj hjz
          by_cases hji : j = i
          · subst hji
            rw [Function.update_same] at hjz ⊢
            exact hE
          · rw [Function.update_noteq hji] at hjz ⊢
            exact hD j hj hjz
        have hR1 : Rinv (Function.update m.buckets i e) m.cap := by
          intro j hj hj2
          by_cases hji : j = i
          · subst hji
            rw [Function.update_same] at hj2 ⊢
            by_cases hpi : (j + m.cap - 1) % m.cap = j
            · rw [hpi, Function.update_same]
              omega
            · rw [Function.update_noteq hpi]
              exact hLP hj2
          · rw [Function.update_noteq hji] at hj2 ⊢
            by_cases hpi : (j + m.cap - 1) % m.cap = i
            · rw [hpi, Function.update_same]
              have := hR j hj hj2
              rw [hpi] at this
              omega
            · rw [Function.update_noteq hpi]
              exact hR j hj hj2
        have hH1 : Hcinv (Function.update m.buckets i e) m.cap (getHash m) := by
          intro j hj hjz
          by_cases hji : j = i
          · subst hji
            rw [Function.update_same] at hjz ⊢
            exact hEh
          · rw [Function.update_noteq hji] at hjz ⊢
            exact hH j hj hjz
        have hbD := hD i hi hbz
        have hbpd : pdist m.cap ((m.buckets i).hash % m.cap) i < m.cap - 1 := by
          omega
        have hbhlt : (m.buckets i).hash % m.cap < m.cap := Nat.mod_lt _ hn
        have ihc := ih { m with buckets := Function.update m.buckets i e }
          ⟨(m.buckets i).dib + 1, (m.buckets i).hash, (m.buckets i).item⟩
          ((i + 1) % m.cap) (g - 1) hinelt hD1 hR1 hH1
          (by
            show (m.buckets i).dib + 1 = 1 + pdist m.cap ((m.buckets i).hash % m.cap)
              ((i + 1) % m.cap)
            rw [pdist_succ hbhlt hbpd]
            omega)
          (hH i hi hbz)
          (by
            intro _
            show (m.buckets i).dib + 1 ≤
              ((Function.update m.buckets i e) (((i + 1) % m.cap + m.cap - 1) % m.cap)).dib + 1
            rw [hpred, Function.update_same]
            omega)
          (by
            show ((Function.update m.buckets i e)
              (((i + 1) % m.cap + (g - 1)) % m.cap)).dib = 0
            rw [hidx_shift, Function.update_noteq hignei]
            exact hgap)
          (by
            intro t ht
            show ((Function.update m.buckets i e)
              (((i + 1) % m.cap + t) % m.cap)).dib ≠ 0
            rw [hocc_shift_idx t ht, Function.update_noteq (hocc_ne t ht)]
            exact hocc (t + 1) (by omega))
          (by
            show (m.buckets i).dib + 1 + (g - 1) ≤ m.cap
            omega)
          (by omega)
        obtain ⟨hcfg, hcap, hga, hsa, hoo, hcnt, hD', hR', hH', hperm⟩ := ihc
        simp only [rhLoop]
        rw [if_neg hbz, if_pos hsw]
        refine ⟨hcfg, hcap, hga, hsa, hoo, hcnt, hD', hR', hH', ?_⟩
        obtain ⟨l1, l2, holdE, hnewE⟩ := pairs_update_split m.buckets i hi e
        have h1 : pairsFun m.buckets [i] =
            [((m.buckets i).hash, (m.buckets i).item)] := by
          rw [pairsFun_single, if_pos hbz]
        have h2 : pairsFun (Function.update m.buckets i e) [i] =
            [(e.hash, e.item)] := by
          rw [pairsFun_single, Function.update_same, if_pos hednz]
        have hkey : (((m.buckets i).hash, (m.buckets i).item) ::
            pairsFun (Function.update m.buckets i e) (List.range m.cap)).Perm
            ((e.hash, e.item) :: pairsFun m.buckets (List.range m.cap)) := by
          rw [hnewE, h2, holdE, h1, List.singleton_append, List.singleton_append]
          exact (List.Perm.cons _ List.perm_middle).trans
            ((List.Perm.swap _ _ _).trans
              (List.Perm.cons _ List.perm_middle.symm))
        exact hperm.trans hkey
      · -- advance
        have ihc := ih m ⟨e.dib + 1, e.hash, e.item⟩ ((i + 1) % m.cap) (g - 1)
          hinelt hD hR hH
          (by
            show e.dib + 1 = 1 + pdist m.cap (e.hash % m.cap) ((i + 1) % m.cap)
            rw [hstep_pd]
            omega)
          hEh
          (by
            intro _
            show e.dib + 1 ≤
              (m.buckets (((i + 1) % m.cap + m.cap - 1) % m.cap)).dib + 1
            rw [hpred]
            omega)
          (by
            show (m.buckets (((i + 1) % m.cap + (g - 1)) % m.cap)).dib = 0
            rw [hidx_shift]
            exact hgap)
          (by
            intro t ht
            show (m.buckets (((i + 1) % m.cap + t) % m.cap)).dib ≠ 0
            rw [hocc_shift_idx t ht]
            exact hocc (t + 1) (by omega))
          (by
            show e.dib + 1 + (g - 1) ≤ m.cap
            omega)
          (by omega)
        obtain ⟨hcfg, hcap, hga, hsa, hoo, hcnt, hD', hR', hH', hperm⟩ := ihc
        simp only [rhLoop]
        rw [if_neg hbz, if_neg hsw]
        exact ⟨hcfg, hcap, hga, hsa, hoo, hcnt, hD', hR', hH', hperm⟩

theorem occCount_eq (m : Hashmap α) : occCount m = (pairsList m).length := by
  unfold occCount pairsList
  rw [pairsFun_length]

theorem exists_empty {bs : Nat → Bucket α} {n : Nat}
    (h : ((List.range n).filter fun i => (bs i).dib ≠ 0).length < n) :
    ∃ j < n, (bs j).dib = 0 := by
  by_contra hc
  push_neg at hc
  have hall : ∀ i ∈ List.range n, (fun i => decide ((bs i).dib ≠ 0)) i = true := by
    intro i hi
    simp only [decide_eq_true_eq]
    exact hc i (List.mem_range.1 hi)
  rw [List.filter_eq_self.2 hall, List.length_range] at h
  omega

theorem exists_gap {bs : Nat → Bucket α} {n : Nat} (i : Nat) (hi : i < n)
    (hemp : ∃ j < n, (bs j).dib = 0) :
    ∃ g, g < n ∧ (bs ((i + g) % n)).dib = 0 ∧
      ∀ t < g, (bs ((i + t) % n)).dib ≠ 0 := by
  have hn : 0 < n := Nat.lt_of_le_of_lt (Nat.zero_le _) hi
  obtain ⟨j, hj, hjz⟩ := hemp
  have hP : ∃ t, (bs ((i + t) % n)).dib = 0 := by
    refine ⟨pdist n i j, ?_⟩
    rw [add_pdist hi hj]
    exact hjz
  refine ⟨Nat.find hP, ?_, Nat.find_spec hP, fun t ht => Nat.find_min hP ht⟩
  have hb : Nat.find hP ≤ pdist n i j := by
    apply Nat.find_min'
    rw [add_pdist hi hj]
    exact hjz
  exact Nat.lt_of_le_of_lt hb (pdist_lt hn _ _)

theorem getHash_congr {a b : Hashmap α} (h : SameCfg a b) (x : α) :
    getHash b x = getHash a x := by
  unfold getHash
  rw [h.1, h.2.2.1, h.2.2.2.1]

theorem pairsFun_empty [Inhabited α] (l : List Nat) :
    pairsFun (fun _ => (emptyBucket : Bucket α)) l = [] := by
  induction l with
  | nil => rfl
  | cons i l ih =>
    rw [pairsFun, if_neg (fun hc => hc rfl)]
    exact ih

theorem reinsert_master [Inhabited α] (m : Hashmap α) (e : Bucket α)
    (hn : 0 < m.cap)
    (hD : Dinv m.buckets m.cap) (hR : Rinv m.buckets m.cap)
    (hH : Hcinv m.buckets m.cap (getHash m))
    (hE1 : e.dib = 1) (hEh : e.hash = getHash m e.item)
    (hemp : ∃ j < m.cap, (m.buckets j).dib = 0) :
    SameCfg m (reinsert m e) ∧ (reinsert m e).cap = m.cap ∧
    (reinsert m e).growat = m.growat ∧ (reinsert m e).shrinkat = m.shrinkat ∧
    (reinsert m e).oom = m.oom ∧ (reinsert m e).count = m.count ∧
    Dinv (reinsert m e).buckets (reinsert m e).cap ∧
    Rinv (reinsert m e).buckets (reinsert m e).cap ∧
    Hcinv (reinsert m e).buckets (reinsert m e).cap (getHash (reinsert m e)) ∧
    (pairsList (reinsert m e)).Perm ((e.hash, e.item) :: pairsList m) := by
  have hh0 : e.hash % m.cap < m.cap := Nat.mod_lt _ hn
  obtain ⟨g, hg, hgap, hocc⟩ := exists_gap (e.hash % m.cap) hh0 hemp
  unfold reinsert
  exact rhLoop_master m.cap m e (e.hash % m.cap) g hh0 hD hR hH
    (by rw [hE1, pdist_self]) hEh (by omega) hgap hocc (by omega) hg

theorem resize_fold [Inhabited α] (m : Hashmap α) :
    ∀ (l : List Nat) (acc : Hashmap α),
      (∀ x ∈ l, x < m.cap) →
      0 < acc.cap →
      Dinv acc.buckets acc.cap → Rinv acc.buckets acc.cap →
      Hcinv acc.buckets acc.cap (getHash acc) →
      (∀ x, getHash acc x = getHash m x) →
      Hcinv m.buckets m.cap (getHash m) →
      (pairsList acc).length + (pairsFun m.buckets l).length < acc.cap →
      SameCfg acc (l.foldl (fun a i =>
        if (m.buckets i).dib ≠ 0 then
          reinsert a ⟨1, (m.buckets i).hash, (m.buckets i).item⟩ else a) acc) ∧
      (l.foldl (fun a i =>
        if (m.buckets i).dib ≠ 0 then
          reinsert a ⟨1, (m.buckets i).hash, (m.buckets i).item⟩ else a) acc).cap
        = acc.cap ∧
      (l.foldl (fun a i =>
        if (m.buckets i).dib ≠ 0 then
          reinsert a ⟨1, (m.buckets i).hash, (m.buckets i).item⟩ else a) acc).growat
        = acc.growat ∧
      (l.foldl (fun a i =>
        if (m.buckets i).dib ≠ 0 then
          reinsert a ⟨1, (m.buckets i).hash, (m.buckets i).item⟩ else a) acc).shrinkat
        = acc.shrinkat ∧
      (l.foldl (fun a i =>
        if (m.buckets i).dib ≠ 0 then
          reinsert a ⟨1, (m.buckets i).hash, (m.buckets i).item⟩ else a) acc).oom
        = acc.oom ∧
      (l.foldl (fun a i =>
        if (m.buckets i).dib ≠ 0 then
          reinsert a ⟨1, (m.buckets i).hash, (m.buckets i).item⟩ else a) acc).count
        = acc.count ∧
      Dinv (l.foldl (fun a i =>
        if (m.buckets i).dib ≠ 0 then
          reinsert a ⟨1, (m.buckets i).hash, (m.buckets i).item⟩ else a) acc).buckets
        (l.foldl (fun a i =>
        if (m.buckets i).dib ≠ 0 then
          reinsert a ⟨1, (m.buckets i).hash, (m.buckets i).item⟩ else a) acc).cap ∧
      Rinv (l.foldl (fun a i =>
        if (m.buckets i).dib ≠ 0 then
          reinsert a ⟨1, (m.buckets i).hash, (m.buckets i).item⟩ else a) acc).buckets
        (l.foldl (fun a i =>
        if (m.buckets i).dib ≠ 0 then
          reinsert a ⟨1, (m.buckets i).hash, (m.buckets i).item⟩ else a) acc).cap ∧
      Hcinv (l.foldl (fun a i =>
        if (m.buckets i).dib ≠ 0 then
          reinsert a ⟨1, (m.buckets i).hash, (m.buckets i).item⟩ else a) acc).buckets
        (l.foldl (fun a i =>
        if (m.buckets i).dib ≠ 0 then
          reinsert a ⟨1, (m.buckets i).hash, (m.buckets i).item⟩ else a) acc).cap
        (getHash (l.foldl (fun a i =>
        if (m.buckets i).dib ≠ 0 then
          reinsert a ⟨1, (m.buckets i).hash, (m.buckets i).item⟩ else a) acc)) ∧
      (pairsList (l.foldl (fun a i =>
        if (m.buckets i).dib ≠ 0 then
          reinsert a ⟨1, (m.buckets i).hash, (m.buckets i).item⟩ else a) acc)).Perm
        (pairsFun m.buckets l ++ pairsList acc) := by
  intro l
  induction l with
  | nil =>
    intro acc hl hn hD hR hH hgh hHm hlen
    refine ⟨⟨rfl, rfl, rfl, rfl, rfl⟩, rfl, rfl, rfl, rfl, rfl, hD, hR, hH, ?_⟩
    exact List.Perm.refl _
  | cons i l ih =>
    intro acc hl hn hD hR hH hgh hHm hlen
    by_cases hz : (m.buckets i).dib = 0
    · have hfe : pairsFun m.buckets (i :: l) = pairsFun m.buckets l := by
        rw [pairsFun, if_neg (fun hc => hc hz)]
      rw [List.foldl_cons, if_neg (fun hc => hc hz)]
      have := ih acc (fun x hx => hl x (List.mem_cons_of_mem i hx)) hn hD hR hH hgh hHm
        (by rw [hfe] at hlen; exact hlen)
      rw [hfe]
      exact this
    · have hil : i < m.cap := hl i (List.mem_cons_self i l)
      have hemp : ∃ j < acc.cap, (acc.buckets j).dib = 0 := by
        apply exists_empty
        have h1 : (pairsList acc).length =
            ((List.range acc.cap).filter fun j => (acc.buckets j).dib ≠ 0).length := by
          unfold pairsList
          rw [pairsFun_length]
        omega
      have hre := reinsert_master acc ⟨1, (m.buckets i).hash, (m.buckets i).item⟩
        hn hD hR hH rfl
        (by
          show (m.buckets i).hash = getHash acc (m.buckets i).item
          rw [hgh]
          exact hHm i hil hz)
        hemp
      obtain ⟨hcfg, hcap, hga, hsa, hoo, hcnt, hD', hR', hH', hperm⟩ := hre
      have hlen' : (pairsList (reinsert acc ⟨1, (m.buckets i).hash, (m.buckets i).item⟩)).length
          + (pairsFun m.buckets l).length <
          (reinsert acc ⟨1, (m.buckets i).hash, (m.buckets i).item⟩).cap := by
        rw [hcap, hperm.length_eq]
        have h2 : pairsFun m.buckets (i :: l) =
            ((m.buckets i).hash, (m.buckets i).item) :: pairsFun m.buckets l := by
          rw [pairsFun, if_pos hz]
        rw [h2] at hlen
        simp only [List.length_cons] at hlen ⊢
        omega
      have ihc := ih (reinsert acc ⟨1, (m.buckets i).hash, (m.buckets i).item⟩)
        (fun x hx => hl x (List.mem_cons_of_mem i hx))
        (by rw [hcap]; exact hn) hD' hR' hH'
        (fun x => (getHash_congr hcfg x).trans (hgh x)) hHm hlen'
      obtain ⟨icfg, icap, iga, isa, ioo, icnt, iD, iR, iH, iperm⟩ := ihc
      rw [List.foldl_cons, if_pos hz]
      refine ⟨?_, ?_, ?_, ?_, ?_, ?_, iD, iR, iH, ?_⟩
      · exact ⟨icfg.1.trans hcfg.1, icfg.2.1.trans hcfg.2.1,
          icfg.2.2.1.trans hcfg.2.2.1, icfg.2.2.2.1.trans hcfg.2.2.2.1,
          icfg.2.2.2.2.trans hcfg.2.2.2.2⟩
      · rw [icap, hcap]
      · rw [iga, hga]
      · rw [isa, hsa]
      · rw [ioo, hoo]
      · rw [icnt, hcnt]
      · have h2 : pairsFun m.buckets (i :: l) =
            ((m.buckets i).hash, (m.buckets i).item) :: pairsFun m.buckets l := by
          rw [pairsFun, if_pos hz]
        rw [h2]
        exact iperm.trans
          ((List.Perm.append_left (pairsFun m.buckets l) hperm).trans
            List.perm_middle)

theorem resize_master [Inhabited α] (m : Hashmap α) (newCap : Nat)
    (hD : Dinv m.buckets m.cap) (hR : Rinv m.buckets m.cap)
    (hH : Hcinv m.buckets m.cap (getHash m))
    (hn : 0 < newCap) (hlen : occCount m < newCap) :
    (resize m newCap).elHash = m.elHash ∧ (resize m newCap).elCompare = m.elCompare ∧
    (resize m newCap).seed0 = m.seed0 ∧ (resize m newCap).seed1 = m.seed1 ∧
    (resize m newCap).initialCap = m.initialCap ∧
    (resize m newCap).cap = newCap ∧
    (resize m newCap).growat = newCap * 3 / 4 ∧
    (resize m newCap).shrinkat = newCap / 10 ∧
    (resize m newCap).oom = m.oom ∧ (resize m newCap).count = m.count ∧
    Dinv (resize m newCap).buckets (resize m newCap).cap ∧
    Rinv (resize m newCap).buckets (resize m newCap).cap ∧
    Hcinv (resize m newCap).buckets (resize m newCap).cap
      (getHash (resize m newCap)) ∧
    (pairsList (resize m newCap)).Perm (pairsList m) := by
  have hfold := resize_fold m (List.range m.cap)
    { m with cap := newCap, growat := newCap * 3 / 4, shrinkat := newCap / 10, buckets := fun _ => emptyBucket }
    (fun x hx => List.mem_range.1 hx)
    hn
    (by
      intro j hj hjz
      exact absurd rfl hjz)
    (by
      intro j hj h2
      have : (emptyBucket : Bucket α).dib = 0 := rfl
      rw [this] at h2
      omega)
    (by
      intro j hj hjz
      exact absurd rfl hjz)
    (fun x => rfl)
    hH
    (by
      have h0 : pairsList { m with cap := newCap, growat := newCap * 3 / 4, shrinkat := newCap / 10, buckets := fun _ => (emptyBucket : Bucket α) } = [] := pairsFun_empty _
      rw [h0]
      have h1 : (pairsFun m.buckets (List.range m.cap)).length = occCount m := by
        rw [occCount_eq]
        rfl
      simp only [List.length_nil, Nat.zero_add]
      rw [h1]
      exact hlen)
  obtain ⟨hcfg, hcap, hga, hsa, hoo, hcnt, hD', hR', hH', hperm⟩ := hfold
  have h0 : pairsList { m with cap := newCap, growat := newCap * 3 / 4, shrinkat := newCap / 10, buckets := fun _ => (emptyBucket : Bucket α) } = [] := pairsFun_empty _
  rw [h0, List.append_nil] at hperm
  simp only [resize]
  exact ⟨hcfg.1, hcfg.2.1, hcfg.2.2.1, hcfg.2.2.2.1, hcfg.2.2.2.2, hcap, hga, hsa,
    hoo, hcnt, hD', hR', hH', hperm⟩

theorem pdist_succ_mod {n h : Nat} (hn : 0 < n) (hh : h < n) (i : Nat) :
    pdist n h ((i + 1) % n) = (pdist n h i + 1) % n := by
  unfold pdist
  have h1 : (i + 1) % n + n - h = (i + 1) % n + (n - h) := by omega
  rw [h1, Nat.mod_add_mod]
  have h2 : i + 1 + (n - h) = i + n - h + 1 := by omega
  rw [h2, ← Nat.mod_add_mod]

theorem succ_pred_mod {n k : Nat} (hn : 0 < n) (hk : k < n) :
    ((k + n - 1) % n + 1) % n = k := by
  rw [Nat.mod_add_mod]
  have h1 : k + n - 1 + 1 = k + n := by omega
  rw [h1, Nat.add_mod_right, Nat.mod_eq_of_lt hk]

theorem pred_eq_iff {n k j : Nat} (hn : 0 < n) (hk : k < n)
    (h : (k + n - 1) % n = j) : k = (j + 1) % n := by
  rw [← h, succ_pred_mod hn hk]

theorem shiftLoop_master :
    ∀ (fuel : Nat) (bs : Nat → Bucket α) (n : Nat) (hf : α → Nat) (j u : Nat),
      j < n → (bs j).dib ≠ 0 →
      (∀ k < n, k ≠ j → (bs k).dib ≠ 0 →
        (bs k).dib = 1 + pdist n ((bs k).hash % n) k) →
      (∀ k < n, k ≠ j → k ≠ (j + 1) % n → 2 ≤ (bs k).dib →
        (bs k).dib ≤ (bs ((k + n - 1) % n)).dib + 1) →
      (3 ≤ (bs ((j + 1) % n)).dib →
        (bs ((j + 1) % n)).dib ≤ (bs ((j + n - 1) % n)).dib + 2) →
      (∀ k < n, k ≠ j → (bs k).dib ≠ 0 → (bs k).hash = hf (bs k).item) →
      u < fuel → u < n - 1 →
      (bs ((j + 1 + u) % n)).dib ≤ 1 →
      Dinv (shiftLoop bs n j fuel) n ∧ Rinv (shiftLoop bs n j fuel) n ∧
      Hcinv (shiftLoop bs n j fuel) n hf ∧
      (((bs j).hash, (bs j).item) ::
        pairsFun (shiftLoop bs n j fuel) (List.range n)).Perm
        (pairsFun bs (List.range n)) := by
  intro fuel
  induction fuel with
  | zero =>
    intro bs n hf j u hj hjz hI1 hI2 hI3 hHc huf hun hstop
    omega
  | succ fuel ih =>
    intro bs n hf j u hj hjz hI1 hI2 hI3 hHc huf hun hstop
    have hn : 0 < n := Nat.lt_of_le_of_lt (Nat.zero_le _) hj
    have hn2 : 2 ≤ n := by omega
    have hnij : (j + 1) % n ≠ j := by
      intro hc
      have h1 : 1 < n := by omega
      have := pdist_add hj h1
      rw [hc, pdist_self] at this
      omega
    have hnilt : (j + 1) % n < n := Nat.mod_lt _ hn
    have hpredni : ((j + 1) % n + n - 1) % n = j := by
      rw [pred_succ_mod hn, Nat.mod_eq_of_lt hj]
    obtain ⟨l1, l2, holdE, hnewE⟩ := pairs_update_split bs j hj
      ⟨0, (bs j).hash, (bs j).item⟩
    have hsplit1 : pairsFun bs [j] = [((bs j).hash, (bs j).item)] := by
      rw [pairsFun_single, if_pos hjz]
    by_cases hle : (bs ((j + 1) % n)).dib ≤ 1
    · -- stop: empty the current slot
      simp only [shiftLoop]
      rw [if_pos hle]
      have hfD : Dinv (Function.update bs j ⟨0, (bs j).hash, (bs j).item⟩) n := by
        intro k hk hkz
        by_cases hkj : k = j
        · subst hkj
          rw [Function.update_same] at hkz
          exact absurd rfl hkz
        · rw [Function.update_noteq hkj] at hkz ⊢
          exact hI1 k hk hkj hkz
      have hfR : Rinv (Function.update bs j ⟨0, (bs j).hash, (bs j).item⟩) n := by
        intro k hk hk2
        by_cases hkj : k = j
        · subst hkj
          rw [Function.update_same] at hk2
          have hk2b : 2 ≤ 0 := hk2
          omega
        · rw [Function.update_noteq hkj] at hk2 ⊢
          by_cases hkni : k = (j + 1) % n
          · subst hkni
            omega
          · by_cases hpk : (k + n - 1) % n = j
            · exact absurd (pred_eq_iff hn hk hpk) hkni
            · rw [Function.update_noteq hpk]
              exact hI2 k hk hkj hkni hk2
      have hfH : Hcinv (Function.update bs j ⟨0, (bs j).hash, (bs j).item⟩) n hf := by
        intro k hk hkz
        by_cases hkj : k = j
        · subst hkj
          rw [Function.update_same] at hkz
          exact absurd rfl hkz
        · rw [Function.update_noteq hkj] at hkz ⊢
          exact hHc k hk hkj hkz
      refine ⟨hfD, hfR, hfH, ?_⟩
      have hz2 : pairsFun (Function.update bs j ⟨0, (bs j).hash, (bs j).item⟩) [j] = [] := by
        rw [pairsFun_single, Function.update_same]
        exact if_neg (fun hc => hc rfl)
      rw [hnewE, hz2, List.nil_append, holdE, hsplit1, List.singleton_append]
      exact List.perm_middle.symm
    · -- shift one entry back and continue
      have hni2 : 2 ≤ (bs ((j + 1) % n)).dib := by omega
      have hu1 : 1 ≤ u := by
        rcases Nat.eq_zero_or_pos u with hu0 | hu0
        · subst hu0
          rw [Nat.add_zero] at hstop
          omega
        · exact hu0
      simp only [shiftLoop]
      rw [if_neg hle]
      have hbniz : (bs ((j + 1) % n)).dib ≠ 0 := by omega
      -- invariants for the shifted state
      have hI1ni := hI1 ((j + 1) % n) hnilt hnij hbniz
      have hpdpos : 1 ≤ pdist n ((bs ((j + 1) % n)).hash % n) ((j + 1) % n) := by
        omega
      have hhni : (bs ((j + 1) % n)).hash % n < n := Nat.mod_lt _ hn
      have hpdj : pdist n ((bs ((j + 1) % n)).hash % n) j <
          n - 1 ∧ pdist n ((bs ((j + 1) % n)).hash % n) ((j + 1) % n) =
          pdist n ((bs ((j + 1) % n)).hash % n) j + 1 := by
        have hm := pdist_succ_mod hn hhni j
        by_cases hcase : pdist n ((bs ((j + 1) % n)).hash % n) j < n - 1
        · exact ⟨hcase, pdist_succ hhni hcase⟩
        · have hlt := pdist_lt hn ((bs ((j + 1) % n)).hash % n) j
          have heq : pdist n ((bs ((j + 1) % n)).hash % n) j = n - 1 := by omega
          rw [heq] at hm
          have : (n - 1 + 1) % n = 0 := by
            have h9 : n - 1 + 1 = n := by omega
            rw [h9, Nat.mod_self]
          rw [this] at hm
          omega
      set nb : Bucket α := ⟨(bs ((j + 1) % n)).dib - 1, (bs ((j + 1) % n)).hash,
        (bs ((j + 1) % n)).item⟩ with hnb
      have hupne : ∀ k, k ≠ j → (Function.update bs j nb) k = bs k :=
        fun k hk => Function.update_noteq hk nb bs
      have hupj : (Function.update bs j nb) j = nb := Function.update_same j nb bs
      have ihc := ih (Function.update bs j nb) n hf ((j + 1) % n) (u - 1)
        hnilt
        (by rw [hupne _ hnij]; omega)
        (by
          intro k hk hkni hkz
          by_cases hkj : k = j
          · rw [hkj] at hkz ⊢
            rw [hupj] at hkz ⊢
            show (bs ((j + 1) % n)).dib - 1 =
              1 + pdist n ((bs ((j + 1) % n)).hash % n) j
            omega
          · rw [hupne _ hkj] at hkz ⊢
            exact hI1 k hk hkj hkz)
        (by
          intro k hk hkni hkni1 hk2
          by_cases hkj : k = j
          · rw [hkj] at hk2 ⊢
            rw [hupj] at hk2 ⊢
            have hpkj : (j + n - 1) % n ≠ j := by
              intro hc
              have hkeq := pred_eq_iff hn hj hc
              exact hnij hkeq.symm
            rw [hupne _ hpkj]
            have hk2b : 2 ≤ (bs ((j + 1) % n)).dib - 1 := hk2
            have h3 := hI3 (by omega)
            show (bs ((j + 1) % n)).dib - 1 ≤ (bs ((j + n - 1) % n)).dib + 1
            omega
          · rw [hupne _ hkj] at hk2 ⊢
            by_cases hpk : (k + n - 1) % n = j
            · have hkeq := pred_eq_iff hn hk hpk
              exact absurd hkeq hkni
            · rw [hupne _ hpk]
              exact hI2 k hk hkj (fun hc => hkni (by rw [hc])) hk2)
        (by
          intro h3
          have hpredni2 : (((j + 1) % n + 1) % n + n - 1) % n = (j + 1) % n := by
            rw [pred_succ_mod hn, Nat.mod_eq_of_lt hnilt]
          rw [hpredni, hupj]
          by_cases hk2j : ((j + 1) % n + 1) % n = j
          · rw [hk2j, hupj] at h3 ⊢
            show nb.dib ≤ nb.dib + 2
            omega
          · rw [hupne _ hk2j] at h3 ⊢
            have hk2ni : ((j + 1) % n + 1) % n ≠ (j + 1) % n := by
              intro hc
              have h1 : 1 < n := by omega
              have h2 := pdist_add hnilt h1
              rw [hc, pdist_self] at h2
              omega
            have hk2lt : ((j + 1) % n + 1) % n < n := Nat.mod_lt _ hn
            have h5 := hI2 (((j + 1) % n + 1) % n) hk2lt hk2j hk2ni (by omega)
            rw [hpredni2] at h5
            show (bs (((j + 1) % n + 1) % n)).dib ≤
              (bs ((j + 1) % n)).dib - 1 + 2
            omega)
        (by
          intro k hk hkni hkz
          by_cases hkj : k = j
          · rw [hkj] at hkz ⊢
            rw [hupj] at hkz ⊢
            show (bs ((j + 1) % n)).hash = hf (bs ((j + 1) % n)).item
            exact hHc ((j + 1) % n) hnilt hnij hbniz
          · rw [hupne _ hkj] at hkz ⊢
            exact hHc k hk hkj hkz)
        (by omega)
        (by omega)
        (by
          have hidx : ((j + 1) % n + 1 + (u - 1)) % n = (j + 1 + u) % n := by
            rw [Nat.add_assoc, Nat.mod_add_mod]
            congr 1
            omega
          rw [hidx]
          have hne : (j + 1 + u) % n ≠ j := by
            intro hc
            have h1 : 1 + u < n := by omega
            have h2 := pdist_add hj h1
            rw [← Nat.add_assoc] at h2
            rw [hc, pdist_self] at h2
            omega
          rw [hupne _ hne]
          exact hstop)
      obtain ⟨iD, iR, iH, iperm⟩ := ihc
      refine ⟨iD, iR, iH, ?_⟩
      have hnewE2 := hnewE
      obtain ⟨l3, l4, holdE2, hnewE3⟩ := pairs_update_split bs j hj nb
      have hnbz : nb.dib ≠ 0 := by
        show (bs ((j + 1) % n)).dib - 1 ≠ 0
        omega
      have hnb1 : pairsFun (Function.update bs j nb) [j] =
          [((bs ((j + 1) % n)).hash, (bs ((j + 1) % n)).item)] := by
        rw [pairsFun_single, Function.update_same, if_pos hnbz]
      have hpairs_up : pairsFun (Function.update bs j nb) (List.range n) =
          l3 ++ ((bs ((j + 1) % n)).hash, (bs ((j + 1) % n)).item) :: l4 := by
        rw [hnewE3, hnb1, List.singleton_append]
      have hpairs_bs : pairsFun bs (List.range n) =
          l3 ++ ((bs j).hash, (bs j).item) :: l4 := by
        rw [holdE2, hsplit1, List.singleton_append]
      have hpr : ((Function.update bs j nb) ((j + 1) % n)) = bs ((j + 1) % n) :=
        hupne _ hnij
      rw [hpr] at iperm
      rw [hpairs_up] at iperm
      have iperm2 := iperm.trans List.perm_middle
      have iperm3 := iperm2.cons_inv
      rw [hpairs_bs]
      exact ((List.Perm.cons _ iperm3).trans List.perm_middle.symm)

/-! ## Operation-level lemmas -/

theorem pow_mul3_div4 {k : Nat} (hk : 2 ≤ k) : 2 ^ k * 3 / 4 = 3 * 2 ^ (k - 2) := by
  have h1 : 2 ^ k = 2 ^ (k - 2) * 4 := by
    have h2 : k = (k - 2) + 2 := by omega
    rw [h2]
    rw [pow_add]
    norm_num
  rw [h1]
  have h3 : 2 ^ (k - 2) * 4 * 3 = 3 * 2 ^ (k - 2) * 4 := by ring
  rw [h3, Nat.mul_div_cancel _ (by norm_num)]

theorem pow_div2 {k : Nat} (hk : 1 ≤ k) : 2 ^ k / 2 = 2 ^ (k - 1) := by
  have h1 : 2 ^ k = 2 ^ (k - 1) * 2 := by
    have h2 : k = (k - 1) + 1 := by omega
    rw [h2]
    rw [pow_add]
    norm_num
  rw [h1, Nat.mul_div_cancel _ (by norm_num)]

theorem pow_div8 {k : Nat} (hk : 3 ≤ k) : 2 ^ k / 8 = 2 ^ (k - 3) := by
  have h1 : 2 ^ k = 2 ^ (k - 3) * 8 := by
    have h2 : k = (k - 3) + 3 := by omega
    rw [h2]
    rw [pow_add]
    norm_num
  rw [h1, Nat.mul_div_cancel _ (by norm_num)]

theorem doInsert_spec [Inhabited α] (m : Hashmap α) (x : α)
    (hn : 0 < m.cap)
    (hD : Dinv m.buckets m.cap) (hR : Rinv m.buckets m.cap)
    (hH : Hcinv m.buckets m.cap (getHash m))
    (hlt : occCount m < m.cap) :
    ∃ m' res, doInsert m x = (m', res) ∧
      SameCfg m m' ∧ m'.cap = m.cap ∧ m'.growat = m.growat ∧
      m'.shrinkat = m.shrinkat ∧ m'.oom = false ∧
      Dinv m'.buckets m'.cap ∧ Rinv m'.buckets m'.cap ∧
      Hcinv m'.buckets m'.cap (getHash m') ∧
      ((res = none ∧ m'.count = m.count + 1 ∧
          (pairsList m').Perm ((getHash m x, x) :: pairsList m)) ∨
       (∃ old hold, res = some old ∧ m'.count = m.count ∧
          ((hold, old) :: pairsList m').Perm ((getHash m x, x) :: pairsList m))) := by
  have hh0 : getHash m x % m.cap < m.cap := Nat.mod_lt _ hn
  have hemp : ∃ j < m.cap, (m.buckets j).dib = 0 := by
    apply exists_empty
    have h1 : ((List.range m.cap).filter fun i => (m.buckets i).dib ≠ 0).length =
        occCount m := rfl
    rw [h1]
    exact hlt
  obtain ⟨g, hg, hgap, hocc⟩ := exists_gap (getHash m x % m.cap) hh0 hemp
  have hmA := setLoop_masterA m.cap { m with oom := false } ⟨1, getHash m x, x⟩
    (getHash m x % m.cap) g hh0 hD hR hH
    (by
      show 1 = 1 + pdist m.cap (getHash m x % m.cap) (getHash m x % m.cap)
      rw [pdist_self])
    rfl
    (by
      intro h2
      have h2b : 2 ≤ 1 := h2
      omega)
    hgap hocc
    (by
      show 1 + g ≤ m.cap
      omega)
    hg
  obtain ⟨m', res, hrun, hcfg, hcap, hga, hsa, hoo, hD', hR', hH', hres⟩ := hmA
  refine ⟨m', res, ?_, hcfg, hcap, hga, hsa, hoo, hD', hR', hH', hres⟩
  show (match setLoop { m with oom := false } (bucketOf { m with oom := false } x)
    (getHash { m with oom := false } x % m.cap) m.cap with
    | some r => r
    | none => ({ m with oom := false }, none)) = (m', res)
  rw [show bucketOf { m with oom := false } x =
    (⟨1, getHash m x, x⟩ : Bucket α) from rfl]
  rw [show getHash { m with oom := false } x = getHash m x from rfl]
  rw [hrun]

theorem setLoop_fields :
    ∀ (fuel : Nat) (m : Hashmap α) (e : Bucket α) (i : Nat) (m' : Hashmap α)
      (res : Option α), setLoop m e i fuel = some (m', res) →
      SameCfg m m' ∧ m'.cap = m.cap ∧ m'.growat = m.growat ∧
      m'.shrinkat = m.shrinkat ∧ m'.oom = m.oom := by
  intro fuel
  induction fuel with
  | zero =>
    intro m e i m' res h
    simp [setLoop] at h
  | succ fuel ih =>
    intro m e i m' res h
    simp only [setLoop] at h
    by_cases h1 : (m.buckets i).dib = 0
    · rw [if_pos h1] at h
      injection h with h2
      injection h2 with h3 h4
      subst h3
      subst h4
      exact ⟨⟨rfl, rfl, rfl, rfl, rfl⟩, rfl, rfl, rfl, rfl⟩
    · rw [if_neg h1] at h
      by_cases h2 : e.hash = (m.buckets i).hash ∧
          m.elCompare e.item (m.buckets i).item = 0
      · rw [if_pos h2] at h
        injection h with h5
        injection h5 with h6 h7
        subst h6
        subst h7
        exact ⟨⟨rfl, rfl, rfl, rfl, rfl⟩, rfl, rfl, rfl, rfl⟩
      · rw [if_neg h2] at h
        by_cases h3 : (m.buckets i).dib < e.dib
        · rw [if_pos h3] at h
          have h4 := ih _ _ _ _ _ h
          exact h4
        · rw [if_neg h3] at h
          exact ih _ _ _ _ _ h

theorem rhLoop_fields :
    ∀ (fuel : Nat) (m : Hashmap α) (e : Bucket α) (i : Nat),
      SameCfg m (rhLoop m e i fuel) ∧ (rhLoop m e i fuel).cap = m.cap ∧
      (rhLoop m e i fuel).growat = m.growat ∧
      (rhLoop m e i fuel).shrinkat = m.shrinkat ∧
      (rhLoop m e i fuel).oom = m.oom ∧ (rhLoop m e i fuel).count = m.count := by
  intro fuel
  induction fuel with
  | zero =>
    intro m e i
    exact ⟨⟨rfl, rfl, rfl, rfl, rfl⟩, rfl, rfl, rfl, rfl, rfl⟩
  | succ fuel ih =>
    intro m e i
    simp only [rhLoop]
    by_cases h1 : (m.buckets i).dib = 0
    · rw [if_pos h1]
      exact ⟨⟨rfl, rfl, rfl, rfl, rfl⟩, rfl, rfl, rfl, rfl, rfl⟩
    · rw [if_neg h1]
      by_cases h2 : (m.buckets i).dib < e.dib
      · rw [if_pos h2]
        exact ih _ _ _
      · rw [if_neg h2]
        exact ih _ _ _

theorem resize_fields [Inhabited α] (m : Hashmap α) (newCap : Nat) :
    (resize m newCap).elHash = m.elHash ∧ (resize m newCap).elCompare = m.elCompare ∧
    (resize m newCap).seed0 = m.seed0 ∧ (resize m newCap).seed1 = m.seed1 ∧
    (resize m newCap).initialCap = m.initialCap ∧ (resize m newCap).cap = newCap ∧
    (resize m newCap).growat = newCap * 3 / 4 ∧
    (resize m newCap).shrinkat = newCap / 10 ∧
    (resize m newCap).oom = m.oom ∧ (resize m newCap).count = m.count := by
  have key : ∀ (l : List Nat) (acc : Hashmap α),
      SameCfg acc (l.foldl (fun a i =>
        if (m.buckets i).dib ≠ 0 then
          reinsert a ⟨1, (m.buckets i).hash, (m.buckets i).item⟩ else a) acc) ∧
      (l.foldl (fun a i =>
        if (m.buckets i).dib ≠ 0 then
          reinsert a ⟨1, (m.buckets i).hash, (m.buckets i).item⟩ else a) acc).cap
        = acc.cap ∧
      (l.foldl (fun a i =>
        if (m.buckets i).dib ≠ 0 then
          reinsert a ⟨1, (m.buckets i).hash, (m.buckets i).item⟩ else a) acc).growat
        = acc.growat ∧
      (l.foldl (fun a i =>
        if (m.buckets i).dib ≠ 0 then
          reinsert a ⟨1, (m.buckets i).hash, (m.buckets i).item⟩ else a) acc).shrinkat
        = acc.shrinkat ∧
      (l.foldl (fun a i =>
        if (m.buckets i).dib ≠ 0 then
          reinsert a ⟨1, (m.buckets i).hash, (m.buckets i).item⟩ else a) acc).oom
        = acc.oom ∧
      (l.foldl (fun a i =>
        if (m.buckets i).dib ≠ 0 then
          reinsert a ⟨1, (m.buckets i).hash, (m.buckets i).item⟩ else a) acc).count
        = acc.count := by
    intro l
    induction l with
    | nil =>
      intro acc
      exact ⟨⟨rfl, rfl, rfl, rfl, rfl⟩, rfl, rfl, rfl, rfl, rfl⟩
    | cons i l ih =>
      intro acc
      rw [List.foldl_cons]
      by_cases h1 : (m.buckets i).dib = 0
      · rw [if_neg (fun hc => hc h1)]
        exact ih acc
      · rw [if_pos h1]
        have h2 := ih (reinsert acc ⟨1, (m.buckets i).hash, (m.buckets i).item⟩)
        have h3 := rhLoop_fields acc.cap acc ⟨1, (m.buckets i).hash, (m.buckets i).item⟩
          (Bucket.hash ⟨1, (m.buckets i).hash, (m.buckets i).item⟩ % acc.cap)
        refine ⟨⟨?_, ?_, ?_, ?_, ?_⟩, ?_, ?_, ?_, ?_, ?_⟩
        · exact h2.1.1.trans h3.1.1
        · exact h2.1.2.1.trans h3.1.2.1
        · exact h2.1.2.2.1.trans h3.1.2.2.1
        · exact h2.1.2.2.2.1.trans h3.1.2.2.2.1
        · exact h2.1.2.2.2.2.trans h3.1.2.2.2.2
        · exact h2.2.1.trans h3.2.1
        · exact h2.2.2.1.trans h3.2.2.1
        · exact h2.2.2.2.1.trans h3.2.2.2.1
        · exact h2.2.2.2.2.1.trans h3.2.2.2.2.1
        · exact h2.2.2.2.2.2.trans h3.2.2.2.2.2
  have hk := key (List.range m.cap)
    { m with cap := newCap, growat := newCap * 3 / 4, shrinkat := newCap / 10, buckets := fun _ => emptyBucket }
  simp only [resize]
  exact ⟨hk.1.1, hk.1.2.1, hk.1.2.2.1, hk.1.2.2.2.1, hk.1.2.2.2.2, hk.2.1,
    hk.2.2.1, hk.2.2.2.1, hk.2.2.2.2.1, hk.2.2.2.2.2⟩

theorem doInsert_specU [Inhabited α] (m : Hashmap α) (x : α)
    (hn : 0 < m.cap)
    (hD : Dinv m.buckets m.cap) (hR : Rinv m.buckets m.cap)
    (hH : Hcinv m.buckets m.cap (getHash m))
    (hlt : occCount m < m.cap) (hU : Uinv m)
    (hNM : ∀ p ∈ pairsList m, p.1 = getHash m x →
      m.elCompare x p.2 ≠ 0 ∧ m.elCompare p.2 x ≠ 0) :
    ∃ m', doInsert m x = (m', none) ∧ Uinv m' := by
  have hh0 : getHash m x % m.cap < m.cap := Nat.mod_lt _ hn
  have hemp : ∃ j < m.cap, (m.buckets j).dib = 0 := by
    apply exists_empty
    have h1 : ((List.range m.cap).filter fun i => (m.buckets i).dib ≠ 0).length =
        occCount m := rfl
    rw [h1]
    exact hlt
  obtain ⟨g, hg, hgap, hocc⟩ := exists_gap (getHash m x % m.cap) hh0 hemp
  have hmB := setLoop_masterB m.cap { m with oom := false } ⟨1, getHash m x, x⟩
    (getHash m x % m.cap) g hh0 hD hR hH
    (by
      show 1 = 1 + pdist m.cap (getHash m x % m.cap) (getHash m x % m.cap)
      rw [pdist_self])
    rfl
    (by
      intro h2
      have h2b : 2 ≤ 1 := h2
      omega)
    hgap hocc
    (by
      show 1 + g ≤ m.cap
      omega)
    hg hU hNM
  obtain ⟨m', hrun, hU'⟩ := hmB
  refine ⟨m', ?_, hU'⟩
  show (match setLoop { m with oom := false } (bucketOf { m with oom := false } x)
    (getHash { m with oom := false } x % m.cap) m.cap with
    | some r => r
    | none => ({ m with oom := false }, none)) = (m', none)
  rw [show bucketOf { m with oom := false } x =
    (⟨1, getHash m x, x⟩ : Bucket α) from rfl]
  rw [show getHash { m with oom := false } x = getHash m x from rfl]
  rw [hrun]

theorem doInsert_oom [Inhabited α] (m : Hashmap α) (x : α) :
    (doInsert m x).1.oom = false := by
  have hd : doInsert m x =
      (match setLoop { m with oom := false } (bucketOf { m with oom := false } x)
        (getHash { m with oom := false } x % { m with oom := false }.cap)
        { m with oom := false }.cap with
      | some r => r
      | none => ({ m with oom := false }, none)) := rfl
  rw [hd]
  cases hsl : setLoop { m with oom := false } (bucketOf { m with oom := false } x)
    (getHash { m with oom := false } x % { m with oom := false }.cap)
    { m with oom := false }.cap with
  | none => rfl
  | some r =>
    obtain ⟨m', res⟩ := r
    have hf := setLoop_fields m.cap { m with oom := false }
      (bucketOf { m with oom := false } x)
      (getHash { m with oom := false } x % m.cap) m' res hsl
    exact hf.2.2.2.2

theorem hashmap_set_grow_fail [Inhabited α] (m : Hashmap α) (x : α)
    (h : m.growat ≤ m.count) :
    hashmap_set m x false = ({ m with oom := true }, none) := by
  unfold hashmap_set growIfNeeded
  rw [if_pos h]
  rfl

theorem set_finish [Inhabited α] (m m1 : Hashmap α) (x : α)
    (hwfm : WF m)
    (hcfg : SameCfg m m1)
    (hcnt : m1.count = m.count)
    (hperm1 : (pairsList m1).Perm (pairsList m))
    (hD1 : Dinv m1.buckets m1.cap) (hR1 : Rinv m1.buckets m1.cap)
    (hH1 : Hcinv m1.buckets m1.cap (getHash m1))
    (hcap16 : 16 ≤ m1.cap)
    (hcapPow : ∃ k, m1.cap = 2 ^ k)
    (hga : m1.growat = m1.cap * 3 / 4)
    (hsa : m1.shrinkat = m1.cap / 10)
    (hocc : occCount m1 < m1.cap)
    (hicapLe : m.initialCap ≤ m1.cap)
    (hcountLt : m1.count < m1.growat) :
    ∃ m' res, doInsert m1 x = (m', res) ∧ SameCfg m m' ∧
      m'.oom = false ∧ m'.cap = m1.cap ∧ WF m' ∧
      ((res = none ∧ m'.count = m.count + 1 ∧
          (pairsList m').Perm ((getHash m x, x) :: pairsList m)) ∨
       (∃ old hold, res = some old ∧ m'.count = m.count ∧
          ((hold, old) :: pairsList m').Perm ((getHash m x, x) :: pairsList m))) := by
  have h0 : 0 < m1.cap := by omega
  obtain ⟨m', res, hrun, hcfg', hc1, hc2, hc3, hc4, dD, dR, dH, hres⟩ :=
    doInsert_spec m1 x h0 hD1 hR1 hH1 hocc
  have hghx : getHash m1 x = getHash m x := getHash_congr hcfg x
  have hcfgmm' : SameCfg m m' := by
    obtain ⟨a1, a2, a3, a4, a5⟩ := hcfg
    obtain ⟨b1, b2, b3, b4, b5⟩ := hcfg'
    exact ⟨b1.trans a1, b2.trans a2, b3.trans a3, b4.trans a4, b5.trans a5⟩
  have hcntEq1 : m1.count = occCount m1 := by
    rw [hcnt, hwfm.countEq, occCount_eq, occCount_eq]
    exact hperm1.length_eq.symm
  obtain ⟨k, hk⟩ := hcapPow
  obtain ⟨k0, hk0⟩ := hwfm.icapPow
  have hwf' : WF m' := by
    refine ⟨⟨k, by rw [hc1, hk]⟩, by rw [hc1]; exact hcap16,
      ⟨k0, by rw [hcfgmm'.2.2.2.2]; exact hk0⟩,
      (by rw [hcfgmm'.2.2.2.2]; exact hwfm.icapGe),
      (by rw [hcfgmm'.2.2.2.2, hc1]; exact hicapLe),
      (by rw [hc2, hc1, hga]), (by rw [hc3, hc1, hsa]), ?_, ?_, dD, dR, dH⟩
    · rcases hres with ⟨hrn, hcnt', hperm'⟩ | ⟨old, hold, hrs, hcnt', hperm'⟩
      · have hlen : occCount m' = occCount m1 + 1 := by
          rw [occCount_eq, occCount_eq, hperm'.length_eq, List.length_cons]
        omega
      · have hlen : occCount m' = occCount m1 := by
          have h1 := hperm'.length_eq
          rw [List.length_cons, List.length_cons] at h1
          rw [occCount_eq, occCount_eq]
          omega
        omega
    · rcases hres with ⟨hrn, hcnt', hperm'⟩ | ⟨old, hold, hrs, hcnt', hperm'⟩
      · have hga' : m'.growat = m1.growat := by rw [hc2]
        omega
      · have hga' : m'.growat = m1.growat := by rw [hc2]
        omega
  refine ⟨m', res, hrun, hcfgmm', hc4, hc1, hwf', ?_⟩
  rcases hres with ⟨hrn, hcnt', hperm'⟩ | ⟨old, hold, hrs, hcnt', hperm'⟩
  · left
    rw [hghx] at hperm'
    exact ⟨hrn, by omega, hperm'.trans (List.Perm.cons _ hperm1)⟩
  · right
    rw [hghx] at hperm'
    exact ⟨old, hold, hrs, by omega, hperm'.trans (List.Perm.cons _ hperm1)⟩

theorem hashmap_set_success [Inhabited α] (m : Hashmap α) (x : α) (ok : Bool)
    (hwf : WF m) (hok : m.growat ≤ m.count → ok = true) :
    ∃ m' res, hashmap_set m x ok = (m', res) ∧ SameCfg m m' ∧
      m'.oom = false ∧ WF m' ∧ m.cap ≤ m'.cap ∧ m'.cap ≤ m.cap * 2 ∧
      ((res = none ∧ m'.count = m.count + 1 ∧
          (pairsList m').Perm ((getHash m x, x) :: pairsList m)) ∨
       (∃ old hold, res = some old ∧ m'.count = m.count ∧
          ((hold, old) :: pairsList m').Perm ((getHash m x, x) :: pairsList m))) := by
  obtain ⟨k, hk⟩ := hwf.capPow
  have h16 := hwf.capGe
  have hk4 : 4 ≤ k := by
    by_contra hc
    push_neg at hc
    have hlt : (2 : Nat) ^ k < 2 ^ 4 :=
      Nat.pow_lt_pow_right (by norm_num) (by omega)
    have h24 : (2 : Nat) ^ 4 = 16 := by norm_num
    omega
  have hp2 : 0 < 2 ^ (k - 2) := pow_pos (by norm_num) _
  have hga_val : m.growat = 3 * 2 ^ (k - 2) := by
    rw [hwf.growatEq, hk]
    exact pow_mul3_div4 (by omega)
  have hcap_val : m.cap = 4 * 2 ^ (k - 2) := by
    have h2 : (2 : Nat) ^ k = 2 ^ ((k - 2) + 2) := by
      rw [Nat.sub_add_cancel (by omega)]
    rw [hk, h2, pow_add]
    ring
  have hcountLe := hwf.countLe
  by_cases hgrow : m.growat ≤ m.count
  · have hok1 := hok hgrow
    subst hok1
    have h2cap_pos : 0 < m.cap * 2 := by omega
    have hocc_lt2 : occCount m < m.cap * 2 := by
      rw [← hwf.countEq]
      omega
    obtain ⟨r1, r2, r3, r4, r5, r6, r7, r8, r9, r10, rD, rR, rH, rPerm⟩ :=
      resize_master m (m.cap * 2) hwf.dinv hwf.rinv hwf.hcinv h2cap_pos hocc_lt2
    obtain ⟨m', res, hrun, hcfg', hoom', hcap', hwf', hres⟩ :=
      set_finish m (resize m (m.cap * 2)) x hwf
        ⟨r1, r2, r3, r4, r5⟩ r10 rPerm rD rR rH
        (by rw [r6]; omega)
        ⟨k + 1, by rw [r6, hk, pow_succ]⟩
        (by rw [r7, r6]) (by rw [r8, r6])
        (by
          rw [occCount_eq, rPerm.length_eq, ← occCount_eq, ← hwf.countEq, r6]
          omega)
        (by
          rw [r6]
          have := hwf.icapLe
          omega)
        (by rw [r10, r7]; omega)
    refine ⟨m', res, ?_, hcfg', hoom', hwf', ?_, ?_, hres⟩
    · show (match growIfNeeded m true with
        | none => ({ m with oom := true }, none)
        | some m1 => doInsert m1 x) = (m', res)
      rw [show growIfNeeded m true = some (resize m (m.cap * 2)) from by
        unfold growIfNeeded
        rw [if_pos hgrow, if_pos rfl]]
      exact hrun
    · rw [hcap', r6]
      omega
    · rw [hcap', r6]
  · push_neg at hgrow
    have hocc_lt : occCount m < m.cap := by
      rw [← hwf.countEq]
      omega
    obtain ⟨m', res, hrun, hcfg', hoom', hcap', hwf', hres⟩ :=
      set_finish m m x hwf ⟨rfl, rfl, rfl, rfl, rfl⟩ rfl (List.Perm.refl _)
        hwf.dinv hwf.rinv hwf.hcinv hwf.capGe hwf.capPow hwf.growatEq
        hwf.shrinkatEq hocc_lt hwf.icapLe hgrow
    refine ⟨m', res, ?_, hcfg', hoom', hwf', ?_, ?_, hres⟩
    · show (match growIfNeeded m ok with
        | none => ({ m with oom := true }, none)
        | some m1 => doInsert m1 x) = (m', res)
      rw [show growIfNeeded m ok = some m from by
        unfold growIfNeeded
        rw [if_neg (by omega)]]
      exact hrun
    · omega
    · omega

theorem setLoop_reach_replace {m : Hashmap α} {x : α} (hD : Dinv m.buckets m.cap)
    (hR : Rinv m.buckets m.cap) {jm : Nat} (hjm : jm < m.cap)
    (hmat : MatchAt m x jm)
    (hfirst : ∀ t < pdist m.cap (getHash m x % m.cap) jm,
      ¬ MatchAt m x ((getHash m x % m.cap + t) % m.cap)) :
    ∀ fuel t, t ≤ pdist m.cap (getHash m x % m.cap) jm →
      pdist m.cap (getHash m x % m.cap) jm - t < fuel →
      setLoop m ⟨t + 1, getHash m x, x⟩ ((getHash m x % m.cap + t) % m.cap) fuel =
        some ({ m with buckets := Function.update m.buckets jm ⟨(m.buckets jm).dib, (m.buckets jm).hash, x⟩ }, some ((m.buckets jm).item)) := by
  have hn : 0 < m.cap := Nat.lt_of_le_of_lt (Nat.zero_le _) hjm
  have hh0 : getHash m x % m.cap < m.cap := Nat.mod_lt _ hn
  have hhash : (m.buckets jm).hash = getHash m x := hmat.2.1
  have hocc : (m.buckets jm).dib ≠ 0 := hmat.1
  have hchain := dib_chain hD hR hjm hocc
  rw [hhash] at hchain
  intro fuel
  induction fuel with
  | zero =>
    intro t ht hf
    omega
  | succ fuel ih =>
    intro t ht hf
    have hdib := hchain t ht
    have hg0 : ¬ (m.buckets ((getHash m x % m.cap + t) % m.cap)).dib = 0 := by
      omega
    by_cases hend : t = pdist m.cap (getHash m x % m.cap) jm
    · subst hend
      rw [add_pdist hh0 hjm]
      rw [add_pdist hh0 hjm] at hg0
      have htest : getHash m x = (m.buckets jm).hash ∧
          m.elCompare x (m.buckets jm).item = 0 := ⟨hhash.symm, hmat.2.2⟩
      simp [setLoop, hg0, htest]
    · have htlt : t < pdist m.cap (getHash m x % m.cap) jm := by omega
      have hnm := hfirst t htlt
      have htest : ¬ (getHash m x =
            (m.buckets ((getHash m x % m.cap + t) % m.cap)).hash ∧
          m.elCompare x (m.buckets ((getHash m x % m.cap + t) % m.cap)).item = 0) := by
        intro hc
        exact hnm ⟨by omega, hc.1.symm, hc.2⟩
      have hswap : ¬ (m.buckets ((getHash m x % m.cap + t) % m.cap)).dib < t + 1 := by
        omega
      have hstep : ((getHash m x % m.cap + t) % m.cap + 1) % m.cap =
          (getHash m x % m.cap + (t + 1)) % m.cap := by
        rw [Nat.mod_add_mod]
        rfl
      simp only [setLoop]
      rw [if_neg hg0, if_neg htest, if_neg hswap, hstep]
      exact ih (t + 1) (by omega) (by omega)

theorem doInsert_replace [Inhabited α] {m : Hashmap α} {x : α}
    (hD : Dinv m.buckets m.cap) (hR : Rinv m.buckets m.cap)
    {jm : Nat} (hjm : jm < m.cap) (hmat : MatchAt m x jm)
    (hfirst : ∀ t < pdist m.cap (getHash m x % m.cap) jm,
      ¬ MatchAt m x ((getHash m x % m.cap + t) % m.cap)) :
    doInsert m x = ({ m with oom := false, buckets := Function.update m.buckets jm ⟨(m.buckets jm).dib, (m.buckets jm).hash, x⟩ }, some ((m.buckets jm).item)) := by
  have hn : 0 < m.cap := Nat.lt_of_le_of_lt (Nat.zero_le _) hjm
  have hpd : pdist m.cap (getHash m x % m.cap) jm < m.cap := pdist_lt hn _ _
  have hD0 : Dinv ({ m with oom := false } : Hashmap α).buckets
      ({ m with oom := false } : Hashmap α).cap := hD
  have hR0 : Rinv ({ m with oom := false } : Hashmap α).buckets
      ({ m with oom := false } : Hashmap α).cap := hR
  have hmat0 : MatchAt { m with oom := false } x jm := hmat
  have hfirst0 : ∀ t < pdist ({ m with oom := false } : Hashmap α).cap
      (getHash { m with oom := false } x % ({ m with oom := false } : Hashmap α).cap) jm,
      ¬ MatchAt { m with oom := false } x
        ((getHash { m with oom := false } x %
          ({ m with oom := false } : Hashmap α).cap + t) %
          ({ m with oom := false } : Hashmap α).cap) := hfirst
  have hrr := setLoop_reach_replace hD0 hR0 hjm hmat0 hfirst0 m.cap 0
    (Nat.zero_le _) (by
      show pdist m.cap (getHash m x % m.cap) jm - 0 < m.cap
      omega)
  have hsl : setLoop { m with oom := false } (bucketOf { m with oom := false } x)
      (getHash { m with oom := false } x % m.cap) m.cap =
      some ({ m with oom := false, buckets := Function.update m.buckets jm ⟨(m.buckets jm).dib, (m.buckets jm).hash, x⟩ }, some ((m.buckets jm).item)) := by
    rw [show getHash { m with oom := false } x % m.cap =
      (getHash { m with oom := false } x % m.cap + 0) % m.cap from by
        rw [Nat.add_zero, Nat.mod_mod]]
    exact hrr
  show (match setLoop { m with oom := false } (bucketOf { m with oom := false } x)
    (getHash { m with oom := false } x % m.cap) m.cap with
    | some r => r
    | none => ({ m with oom := false }, none)) = _
  rw [hsl]

theorem matchAt_unique {m : Hashmap α} (hU : Uinv m) (hE : EqOk m) {x : α}
    {j1 j2 : Nat} (h1 : j1 < m.cap) (h2 : j2 < m.cap)
    (hm1 : MatchAt m x j1) (hm2 : MatchAt m x j2) : j1 = j2 := by
  have key : ∀ a b : Nat, a < m.cap → b < m.cap → a < b →
      MatchAt m x a → MatchAt m x b → False := by
    intro a b ha hb hab hma hmb
    have hsplit : pairsList m = pairsFun m.buckets (List.range a) ++
        (pairsFun m.buckets [a] ++
          pairsFun m.buckets (List.range' (a + 1) (m.cap - (a + 1)))) := by
      unfold pairsList
      rw [range_split ha, pairsFun_append, pairsFun_cons]
    have hUm := hU
    unfold Uinv at hUm
    rw [hsplit] at hUm
    have hrest := (List.pairwise_append.1 hUm).2.1
    have hrel := (List.pairwise_append.1 hrest).2.2
    have hmem1 : ((m.buckets a).hash, (m.buckets a).item) ∈
        pairsFun m.buckets [a] := by
      rw [pairsFun_single, if_pos hma.1]
      exact List.mem_singleton.2 rfl
    have hmem2 : ((m.buckets b).hash, (m.buckets b).item) ∈
        pairsFun m.buckets (List.range' (a + 1) (m.cap - (a + 1))) := by
      rw [mem_pairsFun]
      exact ⟨b, List.mem_range'_1.2 ⟨by omega, by omega⟩, hmb.1, rfl, rfl⟩
    have hR := hrel _ hmem1 _ hmem2
    have hhash : (m.buckets a).hash = (m.buckets b).hash := by
      rw [hma.2.1, hmb.2.1]
    have hcmp : m.elCompare (m.buckets a).item (m.buckets b).item = 0 :=
      hE.trans _ x _ (hE.symm x _ hma.2.2) hmb.2.2
    exact (hR hhash).1 hcmp
  rcases Nat.lt_trichotomy j1 j2 with h | h | h
  · exact (key j1 j2 h1 h2 h hm1 hm2).elim
  · exact h
  · exact (key j2 j1 h2 h1 h hm2 hm1).elim

theorem cap_pow_four {c : Nat} (h16 : 16 ≤ c) {k : Nat} (hk : c = 2 ^ k) :
    4 ≤ k := by
  by_contra hc
  push_neg at hc
  have hlt : (2 : Nat) ^ k < 2 ^ 4 :=
    Nat.pow_lt_pow_right (by norm_num) (by omega)
  have h24 : (2 : Nat) ^ 4 = 16 := by norm_num
  omega

theorem icap_half {a c : Nat} (ha : ∃ k, a = 2 ^ k) (hc : ∃ k, c = 2 ^ k)
    (hlt : a < c) : a ≤ c / 2 := by
  obtain ⟨k0, hk0⟩ := ha
  obtain ⟨k, hk⟩ := hc
  subst hk0
  subst hk
  have hkk : k0 < k := by
    by_contra hcc
    push_neg at hcc
    have := Nat.pow_le_pow_right (show 0 < 2 by norm_num) hcc
    omega
  have h1 : 1 ≤ k := by omega
  rw [pow_div2 h1]
  exact Nat.pow_le_pow_right (by norm_num) (by omega)

theorem hashmap_delete_spec [Inhabited α] (m : Hashmap α) (q : α) (ok : Bool)
    (hwf : WF m) :
    (hashmap_find m q = none ∧ hashmap_delete m q ok = (m, none)) ∨
    (∃ j, j < m.cap ∧ hashmap_find m q = some j ∧ MatchAt m q j ∧
      ∃ m', hashmap_delete m q ok = (m', some ((m.buckets j).item)) ∧
        SameCfg m m' ∧ WF m' ∧ m'.oom = m.oom ∧
        m'.count = m.count - 1 ∧ m'.cap ≤ m.cap ∧
        ((m.count - 1 ≤ m.shrinkat ∧ m.initialCap < m.cap ∧ ok = true ∧
            m'.cap = m.cap / 2) ∨
         (¬ (m.count - 1 ≤ m.shrinkat ∧ m.initialCap < m.cap ∧ ok = true) ∧
            m'.cap = m.cap)) ∧
        (pairsList m).Perm
          (((m.buckets j).hash, (m.buckets j).item) :: pairsList m')) := by
  have h16 := hwf.capGe
  have hn : 0 < m.cap := by omega
  cases hfind : hashmap_find m q with
  | none =>
    left
    refine ⟨rfl, ?_⟩
    unfold hashmap_delete
    rw [hfind]
  | some j =>
    right
    obtain ⟨hj, hmat⟩ := hashmap_find_sound hn hfind
    refine ⟨j, hj, rfl, hmat, ?_⟩
    have hga : m.growat = m.cap * 3 / 4 := hwf.growatEq
    have hsa : m.shrinkat = m.cap / 10 := hwf.shrinkatEq
    have hocc_lt : occCount m < m.cap := by
      have := hwf.countLe
      rw [← hwf.countEq]
      omega
    have hemp : ∃ e < m.cap, (m.buckets e).dib = 0 := by
      apply exists_empty
      have h1 : ((List.range m.cap).filter fun i =>
          (m.buckets i).dib ≠ 0).length = occCount m := rfl
      rw [h1]
      exact hocc_lt
    obtain ⟨e, he, hez⟩ := hemp
    have hej : e ≠ j := fun hc => hmat.1 (hc ▸ hez)
    have hni : (j + 1) % m.cap < m.cap := Nat.mod_lt _ hn
    have hstop0 : ((j + 1) % m.cap + pdist m.cap ((j + 1) % m.cap) e) % m.cap
        = e := add_pdist hni he
    have hult : pdist m.cap ((j + 1) % m.cap) e < m.cap := pdist_lt hn _ _
    have hune : pdist m.cap ((j + 1) % m.cap) e ≠ m.cap - 1 := by
      intro hc
      apply hej
      have h2 : ((j + 1) % m.cap + (m.cap - 1)) % m.cap = e := by
        rw [← hc]
        exact hstop0
      have harith : (j + 1) % m.cap + (m.cap - 1) =
          (j + 1) % m.cap + m.cap - 1 := by omega
      rw [harith, pred_succ_mod hn, Nat.mod_eq_of_lt hj] at h2
      exact h2.symm
    have hI1 : ∀ k < m.cap, k ≠ j → (m.buckets k).dib ≠ 0 →
        (m.buckets k).dib = 1 + pdist m.cap ((m.buckets k).hash % m.cap) k :=
      fun k hk _ hkz => hwf.dinv k hk hkz
    have hI2 : ∀ k < m.cap, k ≠ j → k ≠ (j + 1) % m.cap →
        2 ≤ (m.buckets k).dib →
        (m.buckets k).dib ≤ (m.buckets ((k + m.cap - 1) % m.cap)).dib + 1 :=
      fun k hk _ _ h2 => hwf.rinv k hk h2
    have hI3 : 3 ≤ (m.buckets ((j + 1) % m.cap)).dib →
        (m.buckets ((j + 1) % m.cap)).dib ≤
          (m.buckets ((j + m.cap - 1) % m.cap)).dib + 2 := by
      intro h3
      have hr1 := hwf.rinv _ hni (by omega)
      have hpredni : ((j + 1) % m.cap + m.cap - 1) % m.cap = j := by
        rw [pred_succ_mod hn, Nat.mod_eq_of_lt hj]
      rw [hpredni] at hr1
      have hr2 := hwf.rinv j hj (by omega)
      omega
    have hHc : ∀ k < m.cap, k ≠ j → (m.buckets k).dib ≠ 0 →
        (m.buckets k).hash = getHash m (m.buckets k).item :=
      fun k hk _ hkz => hwf.hcinv k hk hkz
    have hstop : (m.buckets ((j + 1 + pdist m.cap ((j + 1) % m.cap) e)
        % m.cap)).dib ≤ 1 := by
      have h2 : (j + 1 + pdist m.cap ((j + 1) % m.cap) e) % m.cap = e := by
        rw [← Nat.mod_add_mod]
        exact hstop0
      rw [h2, hez]
      omega
    obtain ⟨sD, sR, sH, sPerm⟩ := shiftLoop_master m.cap m.buckets m.cap
      (getHash m) j (pdist m.cap ((j + 1) % m.cap) e) hj hmat.1 hI1 hI2 hI3
      hHc (by omega) (by omega) hstop
    set m1 : Hashmap α := { m with buckets := shiftLoop m.buckets m.cap j m.cap, count := m.count - 1 } with hm1
    have hlen : occCount m1 + 1 = occCount m := by
      have h1 := sPerm.length_eq
      rw [List.length_cons] at h1
      rw [occCount_eq, occCount_eq]
      exact h1
    have hcnt1 : 1 ≤ m.count := by
      rw [hwf.countEq]
      omega
    have hwf1 : WF m1 :=
      ⟨hwf.capPow, hwf.capGe, hwf.icapPow, hwf.icapGe, hwf.icapLe,
        hwf.growatEq, hwf.shrinkatEq,
        (by
          show m.count - 1 = occCount m1
          rw [hwf.countEq] at hcnt1 ⊢
          omega),
        (by
          show m.count - 1 ≤ m.growat
          have := hwf.countLe
          omega),
        sD, sR, sH⟩
    have hperm1 : (pairsList m).Perm
        (((m.buckets j).hash, (m.buckets j).item) :: pairsList m1) :=
      sPerm.symm
    have hdel : hashmap_delete m q ok =
        (if m.count - 1 ≤ m.shrinkat ∧ m.initialCap < m.cap then
          (if ok = true then (resize m1 (m1.cap / 2), some ((m.buckets j).item))
           else (m1, some ((m.buckets j).item)))
         else (m1, some ((m.buckets j).item))) := by
      unfold hashmap_delete
      rw [hfind]
    by_cases hshr : m.count - 1 ≤ m.shrinkat ∧ m.initialCap < m.cap
    · rw [if_pos hshr] at hdel
      cases ok with
      | false =>
        rw [if_neg Bool.false_ne_true] at hdel
        refine ⟨m1, hdel, ⟨rfl, rfl, rfl, rfl, rfl⟩, hwf1, rfl, rfl, ?_, ?_,
          hperm1⟩
        · show m.cap ≤ m.cap
          omega
        · right
          exact ⟨by intro hc; exact Bool.false_ne_true hc.2.2, rfl⟩
      | true =>
        rw [if_pos rfl] at hdel
        have hocc1_lt : occCount m1 < m1.cap / 2 := by
          have h2 : occCount m1 = m.count - 1 := by
            rw [hwf.countEq] at hcnt1 ⊢
            omega
          show occCount m1 < m.cap / 2
          omega
        have hhalf_pos : 0 < m1.cap / 2 := by
          show 0 < m.cap / 2
          omega
        obtain ⟨r1, r2, r3, r4, r5, r6, r7, r8, r9, r10, rD, rR, rH, rPerm⟩ :=
          resize_master m1 (m1.cap / 2) hwf1.dinv hwf1.rinv hwf1.hcinv
            hhalf_pos hocc1_lt
        have hicap_half : m.initialCap ≤ m.cap / 2 :=
          icap_half hwf.icapPow hwf.capPow hshr.2
        obtain ⟨k, hk⟩ := hwf.capPow
        have hk4 : 4 ≤ k := cap_pow_four h16 hk
        have hwf2 : WF (resize m1 (m1.cap / 2)) := by
          refine ⟨⟨k - 1, ?_⟩, ?_, ?_, ?_, ?_, ?_, ?_, ?_, ?_, rD, rR, rH⟩
          · rw [r6]
            show m.cap / 2 = 2 ^ (k - 1)
            rw [hk]
            exact pow_div2 (by omega)
          · rw [r6]
            show 16 ≤ m.cap / 2
            have := hwf.icapGe
            omega
          · rw [r5]
            exact hwf1.icapPow
          · rw [r5]
            exact hwf1.icapGe
          · rw [r5, r6]
            exact hicap_half
          · rw [r7, r6]
          · rw [r8, r6]
          · rw [r10, occCount_eq, rPerm.length_eq, ← occCount_eq]
            exact hwf1.countEq
          · rw [r10, r7]
            show m.count - 1 ≤ m1.cap / 2 * 3 / 4
            have h2 := hshr.1
            rw [hsa] at h2
            show m.count - 1 ≤ m.cap / 2 * 3 / 4
            omega
        refine ⟨resize m1 (m1.cap / 2), hdel,
          ⟨r1, r2, r3, r4, r5⟩, hwf2, ?_, ?_, ?_, ?_, ?_⟩
        · rw [r9]
        · rw [r10]
        · rw [r6]
          show m.cap / 2 ≤ m.cap
          omega
        · left
          refine ⟨hshr.1, hshr.2, rfl, ?_⟩
          rw [r6]
        · exact hperm1.trans (List.Perm.cons _ rPerm.symm)
    · rw [if_neg hshr] at hdel
      refine ⟨m1, hdel, ⟨rfl, rfl, rfl, rfl, rfl⟩, hwf1, rfl, rfl, ?_, ?_,
        hperm1⟩
      · show m.cap ≤ m.cap
        omega
      · right
        exact ⟨by intro hc; exact hshr ⟨hc.1, hc.2.1⟩, rfl⟩

theorem occCount_zeroed {m : Hashmap α}
    (hb : ∀ i < m.cap, (m.buckets i).dib = 0) : occCount m = 0 := by
  unfold occCount
  rw [List.length_eq_zero, List.filter_eq_nil]
  intro a ha
  simp only [decide_eq_true_eq, ne_eq, Decidable.not_not]
  exact hb a (List.mem_range.1 ha)

theorem capLoop_facts (n : Nat) : ∀ fuel c, (∃ k, c = 2 ^ k) → 16 ≤ c →
    (∃ k, capLoop n c fuel = 2 ^ k) ∧ 16 ≤ capLoop n c fuel := by
  intro fuel
  induction fuel with
  | zero =>
    intro c hp h16
    exact ⟨hp, h16⟩
  | succ fuel ih =>
    intro c hp h16
    by_cases h : n ≤ c
    · rw [capLoop, if_pos h]
      exact ⟨hp, h16⟩
    · rw [capLoop, if_neg h]
      obtain ⟨k, hk⟩ := hp
      exact ih (c * 2) ⟨k + 1, by rw [hk, pow_succ]⟩ (by omega)

theorem capFor_facts (req : Nat) :
    (∃ k, capFor req = 2 ^ k) ∧ 16 ≤ capFor req :=
  capLoop_facts (max 16 req) req 16 ⟨4, by norm_num⟩ (le_refl _)

theorem mkNew_WF [Inhabited α] (eh : α → Nat → Nat → Nat) (ec : α → α → Int)
    (s0 s1 rc : Nat) : WF (mkNew eh ec s0 s1 rc) := by
  have hfacts := capFor_facts rc
  have hge : 16 ≤ capFor rc := hfacts.2
  refine ⟨hfacts.1, hge, hfacts.1, hge, le_refl _, rfl, rfl, ?_,
    Nat.zero_le _, ?_, ?_, ?_⟩
  · exact (occCount_zeroed (fun i _ => rfl)).symm
  · intro i hi hz
    exact absurd rfl hz
  · intro i hi h2
    have h2b : 2 ≤ 0 := h2
    omega
  · intro i hi hz
    exact absurd rfl hz

theorem hashmap_clear_WF [Inhabited α] (m : Hashmap α) (uc ok : Bool)
    (hwf : WF m) : WF (hashmap_clear m uc ok).1 := by
  have hcap : ∃ c, (if uc && ok then m.initialCap else m.cap) = c ∧
      (∃ k, c = 2 ^ k) ∧ 16 ≤ c ∧ m.initialCap ≤ c := by
    by_cases h : (uc && ok) = true
    · rw [if_pos h]
      exact ⟨m.initialCap, rfl, hwf.icapPow, hwf.icapGe, le_refl _⟩
    · rw [if_neg h]
      exact ⟨m.cap, rfl, hwf.capPow, hwf.capGe, hwf.icapLe⟩
  obtain ⟨c, hc, hcpow, hc16, hicc⟩ := hcap
  show WF { m with cap := if uc && ok then m.initialCap else m.cap, count := 0, growat := (if uc && ok then m.initialCap else m.cap) * 3 / 4, shrinkat := (if uc && ok then m.initialCap else m.cap) / 10, buckets := fun _ => (emptyBucket : Bucket α) }
  rw [hc]
  refine ⟨hcpow, hc16, hwf.icapPow, hwf.icapGe, hicc, rfl, rfl, ?_,
    Nat.zero_le _, ?_, ?_, ?_⟩
  · exact (occCount_zeroed (fun i _ => rfl)).symm
  · intro i hi hz
    exact absurd rfl hz
  · intro i hi h2
    have h2b : 2 ≤ 0 := h2
    omega
  · intro i hi hz
    exact absurd rfl hz

theorem hashmap_set_WF [Inhabited α] (m : Hashmap α) (x : α) (ok : Bool)
    (hwf : WF m) : WF (hashmap_set m x ok).1 := by
  by_cases hcase : m.growat ≤ m.count ∧ ok = false
  · rw [hcase.2, hashmap_set_grow_fail m x hcase.1]
    exact ⟨hwf.capPow, hwf.capGe, hwf.icapPow, hwf.icapGe, hwf.icapLe,
      hwf.growatEq, hwf.shrinkatEq, hwf.countEq, hwf.countLe, hwf.dinv,
      hwf.rinv, hwf.hcinv⟩
  · have hok : m.growat ≤ m.count → ok = true := by
      intro hg
      cases ok with
      | false => exact absurd ⟨hg, rfl⟩ hcase
      | true => rfl
    obtain ⟨m', res, hrun, hcfg, hoom, hwf', hrest⟩ :=
      hashmap_set_success m x ok hwf hok
    rw [hrun]
    exact hwf'

theorem hashmap_delete_WF [Inhabited α] (m : Hashmap α) (q : α) (ok : Bool)
    (hwf : WF m) : WF (hashmap_delete m q ok).1 := by
  rcases hashmap_delete_spec m q ok hwf with ⟨hf, heq⟩ |
    ⟨j, hj, hf, hmat, m', heq, hcfg, hwf', hrest⟩
  · rw [heq]
    exact hwf
  · rw [heq]
    exact hwf'

theorem reachable_WF [Inhabited α] {m : Hashmap α} (h : Reachable m) :
    WF m := by
  induction h with
  | new eh ec s0 s1 rc => exact mkNew_WF eh ec s0 s1 rc
  | set x ok hr ih => exact hashmap_set_WF _ x ok ih
  | del q ok hr ih => exact hashmap_delete_WF _ q ok ih
  | clr uc ok hr ih => exact hashmap_clear_WF _ uc ok ih

theorem eqok_congr {a b : Hashmap α} (hcfg : SameCfg a b) (hE : EqOk a) :
    EqOk b := by
  refine ⟨?_, ?_, ?_⟩
  · rw [hcfg.2.1]
    exact hE.symm
  · rw [hcfg.2.1]
    exact hE.trans
  · rw [hcfg.1, hcfg.2.1, hcfg.2.2.1, hcfg.2.2.2.1]
    exact hE.hashCongr

theorem uinv_transfer {a b : Hashmap α} (hcfg : SameCfg a b)
    (hperm : (pairsList b).Perm (pairsList a)) (hU : Uinv a) : Uinv b := by
  unfold Uinv at hU ⊢
  rw [hcfg.2.1]
  exact (uinv_pairwise_perm a hperm).2 hU

theorem match_of_pair {m : Hashmap α} {x : α} {p : Nat × α}
    (hp : p ∈ pairsList m) (hh : p.1 = getHash m x)
    (hc : m.elCompare x p.2 = 0) : ∃ j, j < m.cap ∧ MatchAt m x j := by
  have hp' : p ∈ pairsFun m.buckets (List.range m.cap) := hp
  obtain ⟨j, hj, hz, hhash, hitem⟩ := mem_pairsFun.1 hp'
  refine ⟨j, List.mem_range.1 hj, hz, ?_, ?_⟩
  · rw [hhash]
    exact hh
  · rw [hitem]
    exact hc

theorem pairwise_middle_swap {R : (Nat × α) → (Nat × α) → Prop}
    {l1 l2 : List (Nat × α)} {a b : Nat × α}
    (hp : List.Pairwise R (l1 ++ b :: l2))
    (h1 : ∀ p ∈ l1, R p a) (h2 : ∀ p ∈ l2, R a p) :
    List.Pairwise R (l1 ++ a :: l2) := by
  rw [List.pairwise_append] at hp ⊢
  obtain ⟨hpl1, hpbl2, hcross⟩ := hp
  rw [List.pairwise_cons] at hpbl2 ⊢
  refine ⟨hpl1, ⟨h2, hpbl2.2⟩, ?_⟩
  intro p hpmem q hqmem
  rcases List.mem_cons.1 hqmem with hqa | hql2
  · rw [hqa]
    exact h1 p hpmem
  · exact hcross p hpmem q (List.mem_cons_of_mem b hql2)

theorem grow_spec [Inhabited α] (m : Hashmap α) (ok : Bool) (hwf : WF m)
    (hok : m.growat ≤ m.count → ok = true) :
    ∃ m1, growIfNeeded m ok = some m1 ∧ SameCfg m m1 ∧
      m1.count = m.count ∧ (pairsList m1).Perm (pairsList m) ∧
      Dinv m1.buckets m1.cap ∧ Rinv m1.buckets m1.cap ∧
      Hcinv m1.buckets m1.cap (getHash m1) ∧
      16 ≤ m1.cap ∧ (∃ k, m1.cap = 2 ^ k) ∧
      m1.growat = m1.cap * 3 / 4 ∧ m1.shrinkat = m1.cap / 10 ∧
      occCount m1 < m1.cap ∧ m.initialCap ≤ m1.cap ∧
      m1.count < m1.growat ∧ m.cap ≤ m1.cap ∧ m1.cap ≤ m.cap * 2 ∧
      m1.oom = m.oom := by
  obtain ⟨k, hk⟩ := hwf.capPow
  have h16 := hwf.capGe
  have hk4 : 4 ≤ k := cap_pow_four h16 hk
  have hp2 : 0 < 2 ^ (k - 2) := pow_pos (by norm_num) _
  have hga_val : m.growat = 3 * 2 ^ (k - 2) := by
    rw [hwf.growatEq, hk]
    exact pow_mul3_div4 (by omega)
  have hcap_val : m.cap = 4 * 2 ^ (k - 2) := by
    have h2 : (2 : Nat) ^ k = 2 ^ ((k - 2) + 2) := by
      rw [Nat.sub_add_cancel (by omega)]
    rw [hk, h2, pow_add]
    ring
  have hcountLe := hwf.countLe
  by_cases hgrow : m.growat ≤ m.count
  · have hok1 := hok hgrow
    subst hok1
    have h2cap_pos : 0 < m.cap * 2 := by omega
    have hocc_lt2 : occCount m < m.cap * 2 := by
      rw [← hwf.countEq]
      omega
    obtain ⟨r1, r2, r3, r4, r5, r6, r7, r8, r9, r10, rD, rR, rH, rPerm⟩ :=
      resize_master m (m.cap * 2) hwf.dinv hwf.rinv hwf.hcinv h2cap_pos hocc_lt2
    refine ⟨resize m (m.cap * 2), ?_, ⟨r1, r2, r3, r4, r5⟩, r10, rPerm,
      rD, rR, rH, ?_, ⟨k + 1, by rw [r6, hk, pow_succ]⟩,
      (by rw [r7, r6]), (by rw [r8, r6]), ?_, ?_, ?_, ?_, ?_, r9⟩
    · unfold growIfNeeded
      rw [if_pos hgrow, if_pos rfl]
    · rw [r6]
      omega
    · rw [occCount_eq, rPerm.length_eq, ← occCount_eq, ← hwf.countEq, r6]
      omega
    · rw [r6]
      have := hwf.icapLe
      omega
    · rw [r10, r7]
      omega
    · rw [r6]
      omega
    · rw [r6]
  · push_neg at hgrow
    refine ⟨m, ?_, ⟨rfl, rfl, rfl, rfl, rfl⟩, rfl, List.Perm.refl _,
      hwf.dinv, hwf.rinv, hwf.hcinv, hwf.capGe, hwf.capPow, hwf.growatEq,
      hwf.shrinkatEq, ?_, hwf.icapLe, hgrow, le_refl _, by omega, rfl⟩
    · unfold growIfNeeded
      rw [if_neg (by omega)]
    · rw [← hwf.countEq]
      omega

theorem set_eq_doInsert [Inhabited α] (m m1 : Hashmap α) (x : α) (ok : Bool)
    (h : growIfNeeded m ok = some m1) :
    hashmap_set m x ok = doInsert m1 x := by
  unfold hashmap_set
  rw [h]

theorem hashmap_set_absent [Inhabited α] (m : Hashmap α) (x : α) (ok : Bool)
    (hwf : WF m) (hU : Uinv m) (hE : EqOk m)
    (hok : m.growat ≤ m.count → ok = true)
    (habs : ∀ j < m.cap, ¬ MatchAt m x j) :
    ∃ m', hashmap_set m x ok = (m', none) ∧ SameCfg m m' ∧ m'.oom = false ∧
      WF m' ∧ Uinv m' ∧ m'.count = m.count + 1 ∧ m.cap ≤ m'.cap ∧
      (pairsList m').Perm ((getHash m x, x) :: pairsList m) := by
  obtain ⟨m1, hgi, hcfg, hcnt, hperm1, hD1, hR1, hH1, h16c, hpow, hga1, hsa1,
    hocc1, hicap1, hlt1, hcap_le, hcap_le2, hoomeq⟩ := grow_spec m ok hwf hok
  have hgh1 : getHash m1 x = getHash m x := getHash_congr hcfg x
  have hU1 : Uinv m1 := uinv_transfer hcfg hperm1 hU
  have hE1 : EqOk m1 := eqok_congr hcfg hE
  have habs1 : ∀ j, j < m1.cap → ¬ MatchAt m1 x j := by
    intro j hj hmt
    have hp : ((m1.buckets j).hash, (m1.buckets j).item) ∈ pairsList m1 :=
      pair_mem_pairsList hj hmt.1
    have hpm : ((m1.buckets j).hash, (m1.buckets j).item) ∈ pairsList m :=
      hperm1.mem_iff.1 hp
    obtain ⟨j', hj', hmt'⟩ := match_of_pair hpm
      (by
        show (m1.buckets j).hash = getHash m x
        rw [hmt.2.1]
        exact hgh1)
      (by
        show m.elCompare x (m1.buckets j).item = 0
        rw [← hcfg.2.1]
        exact hmt.2.2)
    exact habs j' hj' hmt'
  have hNM : ∀ p ∈ pairsList m1, p.1 = getHash m1 x →
      m1.elCompare x p.2 ≠ 0 ∧ m1.elCompare p.2 x ≠ 0 := by
    intro p hp hph
    constructor
    · intro hc
      obtain ⟨j, hj, hmt⟩ := match_of_pair hp hph hc
      exact habs1 j hj hmt
    · intro hc
      have hc2 : m1.elCompare x p.2 = 0 := hE1.symm _ _ hc
      obtain ⟨j, hj, hmt⟩ := match_of_pair hp hph hc2
      exact habs1 j hj hmt
  obtain ⟨m'', hrun2, hU2⟩ := doInsert_specU m1 x (by omega) hD1 hR1 hH1
    hocc1 hU1 hNM
  obtain ⟨m', res, hrun, hcfg', hoom', hcap', hwf', hres⟩ :=
    set_finish m m1 x hwf hcfg hcnt hperm1 hD1 hR1 hH1 h16c hpow hga1 hsa1
      hocc1 hicap1 hlt1
  rw [hrun] at hrun2
  injection hrun2 with h1 h2
  subst h1
  subst h2
  rcases hres with ⟨hrn, hcnt', hperm'⟩ | ⟨old, hold, hrs, hc2, hp2⟩
  · refine ⟨m', ?_, hcfg', hoom', hwf', hU2, hcnt', ?_, hperm'⟩
    · rw [set_eq_doInsert m m1 x ok hgi]
      rw [hrun, hrn]
    · omega
  · simp at hrs

theorem pairs_split_explicit (bs : Nat → Bucket α) {n : Nat} (j : Nat)
    (hj : j < n) (b : Bucket α) :
    pairsFun bs (List.range n) =
      pairsFun bs (List.range j) ++ (pairsFun bs [j] ++
        pairsFun bs (List.range' (j + 1) (n - (j + 1)))) ∧
    pairsFun (Function.update bs j b) (List.range n) =
      pairsFun bs (List.range j) ++ (pairsFun (Function.update bs j b) [j] ++
        pairsFun bs (List.range' (j + 1) (n - (j + 1)))) := by
  constructor
  · rw [range_split hj, pairsFun_append, pairsFun_cons]
  · rw [range_split hj, pairsFun_append, pairsFun_cons]
    have hleft : j ∉ List.range j := by simp
    have hright : j ∉ List.range' (j + 1) (n - (j + 1)) := by
      intro hmem
      have := List.mem_range'_1.1 hmem
      omega
    rw [pairsFun_update_not_mem hleft, pairsFun_update_not_mem hright]

theorem hashmap_set_present [Inhabited α] (m : Hashmap α) (x : α) (ok : Bool)
    (hwf : WF m) (hU : Uinv m) (hE : EqOk m)
    (hok : m.growat ≤ m.count → ok = true)
    (hpres : ∃ j, j < m.cap ∧ MatchAt m x j) :
    ∃ m1 jm m', growIfNeeded m ok = some m1 ∧ jm < m1.cap ∧
      MatchAt m1 x jm ∧
      m' = { m1 with oom := false, buckets := Function.update m1.buckets jm ⟨(m1.buckets jm).dib, (m1.buckets jm).hash, x⟩ } ∧
      hashmap_set m x ok = (m', some ((m1.buckets jm).item)) ∧
      (m1.buckets jm).hash = getHash m x ∧
      m.elCompare x ((m1.buckets jm).item) = 0 ∧
      ((m1.buckets jm).hash, (m1.buckets jm).item) ∈ pairsList m ∧
      pairsList m1 = pairsFun m1.buckets (List.range jm) ++
        (((m1.buckets jm).hash, (m1.buckets jm).item) ::
          pairsFun m1.buckets (List.range' (jm + 1) (m1.cap - (jm + 1)))) ∧
      pairsList m' = pairsFun m1.buckets (List.range jm) ++
        (((m1.buckets jm).hash, x) ::
          pairsFun m1.buckets (List.range' (jm + 1) (m1.cap - (jm + 1)))) ∧
      SameCfg m m' ∧ m'.oom = false ∧ WF m' ∧ Uinv m' ∧
      m'.count = m.count ∧ (pairsList m1).Perm (pairsList m) := by
  obtain ⟨m1, hgi, hcfg, hcnt, hperm1, hD1, hR1, hH1, h16c, hpow, hga1, hsa1,
    hocc1, hicap1, hlt1, hcap_le, hcap_le2, hoomeq⟩ := grow_spec m ok hwf hok
  have hgh1 : getHash m1 x = getHash m x := getHash_congr hcfg x
  have hU1 : Uinv m1 := uinv_transfer hcfg hperm1 hU
  have hE1 : EqOk m1 := eqok_congr hcfg hE
  obtain ⟨j0, hj0, hm0⟩ := hpres
  have hp0 : ((m.buckets j0).hash, (m.buckets j0).item) ∈ pairsList m1 :=
    hperm1.mem_iff.2 (pair_mem_pairsList hj0 hm0.1)
  obtain ⟨j1, hj1, hm1⟩ := match_of_pair hp0
    (by
      show (m.buckets j0).hash = getHash m1 x
      rw [hm0.2.1, hgh1])
    (by
      show m1.elCompare x (m.buckets j0).item = 0
      rw [hcfg.2.1]
      exact hm0.2.2)
  obtain ⟨jm, hjm, hmatm, hfirst⟩ := exists_first_match hj1 hm1
  have heqDI := doInsert_replace hD1 hR1 hjm hmatm hfirst
  have hseteq : hashmap_set m x ok = ({ m1 with oom := false, buckets := Function.update m1.buckets jm ⟨(m1.buckets jm).dib, (m1.buckets jm).hash, x⟩ }, some ((m1.buckets jm).item)) := by
    rw [set_eq_doInsert m m1 x ok hgi]
    exact heqDI
  obtain ⟨m'', res, hrun, hcfg', hoom', hcap', hwf', hres⟩ :=
    set_finish m m1 x hwf hcfg hcnt hperm1 hD1 hR1 hH1 h16c hpow hga1 hsa1
      hocc1 hicap1 hlt1
  rw [heqDI] at hrun
  injection hrun with h1 h2
  subst h1
  obtain ⟨hsplit_old, hsplit_new⟩ := pairs_split_explicit m1.buckets jm hjm
    ⟨(m1.buckets jm).dib, (m1.buckets jm).hash, x⟩
  have hmid_old : pairsFun m1.buckets [jm] =
      [((m1.buckets jm).hash, (m1.buckets jm).item)] := by
    rw [pairsFun_single, if_pos hmatm.1]
  have hmid_new : pairsFun (Function.update m1.buckets jm ⟨(m1.buckets jm).dib, (m1.buckets jm).hash, x⟩) [jm] = [((m1.buckets jm).hash, x)] := by
    rw [pairsFun_single]
    rw [Function.update_same]
    exact if_pos hmatm.1
  have hdec_old : pairsList m1 = pairsFun m1.buckets (List.range jm) ++
      (((m1.buckets jm).hash, (m1.buckets jm).item) ::
        pairsFun m1.buckets (List.range' (jm + 1) (m1.cap - (jm + 1)))) := by
    show pairsFun m1.buckets (List.range m1.cap) = _
    rw [hsplit_old, hmid_old]
    rfl
  have hdec_new : pairsList { m1 with oom := false, buckets := Function.update m1.buckets jm ⟨(m1.buckets jm).dib, (m1.buckets jm).hash, x⟩ } = pairsFun m1.buckets (List.range jm) ++ (((m1.buckets jm).hash, x) :: pairsFun m1.buckets (List.range' (jm + 1) (m1.cap - (jm + 1)))) := by
    show pairsFun (Function.update m1.buckets jm ⟨(m1.buckets jm).dib, (m1.buckets jm).hash, x⟩) (List.range m1.cap) = _
    rw [hsplit_new, hmid_new]
    rfl
  have hUm' : Uinv { m1 with oom := false, buckets := Function.update m1.buckets jm ⟨(m1.buckets jm).dib, (m1.buckets jm).hash, x⟩ } := by
    show List.Pairwise (fun p q : Nat × α => p.1 = q.1 →
      m1.elCompare p.2 q.2 ≠ 0 ∧ m1.elCompare q.2 p.2 ≠ 0)
      (pairsList { m1 with oom := false, buckets := Function.update m1.buckets jm ⟨(m1.buckets jm).dib, (m1.buckets jm).hash, x⟩ })
    rw [hdec_new]
    have hUm1' : List.Pairwise (fun p q : Nat × α => p.1 = q.1 →
        m1.elCompare p.2 q.2 ≠ 0 ∧ m1.elCompare q.2 p.2 ≠ 0)
        (pairsFun m1.buckets (List.range jm) ++
          (((m1.buckets jm).hash, (m1.buckets jm).item) ::
            pairsFun m1.buckets (List.range' (jm + 1) (m1.cap - (jm + 1))))) := by
      have hu := hU1
      unfold Uinv at hu
      rw [hdec_old] at hu
      exact hu
    refine pairwise_middle_swap hUm1' ?_ ?_
    · intro p hpl1 hph
      obtain ⟨j', hj', hz', hh', hi'⟩ := mem_pairsFun.1 hpl1
      have hj'lt : j' < jm := List.mem_range.1 hj'
      constructor
      · intro hc
        have hc2 : m1.elCompare x p.2 = 0 := hE1.symm _ _ hc
        have hmt' : MatchAt m1 x j' := by
          refine ⟨hz', ?_, ?_⟩
          · rw [hh', hph]
            show (((m1.buckets jm).hash, x) : Nat × α).1 = getHash m1 x
            rw [hmatm.2.1]
          · rw [hi']
            exact hc2
        have := matchAt_unique hU1 hE1 (by omega : j' < m1.cap) hjm hmt' hmatm
        omega
      · intro hc
        have hmt' : MatchAt m1 x j' := by
          refine ⟨hz', ?_, ?_⟩
          · rw [hh', hph]
            show (((m1.buckets jm).hash, x) : Nat × α).1 = getHash m1 x
            rw [hmatm.2.1]
          · rw [hi']
            exact hc
        have := matchAt_unique hU1 hE1 (by omega : j' < m1.cap) hjm hmt' hmatm
        omega
    · intro p hpl2 hph
      obtain ⟨j', hj', hz', hh', hi'⟩ := mem_pairsFun.1 hpl2
      have hj'range := List.mem_range'_1.1 hj'
      have hmt'hash : (m1.buckets j').hash = getHash m1 x := by
        rw [hh', ← hph]
        show (((m1.buckets jm).hash, x) : Nat × α).1 = getHash m1 x
        rw [hmatm.2.1]
      constructor
      · intro hc
        have hmt' : MatchAt m1 x j' := ⟨hz', hmt'hash, by rw [hi']; exact hc⟩
        have := matchAt_unique hU1 hE1 (by omega : j' < m1.cap) hjm hmt' hmatm
        omega
      · intro hc
        have hc2 : m1.elCompare x p.2 = 0 := hE1.symm _ _ hc
        have hmt' : MatchAt m1 x j' := ⟨hz', hmt'hash, by rw [hi']; exact hc2⟩
        have := matchAt_unique hU1 hE1 (by omega : j' < m1.cap) hjm hmt' hmatm
        omega
  refine ⟨m1, jm, { m1 with oom := false, buckets := Function.update m1.buckets jm ⟨(m1.buckets jm).dib, (m1.buckets jm).hash, x⟩ }, hgi, hjm, hmatm, rfl, hseteq, ?_, ?_, ?_, hdec_old, hdec_new, ?_, ?_, ?_, ?_, ?_, hperm1⟩
  · rw [hmatm.2.1]
    exact hgh1
  · rw [← hcfg.2.1]
    exact hmatm.2.2
  · exact hperm1.mem_iff.1 (pair_mem_pairsList hjm hmatm.1)
  · exact hcfg'
  · exact hoom'
  · exact hwf'
  · exact hUm'
  · rcases hres with ⟨hrn, hcnt', hperm'⟩ | ⟨old2, hold2, hrs, hcnt', hperm'⟩
    · rw [hrn] at h2
      simp at h2
    · exact hcnt'

theorem sameCfg_trans {a b c : Hashmap α} (h1 : SameCfg a b)
    (h2 : SameCfg b c) : SameCfg a c :=
  ⟨h2.1.trans h1.1, h2.2.1.trans h1.2.1, h2.2.2.1.trans h1.2.2.1,
    h2.2.2.2.1.trans h1.2.2.2.1, h2.2.2.2.2.trans h1.2.2.2.2⟩

theorem otherSteps_preserve [Inhabited α] {R : α} {ma mb : Hashmap α}
    (hsteps : OtherSteps R ma mb)
    (hwf : WF ma) (hU : Uinv ma) (hE : EqOk ma)
    (hmem : (getHash ma R, R) ∈ pairsList ma) :
    WF mb ∧ Uinv mb ∧ EqOk mb ∧ SameCfg ma mb ∧
      (getHash ma R, R) ∈ pairsList mb := by
  induction hsteps with
  | refl => exact ⟨hwf, hU, hE, ⟨rfl, rfl, rfl, rfl, rfl⟩, hmem⟩
  | set x ok hprev hne ih =>
    obtain ⟨hwf2, hU2, hE2, hcfg12, hmem2⟩ := ih
    rename_i mm
    have hgR : getHash mm R = getHash ma R := getHash_congr hcfg12 R
    by_cases hgf : mm.growat ≤ mm.count ∧ ok = false
    · rw [hgf.2, hashmap_set_grow_fail mm x hgf.1]
      show WF ({ mm with oom := true } : Hashmap α) ∧ Uinv { mm with oom := true } ∧ EqOk { mm with oom := true } ∧ SameCfg ma { mm with oom := true } ∧ (getHash ma R, R) ∈ pairsList { mm with oom := true }
      refine ⟨?_, hU2, ?_, ?_, hmem2⟩
      · exact ⟨hwf2.capPow, hwf2.capGe, hwf2.icapPow, hwf2.icapGe,
          hwf2.icapLe, hwf2.growatEq, hwf2.shrinkatEq, hwf2.countEq,
          hwf2.countLe, hwf2.dinv, hwf2.rinv, hwf2.hcinv⟩
      · exact eqok_congr
          (⟨rfl, rfl, rfl, rfl, rfl⟩ : SameCfg mm { mm with oom := true })
          hE2
      · exact sameCfg_trans hcfg12 ⟨rfl, rfl, rfl, rfl, rfl⟩
    · have hok : mm.growat ≤ mm.count → ok = true := by
        intro hg
        cases ok with
        | false => exact absurd ⟨hg, rfl⟩ hgf
        | true => rfl
      by_cases hm : ∃ j, j < mm.cap ∧ MatchAt mm x j
      · obtain ⟨m1g, jm, m', hgi, hjm, hmatm, hm'def, hseteq, hhash, hcmp,
          hpairm, hdecold, hdecnew, hcfg', hoom', hwf', hU', hcnt', hpermg⟩ :=
          hashmap_set_present mm x ok hwf2 hU2 hE2 hok hm
        rw [hseteq]
        refine ⟨hwf', hU', eqok_congr hcfg' hE2, sameCfg_trans hcfg12 hcfg',
          ?_⟩
        have hmem1g : (getHash ma R, R) ∈ pairsList m1g := by
          rw [hpermg.mem_iff]
          exact hmem2
        rw [hdecold] at hmem1g
        rw [hdecnew]
        rcases List.mem_append.1 hmem1g with hl1 | hl2
        · exact List.mem_append.2 (Or.inl hl1)
        · rcases List.mem_cons.1 hl2 with hmid | htail
          · exfalso
            have hh1 : getHash ma R = (m1g.buckets jm).hash := by
              have := congrArg Prod.fst hmid
              exact this
            have hR1 : R = (m1g.buckets jm).item := by
              have := congrArg Prod.snd hmid
              exact this
            have hgeq : getHash mm x = getHash mm R := by
              rw [hgR, hh1]
              exact hhash.symm
            have hcne := hne hgeq
            apply hcne
            rw [← hR1] at hcmp
            exact hcmp
          · exact List.mem_append.2 (Or.inr (List.mem_cons_of_mem _ htail))
      · push_neg at hm
        obtain ⟨m', hseteq, hcfg', hoom', hwf', hU', hcnt', hcaple, hperm'⟩ :=
          hashmap_set_absent mm x ok hwf2 hU2 hE2 hok hm
        rw [hseteq]
        refine ⟨hwf', hU', eqok_congr hcfg' hE2, sameCfg_trans hcfg12 hcfg',
          ?_⟩
        rw [hperm'.mem_iff]
        exact List.mem_cons_of_mem _ hmem2
  | del q ok hprev hne ih =>
    obtain ⟨hwf2, hU2, hE2, hcfg12, hmem2⟩ := ih
    rename_i mm
    have hgR : getHash mm R = getHash ma R := getHash_congr hcfg12 R
    rcases hashmap_delete_spec mm q ok hwf2 with ⟨hf, heq⟩ |
      ⟨j, hj, hf, hmat, m', heq, hcfg', hwf', hoom', hcnt', hcaple, hshr,
        hperm⟩
    · rw [heq]
      exact ⟨hwf2, hU2, hE2, hcfg12, hmem2⟩
    · rw [heq]
      have hU' : Uinv m' := by
        unfold Uinv
        rw [hcfg'.2.1]
        have hu2 := hU2
        unfold Uinv at hu2
        have hcons := (uinv_pairwise_perm mm hperm).1 hu2
        exact hcons.of_cons
      refine ⟨hwf', hU', eqok_congr hcfg' hE2, sameCfg_trans hcfg12 hcfg',
        ?_⟩
      have hmemc : (getHash ma R, R) ∈
          ((mm.buckets j).hash, (mm.buckets j).item) :: pairsList m' := by
        rw [← hperm.mem_iff]
        exact hmem2
      rcases List.mem_cons.1 hmemc with hmid | htail
      · exfalso
        have hh1 : getHash ma R = (mm.buckets j).hash := congrArg Prod.fst hmid
        have hR1 : R = (mm.buckets j).item := congrArg Prod.snd hmid
        have hgeq : getHash mm q = getHash mm R := by
          rw [hmat.2.1] at hh1
          rw [hgR, hh1]
        have hcne := hne hgeq
        apply hcne
        have hc := hmat.2.2
        rw [← hR1] at hc
        exact hc
      · exact htail

theorem scanTrace_spec (m : Hashmap α) (f : α → Bool) :
    ∀ l : List Nat,
    (scanTrace m f l).2 = scanList m f l ∧
    ((scanTrace m f l).2 = true →
      (scanTrace m f l).1 = (pairsFun m.buckets l).map Prod.snd ∧
      ∀ y ∈ (scanTrace m f l).1, f y = true) ∧
    ((scanTrace m f l).2 = false →
      ∃ ys y zs, (pairsFun m.buckets l).map Prod.snd = ys ++ y :: zs ∧
        (scanTrace m f l).1 = ys ++ [y] ∧ f y = false ∧
        ∀ z ∈ ys, f z = true) := by
  intro l
  induction l with
  | nil =>
    refine ⟨rfl, fun _ => ⟨rfl, ?_⟩, fun h => ?_⟩
    · intro y hy
      cases hy
    · simp [scanTrace] at h
  | cons i l ih =>
    obtain ⟨ih1, ih2, ih3⟩ := ih
    by_cases hz : (m.buckets i).dib ≠ 0
    · by_cases hf : f (m.buckets i).item = true
      · have he1 : scanTrace m f (i :: l) =
            ((m.buckets i).item :: (scanTrace m f l).1,
             (scanTrace m f l).2) := by
          simp [scanTrace, hz, hf]
        have he2 : scanList m f (i :: l) = scanList m f l := by
          simp [scanList, hz, hf]
        have he3 : pairsFun m.buckets (i :: l) =
            ((m.buckets i).hash, (m.buckets i).item) ::
              pairsFun m.buckets l := by
          rw [pairsFun, if_pos hz]
        rw [he1, he2, he3]
        refine ⟨ih1, ?_, ?_⟩
        · intro ht
          obtain ⟨h1, h2⟩ := ih2 ht
          refine ⟨by rw [h1]; rfl, ?_⟩
          intro y hy
          rcases List.mem_cons.1 hy with hy1 | hy2
          · rw [hy1]
            exact hf
          · exact h2 y hy2
        · intro hfl
          obtain ⟨ys, y, zs, h1, h2, h3, h4⟩ := ih3 hfl
          refine ⟨(m.buckets i).item :: ys, y, zs, ?_, ?_, h3, ?_⟩
          · show ((m.buckets i).item :: (pairsFun m.buckets l).map Prod.snd) = _
            rw [h1]
            rfl
          · show (m.buckets i).item :: (scanTrace m f l).1 = _
            rw [h2]
            rfl
          · intro z hzm
            rcases List.mem_cons.1 hzm with hz1 | hz2
            · rw [hz1]
              exact hf
            · exact h4 z hz2
      · have he1 : scanTrace m f (i :: l) = ([(m.buckets i).item], false) := by
          simp [scanTrace, hz, hf]
        have he2 : scanList m f (i :: l) = false := by
          simp [scanList, hz, hf]
        have he3 : pairsFun m.buckets (i :: l) =
            ((m.buckets i).hash, (m.buckets i).item) ::
              pairsFun m.buckets l := by
          rw [pairsFun, if_pos hz]
        rw [he1, he2, he3]
        refine ⟨rfl, ?_, ?_⟩
        · intro ht
          simp at ht
        · intro hfl
          refine ⟨[], (m.buckets i).item, (pairsFun m.buckets l).map Prod.snd,
            rfl, rfl, ?_, ?_⟩
          · simp at hf
            exact hf
          · intro z hzm
            cases hzm
    · have he1 : scanTrace m f (i :: l) = scanTrace m f l := by
        simp [scanTrace, hz]
      have he2 : scanList m f (i :: l) = scanList m f l := by
        simp [scanList, hz]
      have he3 : pairsFun m.buckets (i :: l) = pairsFun m.buckets l := by
        rw [pairsFun, if_neg hz]
      rw [he1, he2, he3]
      exact ⟨ih1, ih2, ih3⟩

theorem iterChain_spec (m : Hashmap α) :
    ∀ k c fuel, m.cap - c ≤ k → m.cap - c < fuel →
    iterChain m c fuel =
      (pairsFun m.buckets (List.range' c (m.cap - c))).map Prod.snd := by
  intro k
  induction k with
  | zero =>
    intro c fuel hk hf
    have h0 : m.cap - c = 0 := by omega
    cases fuel with
    | zero => omega
    | succ fuel =>
      have hit : hashmap_iter m c = none := by
        unfold hashmap_iter
        rw [h0, List.range'_zero]
        rfl
      show (match hashmap_iter m c with
        | none => []
        | some (c2, y) => y :: iterChain m c2 fuel) = _
      rw [hit, h0, List.range'_zero]
      rfl
  | succ k ih =>
    intro c fuel hk hf
    cases fuel with
    | zero => omega
    | succ fuel =>
      by_cases hcc : m.cap ≤ c
      · have h0 : m.cap - c = 0 := by omega
        have hit : hashmap_iter m c = none := by
          unfold hashmap_iter
          rw [h0, List.range'_zero]
          rfl
        show (match hashmap_iter m c with
          | none => []
          | some (c2, y) => y :: iterChain m c2 fuel) = _
        rw [hit, h0, List.range'_zero]
        rfl
      · push_neg at hcc
        have hsplit : List.range' c (m.cap - c) =
            c :: List.range' (c + 1) (m.cap - c - 1) := by
          have h1 : m.cap - c = (m.cap - c - 1) + 1 := by omega
          rw [h1, List.range'_succ]
          rw [Nat.add_sub_cancel]
        by_cases hocc : (m.buckets c).dib ≠ 0
        · have hit : hashmap_iter m c = some (c + 1, (m.buckets c).item) := by
            unfold hashmap_iter
            rw [hsplit]
            simp [iterFrom, hocc]
          show (match hashmap_iter m c with
            | none => []
            | some (c2, y) => y :: iterChain m c2 fuel) = _
          rw [hit]
          show (m.buckets c).item :: iterChain m (c + 1) fuel = _
          rw [hsplit]
          rw [pairsFun, if_pos hocc]
          rw [ih (c + 1) fuel (by omega) (by omega)]
          have harith : m.cap - (c + 1) = m.cap - c - 1 := by omega
          rw [harith]
          rfl
        · have hit : hashmap_iter m c = hashmap_iter m (c + 1) := by
            unfold hashmap_iter
            rw [hsplit]
            have harith : m.cap - (c + 1) = m.cap - c - 1 := by omega
            rw [harith]
            simp [iterFrom, hocc]
          have hstep : iterChain m c (fuel + 1) = iterChain m (c + 1) (fuel + 1) := by
            show (match hashmap_iter m c with
              | none => []
              | some (c2, y) => y :: iterChain m c2 fuel) =
              (match hashmap_iter m (c + 1) with
              | none => []
              | some (c2, y) => y :: iterChain m c2 fuel)
            rw [hit]
          rw [hstep]
          rw [ih (c + 1) (fuel + 1) (by omega) (by omega)]
          rw [hsplit]
          rw [pairsFun, if_neg hocc]
          have harith : m.cap - (c + 1) = m.cap - c - 1 := by omega
          rw [harith]

theorem iterFrom_none (m : Hashmap α) :
    ∀ l : List Nat, iterFrom m l = none ↔
      ∀ i ∈ l, (m.buckets i).dib = 0 := by
  intro l
  induction l with
  | nil =>
    constructor
    · intro h i hi
      cases hi
    · intro h
      rfl
  | cons i l ih =>
    by_cases hz : (m.buckets i).dib ≠ 0
    · constructor
      · intro h
        simp [iterFrom, hz] at h
      · intro h
        exact absurd (h i (List.mem_cons_self i l)) hz
    · have he : iterFrom m (i :: l) = iterFrom m l := by
        simp [iterFrom, hz]
      rw [he, ih]
      constructor
      · intro h j hj
        rcases List.mem_cons.1 hj with hj1 | hj2
        · rw [hj1]
          push_neg at hz
          exact hz
        · exact h j hj2
      · intro h j hj
        exact h j (List.mem_cons_of_mem i hj)

theorem delete_get_none [Inhabited α] {m m' : Hashmap α} {x : α} {j : Nat}
    (hU : Uinv m) (hE : EqOk m) (hmat : MatchAt m x j)
    (hcfg : SameCfg m m') (hwfm' : WF m')
    (hperm : (pairsList m).Perm
      (((m.buckets j).hash, (m.buckets j).item) :: pairsList m')) :
    hashmap_get m' x = none := by
  have hn' : 0 < m'.cap := by
    have := hwfm'.capGe
    omega
  apply hashmap_get_absent hn'
  intro j' hj' hmt'
  have hp : ((m'.buckets j').hash, (m'.buckets j').item) ∈ pairsList m' :=
    pair_mem_pairsList hj' hmt'.1
  have hcons : List.Pairwise (fun p q : Nat × α => p.1 = q.1 →
      m.elCompare p.2 q.2 ≠ 0 ∧ m.elCompare q.2 p.2 ≠ 0)
      (((m.buckets j).hash, (m.buckets j).item) :: pairsList m') := by
    have hu := hU
    unfold Uinv at hu
    exact (uinv_pairwise_perm m hperm).1 hu
  have hrel := (List.pairwise_cons.1 hcons).1 _ hp
  have hh : (m.buckets j).hash = (m'.buckets j').hash := by
    rw [hmat.2.1, hmt'.2.1]
    exact (getHash_congr hcfg x).symm
  have hrel2 := hrel hh
  apply hrel2.1
  have h1 : m.elCompare x (m.buckets j).item = 0 := hmat.2.2
  have h2 : m.elCompare x (m'.buckets j').item = 0 := by
    rw [← hcfg.2.1]
    exact hmt'.2.2
  exact hE.trans _ x _ (hE.symm x _ h1) h2

theorem hashmap_set_oom_eq [Inhabited α] (m : Hashmap α) (x : α) (ok : Bool) :
    (hashmap_set m x ok).1.oom = (decide (m.growat ≤ m.count) && !ok) := by
  by_cases hg : m.growat ≤ m.count
  · cases ok with
    | false =>
      rw [hashmap_set_grow_fail m x hg]
      simp [hg]
    | true =>
      rw [set_eq_doInsert m (resize m (m.cap * 2)) x true (by
        unfold growIfNeeded
        rw [if_pos hg, if_pos rfl])]
      rw [doInsert_oom]
      simp
  · rw [set_eq_doInsert m m x ok (by
      unfold growIfNeeded
      rw [if_neg hg])]
    rw [doInsert_oom]
    simp [hg]

theorem get_stored [Inhabited α] {m : Hashmap α} {R : α}
    (hwf : WF m) (hU : Uinv m) (hE : EqOk m)
    (hRR : m.elCompare R R = 0)
    (hmem : (getHash m R, R) ∈ pairsList m) :
    hashmap_get m R = some R := by
  have hmem' : ((getHash m R, R) : Nat × α) ∈
      pairsFun m.buckets (List.range m.cap) := hmem
  obtain ⟨j, hjr, hz, hh, hi⟩ := mem_pairsFun.1 hmem'
  have hj : j < m.cap := List.mem_range.1 hjr
  have hmt : MatchAt m R j := by
    refine ⟨hz, ?_, ?_⟩
    · rw [hh]
    · rw [hi]
      exact hRR
  obtain ⟨jm, hjm, hmatjm, hfind⟩ :=
    hashmap_find_of_match hwf.dinv hwf.rinv hj hmt
  have hjj : jm = j := matchAt_unique hU hE hjm hj hmatjm hmt
  unfold hashmap_get
  rw [hfind, hjj]
  show some ((m.buckets j).item) = some R
  rw [hi]

theorem clipHash_spec : ∀ h : Nat, h < 2 ^ 64 →
    Nat.testBit (clipHash h) 63 = false ∧
    (∀ i, i ≠ 63 → Nat.testBit (clipHash h) i = Nat.testBit h i) := by
  intro h hlt
  have hch : clipHash h = h % 2 ^ 63 := by
    unfold clipHash
    rw [Nat.mod_eq_of_lt hlt]
  constructor
  · rw [hch, Nat.testBit_mod_two_pow]
    simp
  · intro i hi
    rw [hch, Nat.testBit_mod_two_pow]
    rcases Nat.lt_trichotomy i 63 with h1 | h1 | h1
    · simp [h1]
    · exact absurd h1 hi
    · have hge : ¬ i < 63 := by omega
      have hbit : Nat.testBit h i = false := by
        apply Nat.testBit_eq_false_of_lt
        exact lt_of_lt_of_le hlt (Nat.pow_le_pow_right (by norm_num) (by omega))
      simp [hge, hbit]

theorem delete_snd [Inhabited α] (m : Hashmap α) (q : α) (ok : Bool) :
    (hashmap_delete m q ok).2 =
      (hashmap_find m q).map fun i => (m.buckets i).item := by
  cases hf : hashmap_find m q with
  | none =>
    unfold hashmap_delete
    rw [hf]
    rfl
  | some i =>
    have hdel : hashmap_delete m q ok =
        (if m.count - 1 ≤ m.shrinkat ∧ m.initialCap < m.cap then
          (if ok = true then
            (resize { m with buckets := shiftLoop m.buckets m.cap i m.cap, count := m.count - 1 } ({ m with buckets := shiftLoop m.buckets m.cap i m.cap, count := m.count - 1 }.cap / 2), some ((m.buckets i).item))
           else ({ m with buckets := shiftLoop m.buckets m.cap i m.cap, count := m.count - 1 }, some ((m.buckets i).item)))
         else ({ m with buckets := shiftLoop m.buckets m.cap i m.cap, count := m.count - 1 }, some ((m.buckets i).item))) := by
      unfold hashmap_delete
      rw [hf]
    rw [hdel]
    by_cases h1 : m.count - 1 ≤ m.shrinkat ∧ m.initialCap < m.cap
    · rw [if_pos h1]
      by_cases h2 : ok = true
      · rw [if_pos h2]
        rfl
      · rw [if_neg h2]
        rfl
    · rw [if_neg h1]
      rfl

theorem set_tracks [Inhabited α] (m : Hashmap α) (R : α) (ok : Bool)
    (hwf : WF m) (hU : Uinv m) (hE : EqOk m)
    (hok : m.growat ≤ m.count → ok = true) :
    WF (hashmap_set m R ok).1 ∧ Uinv (hashmap_set m R ok).1 ∧
    EqOk (hashmap_set m R ok).1 ∧ SameCfg m (hashmap_set m R ok).1 ∧
    (getHash m R, R) ∈ pairsList (hashmap_set m R ok).1 := by
  by_cases hm : ∃ j, j < m.cap ∧ MatchAt m R j
  · obtain ⟨m1g, jm, m', hgi, hjm, hmatm, hm'def, hseteq, hhash, hcmp,
      hpairm, hdecold, hdecnew, hcfg', hoom', hwf', hU', hcnt', hpermg⟩ :=
      hashmap_set_present m R ok hwf hU hE hok hm
    rw [hseteq]
    show WF m' ∧ Uinv m' ∧ EqOk m' ∧ SameCfg m m' ∧
      (getHash m R, R) ∈ pairsList m'
    refine ⟨hwf', hU', eqok_congr hcfg' hE, hcfg', ?_⟩
    rw [hdecnew, ← hhash]
    exact List.mem_append.2 (Or.inr (List.mem_cons_self _ _))
  · push_neg at hm
    obtain ⟨m', hseteq, hcfg', hoom', hwf', hU', hcnt', hcaple, hperm'⟩ :=
      hashmap_set_absent m R ok hwf hU hE hok hm
    rw [hseteq]
    show WF m' ∧ Uinv m' ∧ EqOk m' ∧ SameCfg m m' ∧
      (getHash m R, R) ∈ pairsList m'
    refine ⟨hwf', hU', eqok_congr hcfg' hE, hcfg', ?_⟩
    rw [hperm'.mem_iff]
    exact List.mem_cons_self _ _

theorem uinv_mEx : Uinv mEx := by
  unfold Uinv
  rw [show pairsList mEx = ([] : List (Nat × Nat)) from pairsFun_empty _]
  exact List.Pairwise.nil

theorem eqok_mEx : EqOk mEx := by
  refine ⟨?_, ?_, ?_⟩
  · intro a b h
    have h' : (a : Int) - b = 0 := h
    show (b : Int) - a = 0
    omega
  · intro a b c h1 h2
    have h1' : (a : Int) - b = 0 := h1
    have h2' : (b : Int) - c = 0 := h2
    show (a : Int) - c = 0
    omega
  · intro a b h
    have h' : (a : Int) - b = 0 := h
    have hab : a = b := by omega
    show natHash a mEx.seed0 mEx.seed1 = natHash b mEx.seed0 mEx.seed1
    rw [hab]

/-! ## The claims -/

/-- C1.  Round-trip: a record `R` stored by `hashmap_set` (under the §6
callback contract) and not subsequently replaced or deleted is returned
by `hashmap_get` with `R` as the query, byte-for-byte (here: as the very
value `R`), across any intervening inserts, deletes and the resizes they
trigger that involve only other keys; and `hashmap_get` of a key with no
matching slot returns `none`. -/
theorem claim_C1 {α : Type} [Inhabited α] (m0 ma2 : Hashmap α) (R : α)
    (ok : Bool) (res : Option α) (mb : Hashmap α)
    (hwf : WF m0) (hU : Uinv m0) (hE : EqOk m0)
    (hRR : m0.elCompare R R = 0)
    (hok : m0.growat ≤ m0.count → ok = true)
    (hset : hashmap_set m0 R ok = (ma2, res))
    (hsteps : OtherSteps R ma2 mb) :
    hashmap_get mb R = some R ∧
    (∀ (mz : Hashmap α) (q : α), 0 < mz.cap →
      (∀ j < mz.cap, ¬ MatchAt mz q j) → hashmap_get mz q = none) := by
  constructor
  · have h0 := set_tracks m0 R ok hwf hU hE hok
    rw [hset] at h0
    have h0' : WF ma2 ∧ Uinv ma2 ∧ EqOk ma2 ∧ SameCfg m0 ma2 ∧
        (getHash m0 R, R) ∈ pairsList ma2 := h0
    obtain ⟨hwfa, hUa, hEa, hcfga, hmema⟩ := h0'
    have hmema2 : (getHash ma2 R, R) ∈ pairsList ma2 := by
      rw [getHash_congr hcfga R]
      exact hmema
    obtain ⟨hwfb, hUb, hEb, hcfgb, hmemb⟩ :=
      otherSteps_preserve hsteps hwfa hUa hEa hmema2
    have hmemb2 : (getHash mb R, R) ∈ pairsList mb := by
      rw [getHash_congr hcfgb R]
      exact hmemb
    have hRRb : mb.elCompare R R = 0 := by
      rw [hcfgb.2.1, hcfga.2.1]
      exact hRR
    exact get_stored hwfb hUb hEb hRRb hmemb2
  · intro mz q hz habs
    exact hashmap_get_absent hz habs

theorem claim_C1_witness :
    hashmap_get ((hashmap_set mEx 5 false).1) 5 = some 5 ∧
    (∀ (mz : Hashmap Nat) (q : Nat), 0 < mz.cap →
      (∀ j < mz.cap, ¬ MatchAt mz q j) → hashmap_get mz q = none) :=
  claim_C1 mEx (hashmap_set mEx 5 false).1 5 false
    (hashmap_set mEx 5 false).2 (hashmap_set mEx 5 false).1
    (mkNew_WF natHash natCmp 0 0 0) uinv_mEx eqok_mEx
    (by decide)
    (by
      intro h2
      exact absurd h2 (by decide))
    rfl
    (OtherSteps.refl _)

/-- C2.  Insert-or-replace: when a slot matching the record's key exists,
`hashmap_set` (after the growth check) overwrites that slot's payload
with the new record, keeping the slot's probe-distance and cached hash,
returns the previously stored record, and leaves the count unchanged;
when no slot matches, the record is inserted, the count increases by one,
and nothing is returned. -/
theorem claim_C2 {α : Type} [Inhabited α] (m : Hashmap α) (x : α) (ok : Bool)
    (hwf : WF m) (hU : Uinv m) (hE : EqOk m)
    (hok : m.growat ≤ m.count → ok = true) :
    ((∃ j, j < m.cap ∧ MatchAt m x j) →
      ∃ m1 jm, growIfNeeded m ok = some m1 ∧ jm < m1.cap ∧ MatchAt m1 x jm ∧
        hashmap_set m x ok = ({ m1 with oom := false, buckets := Function.update m1.buckets jm ⟨(m1.buckets jm).dib, (m1.buckets jm).hash, x⟩ }, some ((m1.buckets jm).item)) ∧
        ((m1.buckets jm).hash, (m1.buckets jm).item) ∈ pairsList m ∧
        m.elCompare x ((m1.buckets jm).item) = 0 ∧
        (m1.buckets jm).hash = getHash m x ∧
        (hashmap_set m x ok).1.count = m.count ∧
        (((m1.buckets jm).hash, (m1.buckets jm).item) ::
          pairsList (hashmap_set m x ok).1).Perm
          (((m1.buckets jm).hash, x) :: pairsList m)) ∧
    ((∀ j, j < m.cap → ¬ MatchAt m x j) →
      ∃ m', hashmap_set m x ok = (m', none) ∧ m'.oom = false ∧
        m'.count = m.count + 1 ∧
        (pairsList m').Perm ((getHash m x, x) :: pairsList m)) := by
  constructor
  · intro hm
    obtain ⟨m1g, jm, m', hgi, hjm, hmatm, hm'def, hseteq, hhash, hcmp,
      hpairm, hdecold, hdecnew, hcfg', hoom', hwf', hU', hcnt', hpermg⟩ :=
      hashmap_set_present m x ok hwf hU hE hok hm
    have hfst : (hashmap_set m x ok).1 = m' := by
      rw [hseteq]
    refine ⟨m1g, jm, hgi, hjm, hmatm, ?_, hpairm, hcmp, hhash, ?_, ?_⟩
    · rw [hseteq, hm'def]
    · rw [hfst]
      exact hcnt'
    · rw [hfst, hdecnew]
      rw [hdecold] at hpermg
      exact ((List.Perm.cons _ List.perm_middle).trans
        ((List.Perm.swap _ _ _).trans
          ((List.Perm.cons _ List.perm_middle.symm).trans
            (List.Perm.cons _ hpermg))))
  · intro habs
    obtain ⟨m', hseteq, hcfg', hoom', hwf', hU', hcnt', hcaple, hperm'⟩ :=
      hashmap_set_absent m x ok hwf hU hE hok habs
    exact ⟨m', hseteq, hoom', hcnt', hperm'⟩

theorem claim_C2_witness :
    ((∃ j, j < mEx.cap ∧ MatchAt mEx 5 j) →
      ∃ m1 jm, growIfNeeded mEx false = some m1 ∧ jm < m1.cap ∧
        MatchAt m1 5 jm ∧
        hashmap_set mEx 5 false = ({ m1 with oom := false, buckets := Function.update m1.buckets jm ⟨(m1.buckets jm).dib, (m1.buckets jm).hash, 5⟩ }, some ((m1.buckets jm).item)) ∧
        ((m1.buckets jm).hash, (m1.buckets jm).item) ∈ pairsList mEx ∧
        mEx.elCompare 5 ((m1.buckets jm).item) = 0 ∧
        (m1.buckets jm).hash = getHash mEx 5 ∧
        (hashmap_set mEx 5 false).1.count = mEx.count ∧
        (((m1.buckets jm).hash, (m1.buckets jm).item) ::
          pairsList (hashmap_set mEx 5 false).1).Perm
          (((m1.buckets jm).hash, 5) :: pairsList mEx)) ∧
    ((∀ j, j < mEx.cap → ¬ MatchAt mEx 5 j) →
      ∃ m', hashmap_set mEx 5 false = (m', none) ∧ m'.oom = false ∧
        m'.count = mEx.count + 1 ∧
        (pairsList m').Perm ((getHash mEx 5, 5) :: pairsList mEx)) :=
  claim_C2 mEx 5 false (mkNew_WF natHash natCmp 0 0 0) uinv_mEx eqok_mEx
    (by
      intro h2
      exact absurd h2 (by decide))

/-- C3.  Delete: removing a present key returns the removed record,
decrements the count, and an immediate re-lookup returns nothing; the
removed record is handed back rather than destroyed; afterwards, when the
new count is at most `shrinkat` and the capacity exceeds `initial_cap`,
the capacity is halved, a failed shrink allocation being silently
ignored with the table left correct at its current capacity; deleting an
absent key returns nothing and changes nothing. -/
theorem claim_C3 {α : Type} [Inhabited α] (m : Hashmap α) (x : α) (ok : Bool)
    (hwf : WF m) (hU : Uinv m) (hE : EqOk m) :
    (hashmap_find m x = none → hashmap_delete m x ok = (m, none)) ∧
    (∀ j, hashmap_find m x = some j →
      ∃ m', hashmap_delete m x ok = (m', some ((m.buckets j).item)) ∧
        m.elCompare x ((m.buckets j).item) = 0 ∧
        m'.count = m.count - 1 ∧ WF m' ∧
        hashmap_get m' x = none ∧
        (pairsList m).Perm
          (((m.buckets j).hash, (m.buckets j).item) :: pairsList m') ∧
        ((m.count - 1 ≤ m.shrinkat ∧ m.initialCap < m.cap ∧ ok = true ∧
            m'.cap = m.cap / 2) ∨
         (¬ (m.count - 1 ≤ m.shrinkat ∧ m.initialCap < m.cap ∧ ok = true) ∧
            m'.cap = m.cap))) := by
  constructor
  · intro hf
    rcases hashmap_delete_spec m x ok hwf with ⟨hf2, heq⟩ |
      ⟨j, hj, hf2, hmat, m', heq, hrest⟩
    · exact heq
    · rw [hf] at hf2
      simp at hf2
  · intro j hf
    rcases hashmap_delete_spec m x ok hwf with ⟨hf2, heq⟩ |
      ⟨j2, hj2, hf2, hmat, m', heq, hcfg, hwf', hoom', hcnt', hcaple, hshr,
        hperm⟩
    · rw [hf] at hf2
      simp at hf2
    · have hjj : j2 = j := by
        rw [hf] at hf2
        injection hf2 with hji
        exact hji.symm
      subst hjj
      refine ⟨m', heq, hmat.2.2, hcnt', hwf', ?_, hperm, hshr⟩
      exact delete_get_none hU hE hmat hcfg hwf' hperm

theorem claim_C3_witness :
    (hashmap_find mEx 0 = none → hashmap_delete mEx 0 false = (mEx, none)) ∧
    (∀ j, hashmap_find mEx 0 = some j →
      ∃ m', hashmap_delete mEx 0 false = (m', some ((mEx.buckets j).item)) ∧
        mEx.elCompare 0 ((mEx.buckets j).item) = 0 ∧
        m'.count = mEx.count - 1 ∧ WF m' ∧
        hashmap_get m' 0 = none ∧
        (pairsList mEx).Perm
          (((mEx.buckets j).hash, (mEx.buckets j).item) :: pairsList m') ∧
        ((mEx.count - 1 ≤ mEx.shrinkat ∧ mEx.initialCap < mEx.cap ∧
            false = true ∧ m'.cap = mEx.cap / 2) ∨
         (¬ (mEx.count - 1 ≤ mEx.shrinkat ∧ mEx.initialCap < mEx.cap ∧
            false = true) ∧ m'.cap = mEx.cap))) :=
  claim_C3 mEx 0 false (mkNew_WF natHash natCmp 0 0 0) uinv_mEx eqok_mEx

/-- C4.  Out-of-memory atomicity and flag: a `set` that needs growth
whose allocation fails returns nothing, leaves count and stored contents
exactly as before, and sets the out-of-memory flag; any other `set`
finishes with the flag cleared; after any `set`, `hashmap_oom` reads
true exactly when that call required growth and its allocation failed. -/
theorem claim_C4 {α : Type} [Inhabited α] (m : Hashmap α) (x : α) (ok : Bool) :
    hashmap_oom (hashmap_set m x ok).1 =
      (decide (m.growat ≤ m.count) && !ok) ∧
    (m.growat ≤ m.count → ok = false →
      hashmap_set m x ok = ({ m with oom := true }, none) ∧
      (hashmap_set m x ok).1.count = m.count ∧
      pairsList (hashmap_set m x ok).1 = pairsList m ∧
      (hashmap_set m x ok).2 = none ∧
      hashmap_oom (hashmap_set m x ok).1 = true) ∧
    (¬ (m.growat ≤ m.count ∧ ok = false) →
      hashmap_oom (hashmap_set m x ok).1 = false) := by
  refine ⟨hashmap_set_oom_eq m x ok, ?_, ?_⟩
  · intro hg hko
    subst hko
    rw [hashmap_set_grow_fail m x hg]
    exact ⟨rfl, rfl, rfl, rfl, rfl⟩
  · intro hnot
    have h1 := hashmap_set_oom_eq m x ok
    show (hashmap_set m x ok).1.oom = false
    rw [h1]
    by_cases hg : m.growat ≤ m.count
    · have hko : ok = true := by
        cases ok with
        | false => exact absurd ⟨hg, rfl⟩ hnot
        | true => rfl
      subst hko
      simp
    · simp [hg]

/-- C5 (amended).  Structural invariants preserved by every operation:
any table reachable by construction, insert-or-replace, delete and clear
calls (lookups and iteration read only) has a power-of-two capacity at
least `max 16 initial_cap`, every occupied bucket's probe-distance is
1 + (index − home index mod cap), the Robin Hood bound holds in the form
that an occupied bucket with probe-distance at least 2 follows a bucket
with probe-distance at least one less, and the count equals the number
of buckets with nonzero probe-distance.  (The literal non-decreasing
clause of the original claim is refuted by the counterexample
theorem.) -/
theorem claim_C5 {α : Type} [Inhabited α] (m : Hashmap α)
    (h : Reachable m) :
    (∃ k, m.cap = 2 ^ k) ∧ 16 ≤ m.cap ∧ m.initialCap ≤ m.cap ∧
    Dinv m.buckets m.cap ∧ Rinv m.buckets m.cap ∧
    m.count = occCount m := by
  have hwf := reachable_WF h
  exact ⟨hwf.capPow, hwf.capGe, hwf.icapLe, hwf.dinv, hwf.rinv, hwf.countEq⟩

theorem claim_C5_witness :
    (∃ k, mEx.cap = 2 ^ k) ∧ 16 ≤ mEx.cap ∧ mEx.initialCap ≤ mEx.cap ∧
    Dinv mEx.buckets mEx.cap ∧ Rinv mEx.buckets mEx.cap ∧
    mEx.count = occCount mEx :=
  claim_C5 mEx (Reachable.new natHash natCmp 0 0 0)

/-- C5 counterexample: `mBad` is reachable (four inserts into a fresh
table), yet the literal clause "probe-distances of occupied buckets
along a probe sequence are non-decreasing" fails on it: walking from
home index 2, the walk meets probe-distance 3 (slot 2) and then
probe-distance 1 (slot 3). -/
theorem claim_C5_counterexample : Reachable mBad ∧ ¬ ProbeSeqNonDecr mBad := by
  constructor
  · exact Reachable.set 3 true (Reachable.set 32 true (Reachable.set 16 true
      (Reachable.set 0 true (Reachable.new natHash natCmp 0 0 0))))
  · intro hns
    have h1 := hns 2 (by decide) 0 (by decide) 1 (by decide) (by decide)
      (by decide) (by decide)
    exact absurd h1 (by decide)

/-- C6.  Clear and destructor discipline: `hashmap_clear` resets every
slot to empty and the count to zero, and hands the destructor exactly
the payloads of the slots occupied at the time of the call, one each in
storage order (`occCount`-many records); `hashmap_free` hands the
destructor exactly the same records; `hashmap_delete` never feeds a
record to the destructor — the removed record (when the key is found) is
returned to the caller instead. -/
theorem claim_C6 {α : Type} [Inhabited α] (m : Hashmap α) (uc ok : Bool) :
    (hashmap_clear m uc ok).2 = itemsList m ∧
    (hashmap_clear m uc ok).1.count = 0 ∧
    (∀ i, ((hashmap_clear m uc ok).1.buckets i).dib = 0) ∧
    (hashmap_clear m uc ok).2.length = occCount m ∧
    hashmap_free m = itemsList m ∧
    (∀ (q : α) (ok2 : Bool), (hashmap_delete m q ok2).2 =
      (hashmap_find m q).map fun i => (m.buckets i).item) := by
  refine ⟨rfl, rfl, fun i => rfl, ?_, rfl, fun q ok2 => delete_snd m q ok2⟩
  show (itemsList m).length = occCount m
  unfold itemsList
  rw [List.length_map, ← occCount_eq]

/-- C7.  Iteration: the callback scan invokes the callback once per
occupied slot in bucket-storage order — when every callback answer is
true the invocation list is exactly the stored payload list and the scan
returns true; when some answer is false the scan stops at the first
false and returns false — and a cursor loop started at 0 yields exactly
the stored payload list; the cursor step returns nothing when no
occupied slot remains at or past the cursor. -/
theorem claim_C7 {α : Type} [Inhabited α] (m : Hashmap α) (f : α → Bool) :
    (hashmap_scanTr m f).2 = hashmap_scan m f ∧
    (hashmap_scan m f = true →
      (hashmap_scanTr m f).1 = itemsList m ∧
      ∀ y ∈ itemsList m, f y = true) ∧
    (hashmap_scan m f = false →
      ∃ ys y zs, itemsList m = ys ++ y :: zs ∧
        (hashmap_scanTr m f).1 = ys ++ [y] ∧ f y = false ∧
        ∀ z ∈ ys, f z = true) ∧
    iterChain m 0 (m.cap + 1) = itemsList m ∧
    (∀ c, (∀ i, c ≤ i → i < m.cap → (m.buckets i).dib = 0) →
      hashmap_iter m c = none) := by
  obtain ⟨hs1, hs2, hs3⟩ := scanTrace_spec m f (List.range m.cap)
  have hitems : itemsList m =
      (pairsFun m.buckets (List.range m.cap)).map Prod.snd := rfl
  refine ⟨hs1, ?_, ?_, ?_, ?_⟩
  · intro ht
    have ht2 : (scanTrace m f (List.range m.cap)).2 = true := by
      rw [hs1]
      exact ht
    obtain ⟨h1, h2⟩ := hs2 ht2
    refine ⟨by rw [hitems]; exact h1, ?_⟩
    intro y hy
    apply h2
    rw [h1, ← hitems]
    exact hy
  · intro hfl
    have hfl2 : (scanTrace m f (List.range m.cap)).2 = false := by
      rw [hs1]
      exact hfl
    obtain ⟨ys, y, zs, h1, h2, h3, h4⟩ := hs3 hfl2
    exact ⟨ys, y, zs, by rw [hitems]; exact h1, h2, h3, h4⟩
  · have h := iterChain_spec m m.cap 0 (m.cap + 1) (by omega) (by omega)
    rw [h, hitems]
    have hr : List.range' 0 (m.cap - 0) = List.range m.cap := by
      rw [Nat.sub_zero, ← List.range_eq_range']
    rw [hr]
  · intro c h
    unfold hashmap_iter
    apply (iterFrom_none m _).2
    intro i hi
    obtain ⟨h1, h2⟩ := List.mem_range'_1.1 hi
    have h3 : i < m.cap := by omega
    exact h i h1 h3

/-- C8.  Bundled hash conformance: `hashmap_sip` agrees with the official
SipHash-2-4 reference vectors (key `(seed0, seed1)`), including the
published key `0x0706050403020100 / 0x0f0e0d0c0b0a0908` at input lengths
0, 1, 8, 14 and 15 and two further vectors cross-checked against the
reference implementation; `hashmap_murmur` agrees with
MurmurHash3-x86-128 (low 64 bits of the digest, verified against the
SMHasher-validated reference) on vectors covering every tail length
class, is seeded by the low 32 bits of `seed0`, and is independent of
`seed1`. -/
theorem claim_C8 :
    hashmap_sip [] 0x0706050403020100 0x0f0e0d0c0b0a0908 =
      0x726fdb47dd0e0e31 ∧
    hashmap_sip [0] 0x0706050403020100 0x0f0e0d0c0b0a0908 =
      0x74f839c593dc67fd ∧
    hashmap_sip [0, 1, 2, 3, 4, 5, 6, 7] 0x0706050403020100
      0x0f0e0d0c0b0a0908 = 0x93f5f5799a932462 ∧
    hashmap_sip [0, 1, 2, 3, 4, 5, 6, 7, 8, 9, 10, 11, 12, 13]
      0x0706050403020100 0x0f0e0d0c0b0a0908 = 0xf723ca908e7af2ee ∧
    hashmap_sip [0, 1, 2, 3, 4, 5, 6, 7, 8, 9, 10, 11, 12, 13, 14]
      0x0706050403020100 0x0f0e0d0c0b0a0908 = 0xa129ca6149be45e5 ∧
    hashmap_sip [] 0 0 = 0x1e924b9d737700d7 ∧
    hashmap_sip [0, 1, 2, 3, 4, 5, 6, 7, 8, 9, 10, 11, 12] 0xdeadbeef
      0x12345678abcdef01 = 0x22806433c2c97ed4 ∧
    hashmap_murmur [] 0 0 = 0 ∧
    hashmap_murmur [] 1 0 = 0x54d201b988c4adec ∧
    hashmap_murmur [0, 1, 2, 3] 0 0 = 0x4e343ce2c72c99e7 ∧
    hashmap_murmur [0, 1, 2, 3, 4, 5, 6, 7, 8] 7 0 = 0x95c38f3d7e3de237 ∧
    hashmap_murmur [0, 1, 2, 3, 4, 5, 6, 7, 8, 9, 10, 11, 12, 13, 14, 15]
      0x12345678 0 = 0xe4af160b0f7e78bb ∧
    hashmap_murmur [0, 1, 2, 3, 4, 5, 6, 7, 8, 9, 10, 11, 12, 13, 14, 15,
      16, 17, 18, 19, 20, 21, 22] 99 0 = 0xfa0901d029eefa30 ∧
    hashmap_murmur [0, 1, 2, 3, 4, 5, 6, 7, 8, 9, 10, 11, 12, 13, 14, 15,
      16, 17, 18, 19, 20, 21, 22, 23, 24, 25, 26, 27, 28, 29, 30, 31, 32]
      0 0 = 0x76f9913650de15ba ∧
    (∀ (data : List Nat) (s0 s1 s1' : Nat),
      hashmap_murmur data s0 s1 = hashmap_murmur data s0 s1') ∧
    (∀ (data : List Nat) (s0 s1 : Nat),
      hashmap_murmur data s0 s1 = hashmap_murmur data (s0 % 2 ^ 32) s1) := by
  refine ⟨by decide, by decide, by decide, by decide, by decide, by decide,
    by decide, by decide, by decide, by decide, by decide, by decide,
    by decide, by decide, fun data s0 s1 s1' => rfl, ?_⟩
  intro data s0 s1
  show (murmur3_x86_128 data (s0 % 2 ^ 32)).1 +
      (murmur3_x86_128 data (s0 % 2 ^ 32)).2.1 * 2 ^ 32 =
    (murmur3_x86_128 data (s0 % 2 ^ 32 % 2 ^ 32)).1 +
      (murmur3_x86_128 data (s0 % 2 ^ 32 % 2 ^ 32)).2.1 * 2 ^ 32
  rw [Nat.mod_mod]

/-- C9.  High-bit convention: the table hash of a record is the caller's
hash-callback output with bit 63 cleared and all lower bits preserved
(`clipHash`), and `set`, `get` and `delete` all consult this same
`getHash`: `set` probes with `bucketOf`, which caches `getHash`, and
`get`/`delete` locate slots through `hashmap_find`, which compares
against `getHash`. -/
theorem claim_C9 {α : Type} [Inhabited α] (m : Hashmap α) (x : α) (h : Nat)
    (hlt : h < 2 ^ 64) :
    Nat.testBit (clipHash h) 63 = false ∧
    (∀ i, i ≠ 63 → Nat.testBit (clipHash h) i = Nat.testBit h i) ∧
    getHash m x = clipHash (m.elHash x m.seed0 m.seed1) ∧
    bucketOf m x = ⟨1, getHash m x, x⟩ ∧
    hashmap_find m x =
      findLoop m x (getHash m x) (getHash m x % m.cap) 1 (m.cap + 1) ∧
    hashmap_get m x = ((hashmap_find m x).map fun i => (m.buckets i).item) ∧
    (∀ ok, (hashmap_delete m x ok).2 =
      (hashmap_find m x).map fun i => (m.buckets i).item) := by
  obtain ⟨h1, h2⟩ := clipHash_spec h hlt
  exact ⟨h1, h2, rfl, rfl, rfl, rfl, fun ok => delete_snd m x ok⟩

theorem claim_C9_witness :
    Nat.testBit (clipHash 5) 63 = false ∧
    (∀ i, i ≠ 63 → Nat.testBit (clipHash 5) i = Nat.testBit 5 i) ∧
    getHash mEx 0 = clipHash (mEx.elHash 0 mEx.seed0 mEx.seed1) ∧
    bucketOf mEx 0 = ⟨1, getHash mEx 0, 0⟩ ∧
    hashmap_find mEx 0 =
      findLoop mEx 0 (getHash mEx 0) (getHash mEx 0 % mEx.cap) 1
        (mEx.cap + 1) ∧
    hashmap_get mEx 0 = (hashmap_find mEx 0).map
      (fun i => (mEx.buckets i).item) ∧
    (∀ ok, (hashmap_delete mEx 0 ok).2 =
      (hashmap_find mEx 0).map fun i => (mEx.buckets i).item) :=
  claim_C9 mEx 0 5 (by decide)

/-- C10.  Lookup is a pure reader: the lookup loop threaded with the
table state and the caller's query record returns both exactly as they
were passed in, alongside the lookup answer — `hashmap_get` writes
neither the table nor the query. -/
theorem claim_C10 {α : Type} (m : Hashmap α) (q : α) :
    hashmap_get_tr m q = ((m, q), hashmap_get m q) ∧
    (hashmap_get_tr m q).1.1 = m ∧ (hashmap_get_tr m q).1.2 = q := by
  have h := hashmap_get_tr_eq m q
  refine ⟨h, ?_, ?_⟩
  · rw [h]
  · rw [h]
